import Mathlib

/-!
RCube: primitive ray intersection and picking

Sources: `src/RCube/Core/Accel/Primitive.cpp`, `src/RCube/Core/Graphics/OpenGL/Mesh.cpp`,
`src/RCube/Core/Graphics/MeshGen/Plane.cpp`, `src/RCube/Core/Graphics/OpenGL/Framebuffer.cpp`.

Shallow embedding of the `Point` and `Triangle` primitives of the picking
accelerator and of their ray tests.

Conventions of the embedding.

* `float` is read in exact arithmetic: every definition is generic in a linear
  ordered field `K` (instantiate with `ℚ` to compute, with `ℝ` for square roots).
  Theorems over `K` are statements in exact arithmetic.
* Where rounding decides the result, `Triangle::rayIntersect` is embedded a second
  time over `F32`, the finite binary32 values with every operation rounded to
  nearest, ties to even (`Triangle.rayIntersect32`).
* `std::sqrt` is a parameter `sqrt : K → K` of `Point.rayIntersect`; theorems
  that need it assume `IsSqrt sqrt`, which `Real.sqrt` satisfies.
* An out-parameter `float &t` is passed in and returned: `rayIntersect ray t`
  returns the pair `(returned flag, value of t after the call)`.
* The literal `1e-6` is the rational `1 / 1000000`.
* Code that can run into undefined behaviour (`Mesh::updateBVH`,
  `Mesh::rayIntersect`) returns `Except Fault`.
* Code that can also throw or fail an `assert` returns `Except Raised`.
* `unsigned int` is a natural number with every operation reduced modulo `2^32`.
* The BVH (box test, builder, traversal) is not part of the sources at hand and is
  modelled from the spec; `Mesh.updateBVH` and `Mesh.rayIntersect` take their
  callees `buildBVH` and `bvh_->rayIntersect` as parameters.
-/

set_option linter.dupNamespace false

namespace rcube

/-! ## glm::vec3 -/

/-- The type `glm::vec3` with exact components. -/
@[ext]
structure Vec3 (K : Type) where
  x : K
  y : K
  z : K
deriving DecidableEq

namespace Vec3

variable {K : Type}

/-- Componentwise `operator+` of `glm::vec3`. -/
def add [Add K] (a b : Vec3 K) : Vec3 K :=
  ⟨a.x + b.x, a.y + b.y, a.z + b.z⟩

/-- Componentwise `operator-` of `glm::vec3`. -/
def sub [Sub K] (a b : Vec3 K) : Vec3 K :=
  ⟨a.x - b.x, a.y - b.y, a.z - b.z⟩

instance [Add K] : Add (Vec3 K) := ⟨Vec3.add⟩

instance [Sub K] : Sub (Vec3 K) := ⟨Vec3.sub⟩

/-- Scalar times vector, `s * v` of `glm::vec3`. -/
def scale [Mul K] (s : K) (v : Vec3 K) : Vec3 K :=
  ⟨s * v.x, s * v.y, s * v.z⟩

/-- Vector divided by a scalar, `v / s` of `glm::vec3`. -/
def div [Div K] (v : Vec3 K) (s : K) : Vec3 K :=
  ⟨v.x / s, v.y / s, v.z / s⟩

/-- Unary minus of `glm::vec3`. -/
def neg [Neg K] (v : Vec3 K) : Vec3 K :=
  ⟨-v.x, -v.y, -v.z⟩

/-- The inner product `glm::dot`. -/
def dot [Add K] [Mul K] (a b : Vec3 K) : K :=
  a.x * b.x + a.y * b.y + a.z * b.z

/-- The vector product `glm::cross`. -/
def cross [Sub K] [Mul K] (a b : Vec3 K) : Vec3 K :=
  ⟨a.y * b.z - b.y * a.z, a.z * b.x - b.z * a.x, a.x * b.y - b.x * a.y⟩

end Vec3

/-! ## Ray -/

/-- Modelled from the spec: the class `Ray` is declared in a header that is
not part of the sources at hand; the spec gives it an origin, a direction and
the scalars `tmin`, `tmax`, read through `origin()`, `direction()`, `tmin()`,
`tmax()`. -/
structure Ray (K : Type) where
  origin : Vec3 K
  direction : Vec3 K
  tmin : K
  tmax : K

/-- The contract of `std::sqrt` in exact arithmetic: on a non-negative argument
it returns the non-negative square root. -/
def IsSqrt {K : Type} [LinearOrderedField K] (sqrt : K → K) : Prop :=
  ∀ x : K, 0 ≤ x → 0 ≤ sqrt x ∧ sqrt x * sqrt x = x

/-! ## Point -/

/-- The data members of `Point`. -/
structure Point (K : Type) where
  pos_ : Vec3 K
  id_ : Nat
  radius_ : K
  radius_sq_ : K

namespace Point

variable {K : Type} [LinearOrderedField K]

/-- The constructor `Point::Point(id, pos, radius)`. -/
def Point (id : Nat) (pos : Vec3 K) (radius : K) : rcube.Point K :=
  { pos_ := pos, id_ := id, radius_ := radius, radius_sq_ := radius * radius }

/-- The accessor `Point::id`. -/
def id (p : rcube.Point K) : Nat := p.id_

/-- The test `Point::rayIntersect(ray, t)`, its `float` operations read in exact
arithmetic: the returned flag and the value of the out-parameter `t` after the
call. -/
def rayIntersect (sqrt : K → K) (p : rcube.Point K) (ray : Ray K) (t : K) : Bool × K :=
  let L := p.pos_ - ray.origin
  let tca := Vec3.dot L ray.direction
  let d2 := Vec3.dot L L - tca * tca
  if d2 > p.radius_sq_ then
    (false, t)
  else
    let thc := sqrt (p.radius_sq_ - d2)
    let t0 := tca - thc
    let t1 := tca + thc
    (true, min t0 t1)

/-- The accessor `Point::position`. -/
def position (p : rcube.Point K) : Vec3 K := p.pos_

end Point

/-! ## Triangle -/

/-- The data members of `Triangle`. -/
structure Triangle (K : Type) where
  id_ : Nat
  v0_ : Vec3 K
  v1_ : Vec3 K
  v2_ : Vec3 K

namespace Triangle

variable {K : Type} [LinearOrderedField K]

/-- The constructor `Triangle::Triangle(id, v0, v1, v2)`. -/
def Triangle (id : Nat) (v0 v1 v2 : Vec3 K) : rcube.Triangle K :=
  { id_ := id, v0_ := v0, v1_ := v1, v2_ := v2 }

/-- The accessor `Triangle::id`. -/
def id (tri : rcube.Triangle K) : Nat := tri.id_

/-- The determinant `det` of `Triangle::rayIntersect`:
`dot(v1 - v0, cross(direction, v2 - v0))`. -/
def det (tri : rcube.Triangle K) (ray : Ray K) : K :=
  Vec3.dot (tri.v1_ - tri.v0_) (Vec3.cross ray.direction (tri.v2_ - tri.v0_))

/-- The test `Triangle::rayIntersect(ray, t)` (Möller–Trumbore), its `float`
operations read in exact arithmetic: the returned flag and the value of the
out-parameter `t` after the call. The same statements with every operation
rounded to binary32 are `Triangle.rayIntersect32`. -/
def rayIntersect (tri : rcube.Triangle K) (ray : Ray K) (t : K) : Bool × K :=
  let v0v1 := tri.v1_ - tri.v0_
  let v0v2 := tri.v2_ - tri.v0_
  let pvec := Vec3.cross ray.direction v0v2
  let det := Vec3.dot v0v1 pvec
  if |det| < 1 / 1000000 then
    (false, t)
  else
    let invDet := 1 / det
    let tvec := ray.origin - tri.v0_
    let u := Vec3.dot tvec pvec * invDet
    if u < 0 ∨ u > 1 then
      (false, t)
    else
      let qvec := Vec3.cross tvec v0v1
      let v := Vec3.dot ray.direction qvec * invDet
      if v < 0 ∨ u + v > 1 then
        (false, t)
      else
        let tempt := Vec3.dot v0v2 qvec * invDet
        if tempt < ray.tmin ∨ tempt > ray.tmax then
          (false, t)
        else
          (true, tempt)

/-- The barycentric coordinate `u` of `Triangle::rayIntersect`. -/
def baryU (tri : rcube.Triangle K) (ray : Ray K) : K :=
  Vec3.dot (ray.origin - tri.v0_) (Vec3.cross ray.direction (tri.v2_ - tri.v0_))
    * (1 / det tri ray)

/-- The barycentric coordinate `v` of `Triangle::rayIntersect`. -/
def baryV (tri : rcube.Triangle K) (ray : Ray K) : K :=
  Vec3.dot ray.direction (Vec3.cross (ray.origin - tri.v0_) (tri.v1_ - tri.v0_))
    * (1 / det tri ray)

/-- The ray parameter `tempt` of `Triangle::rayIntersect`. -/
def tempt (tri : rcube.Triangle K) (ray : Ray K) : K :=
  Vec3.dot (tri.v2_ - tri.v0_) (Vec3.cross (ray.origin - tri.v0_) (tri.v1_ - tri.v0_))
    * (1 / det tri ray)

/-- The accessor `Triangle::position`: the centroid `(v0 + v1 + v2) / 3.f`, in
exact arithmetic. -/
def position (tri : rcube.Triangle K) : Vec3 K :=
  Vec3.div (tri.v0_ + tri.v1_ + tri.v2_) 3

end Triangle

/-! ## AABB and the boxes of the primitives -/

/-- Componentwise `glm::min(a, b)`: on each axis `b` where `b < a`, else `a`. -/
def Vec3.min {K : Type} [LT K] [DecidableRel (fun a b : K => a < b)] (a b : Vec3 K) : Vec3 K :=
  ⟨if b.x < a.x then b.x else a.x, if b.y < a.y then b.y else a.y,
    if b.z < a.z then b.z else a.z⟩

/-- Componentwise `glm::max(a, b)`: on each axis `b` where `a < b`, else `a`. -/
def Vec3.max {K : Type} [LT K] [DecidableRel (fun a b : K => a < b)] (a b : Vec3 K) : Vec3 K :=
  ⟨if a.x < b.x then b.x else a.x, if a.y < b.y then b.y else a.y,
    if a.z < b.z then b.z else a.z⟩

/-- The componentwise order `a <= b` on vectors. -/
def Vec3.le {K : Type} [LE K] (a b : Vec3 K) : Prop :=
  a.x ≤ b.x ∧ a.y ≤ b.y ∧ a.z ≤ b.z

instance {K : Type} [LinearOrderedField K] (a b : Vec3 K) : Decidable (Vec3.le a b) :=
  inferInstanceAs (Decidable (a.x ≤ b.x ∧ a.y ≤ b.y ∧ a.z ≤ b.z))

/-- Modelled from the spec: the struct `AABB` is declared in a header that is not
part of the sources at hand; the spec gives it the two corner points `min` and
`max`, and `Primitive.cpp` builds it as `AABB{min, max}`. -/
structure AABB (K : Type) where
  min : Vec3 K
  max : Vec3 K
deriving DecidableEq

/-- The invariant of an `AABB` in the spec: `min <= max` componentwise. -/
def AABB.Valid {K : Type} [LE K] (b : AABB K) : Prop :=
  Vec3.le b.min b.max

instance {K : Type} [LinearOrderedField K] (b : AABB K) : Decidable b.Valid :=
  inferInstanceAs (Decidable (Vec3.le b.min b.max))

/-- The points of a box: `min <= p <= max` componentwise. -/
def AABB.Contains {K : Type} [LE K] (b : AABB K) (p : Vec3 K) : Prop :=
  Vec3.le b.min p ∧ Vec3.le p b.max

instance {K : Type} [LinearOrderedField K] (b : AABB K) (p : Vec3 K) :
    Decidable (b.Contains p) :=
  inferInstanceAs (Decidable (Vec3.le b.min p ∧ Vec3.le p b.max))

/-- The method `Point::aabb`: `AABB{pos_ - radvec, pos_ + radvec}` with
`radvec = (radius_, radius_, radius_)`. -/
def Point.aabb {K : Type} [LinearOrderedField K] (p : rcube.Point K) : AABB K :=
  let radvec : Vec3 K := ⟨p.radius_, p.radius_, p.radius_⟩
  ⟨p.pos_ - radvec, p.pos_ + radvec⟩

/-- The method `Triangle::aabb`:
`AABB{glm::min(v0_, glm::min(v1_, v2_)), glm::max(v0_, glm::max(v1_, v2_))}`. -/
def Triangle.aabb {K : Type} [LinearOrderedField K] (tri : rcube.Triangle K) : AABB K :=
  ⟨Vec3.min tri.v0_ (Vec3.min tri.v1_ tri.v2_), Vec3.max tri.v0_ (Vec3.max tri.v1_ tri.v2_)⟩

/-! ## Primitive -/

/-- Modelled from the spec: the abstract class `Primitive` is declared in a header
that is not part of the sources at hand; the spec gives it the capability set
`id`, `rayIntersect`, `position`, `aabb` and the two variants `Point` and
`Triangle`, whose overrides `Primitive.cpp` defines. A `PrimitivePtr` that is not
null is a value of this type. -/
inductive Primitive (K : Type) where
  | point (p : Point K)
  | triangle (t : Triangle K)

/-- Virtual dispatch of `id()`. -/
def Primitive.id {K : Type} [LinearOrderedField K] : Primitive K → Nat
  | .point p => Point.id p
  | .triangle t => Triangle.id t

/-- Virtual dispatch of `rayIntersect(ray, t)`. -/
def Primitive.rayIntersect {K : Type} [LinearOrderedField K] (sqrt : K → K) :
    Primitive K → Ray K → K → Bool × K
  | .point p, ray, t => Point.rayIntersect sqrt p ray t
  | .triangle tri, ray, t => Triangle.rayIntersect tri ray t

/-- Virtual dispatch of `position()`. -/
def Primitive.position {K : Type} [LinearOrderedField K] : Primitive K → Vec3 K
  | .point p => Point.position p
  | .triangle t => Triangle.position t

/-- Virtual dispatch of `aabb()`. -/
def Primitive.aabb {K : Type} [LinearOrderedField K] : Primitive K → AABB K
  | .point p => Point.aabb p
  | .triangle t => Triangle.aabb t

/-! ## Mesh: updateBVH and rayIntersect -/

/-- The undefined behaviour that the embedding makes explicit: a call through a
null pointer, a read past the end of a buffer. -/
inductive Fault where
  | nullDeref
  | outOfRange
deriving DecidableEq

/-- Modelled from the spec: the class `Mesh` and its attribute buffers are declared
in headers that are not part of the sources at hand. Of a mesh, `updateBVH` and
`rayIntersect` use the position attribute, read as `glm::vec3` through `ptrVec3()`
and counted by `numVertexData()`; the index buffer `indices_`, null when the mesh
was created non-indexed, read through `ptr()` and counted by `size()`; and the
pointer `bvh_`, null until a tree is built. `B` is the type of the tree. -/
structure Mesh (K B : Type) where
  positions : List (Vec3 K)
  indices_ : Option (List Nat)
  bvh_ : Option B

namespace Mesh

variable {K B : Type} [LinearOrderedField K]

/-- The method `Mesh::numVertexData`. -/
def numVertexData (m : Mesh K B) : Nat := m.positions.length

/-- The method `Mesh::numIndexData`: the size of the index buffer, `0` when
`indices_` is null. -/
def numIndexData (m : Mesh K B) : Nat :=
  match m.indices_ with
  | some ind => ind.length
  | none => 0

/-- The loop of the indexed branch of `Mesh::updateBVH`, from the state
`(i, face_id, prims)`: `for (; i < indices_->size(); i += 3)` pushes
`Triangle(face_id++, pos[ind[i]], pos[ind[i + 1]], pos[ind[i + 2]])`. -/
def indexedLoop (pos : List (Vec3 K)) (ind : List Nat) (i face_id : Nat)
    (prims : List (Primitive K)) : Except Fault (List (Primitive K)) :=
  if i < ind.length then
    match ind[i]?, ind[i + 1]?, ind[i + 2]? with
    | some a, some b, some c =>
      match pos[a]?, pos[b]?, pos[c]? with
      | some v0, some v1, some v2 =>
        indexedLoop pos ind (i + 3) (face_id + 1)
          (prims ++ [Primitive.triangle (Triangle.Triangle face_id v0 v1 v2)])
      | _, _, _ => .error .outOfRange
    | _, _, _ => .error .outOfRange
  else
    .ok prims
termination_by ind.length - i

/-- The loop of the non-indexed branch of `Mesh::updateBVH`, from the state
`(i, face_id, prims)`: `for (; i < num_verts; i += 3)` pushes
`Triangle(face_id++, pos[i], pos[i + 1], pos[i + 2])`. -/
def plainLoop (pos : List (Vec3 K)) (num_verts i face_id : Nat)
    (prims : List (Primitive K)) : Except Fault (List (Primitive K)) :=
  if i < num_verts then
    match pos[i]?, pos[i + 1]?, pos[i + 2]? with
    | some v0, some v1, some v2 =>
      plainLoop pos num_verts (i + 3) (face_id + 1)
        (prims ++ [Primitive.triangle (Triangle.Triangle face_id v0 v1 v2)])
    | _, _, _ => .error .outOfRange
  else
    .ok prims
termination_by num_verts - i

/-- The primitives `Mesh::updateBVH` hands to `buildBVH`. The pointer `ind` is
taken by `indices_->ptr()` before the test on `numIndexData()`. -/
def updateBVHPrims (m : Mesh K B) : Except Fault (List (Primitive K)) :=
  match m.indices_ with
  | none => .error .nullDeref
  | some ind =>
    if m.numIndexData > 0 then
      indexedLoop m.positions ind 0 0 []
    else
      plainLoop m.positions m.numVertexData 0 0 []

/-- The method `Mesh::updateBVH`; `buildBVH` is its callee, which returns the
pointer stored in `bvh_`. -/
def updateBVH (buildBVH : List (Primitive K) → Option B) (m : Mesh K B) :
    Except Fault (Mesh K B) :=
  match m.updateBVHPrims with
  | .error e => .error e
  | .ok prims => .ok { m with bvh_ := buildBVH prims }

/-- The method `Mesh::rayIntersect(ray, pt, id)`: the returned flag and the values
of the out-parameters `pt` and `id` after the call. `bvhRayIntersect` is the
callee `bvh_->rayIntersect(ray, pt, prim)`, which gets `pt` and the null `prim` and
returns its flag and the values of `pt` and `prim` after the call. -/
def rayIntersect
    (bvhRayIntersect : B → Ray K → Vec3 K → Option (Primitive K) →
      Bool × Vec3 K × Option (Primitive K))
    (m : Mesh K B) (ray : Ray K) (pt : Vec3 K) (id : Nat) :
    Except Fault (Bool × Vec3 K × Nat) :=
  match m.bvh_ with
  | none => .ok (false, pt, id)
  | some bvh =>
    let r := bvhRayIntersect bvh ray pt none
    if r.1 = false then
      .ok (false, r.2.1, id)
    else
      match r.2.2 with
      | none => .error .nullDeref
      | some prim => .ok (true, r.2.1, prim.id)

end Mesh

/-- The triangle of face `k` of an indexed mesh:
`Triangle(k, pos[ind[3k]], pos[ind[3k + 1]], pos[ind[3k + 2]])`, every read being
in range. -/
def Mesh.faceTriangle {K : Type} [LinearOrderedField K] (pos : List (Vec3 K))
    (ind : List Nat) (k : Nat) : Primitive K :=
  Primitive.triangle (Triangle.Triangle k
    (pos.getD (ind.getD (3 * k) 0) ⟨0, 0, 0⟩)
    (pos.getD (ind.getD (3 * k + 1) 0) ⟨0, 0, 0⟩)
    (pos.getD (ind.getD (3 * k + 2) 0) ⟨0, 0, 0⟩))

/-! ## BVH: box test, builder, traversal (modelled from the spec) -/

/-- Modelled from the spec: `merge(a, b)` of the AABB, whose code is not part of
the sources at hand: "componentwise min of mins, max of maxes". -/
def AABB.merge {K : Type} [LinearOrderedField K] (a b : AABB K) : AABB K :=
  ⟨Vec3.min a.min b.min, Vec3.max a.max b.max⟩

/-- Modelled from the spec: one axis of the slab test of the AABB, whose code is
not part of the sources at hand: "if the ray direction component is ~0, the ray
must lie within the slab on that axis or the test fails". The spec leaves the
tolerance of "~0" open; it is the parameter `eps`, and a component `d` is ~0 when
`|d| ≤ eps` (with `eps = 0`: when it is `0`). -/
def slabMisses {K : Type} [LinearOrderedField K] (eps lo hi o d : K) : Bool :=
  decide (|d| ≤ eps ∧ (o < lo ∨ hi < o))

/-- Modelled from the spec: one axis of the slab test of the AABB: "otherwise
compute entry/exit per axis". The value `none` is the whole line, for a direction
component that is ~0. -/
def slabInterval {K : Type} [LinearOrderedField K] (eps lo hi o d : K) : Option (K × K) :=
  if |d| ≤ eps then
    none
  else
    let t1 := (lo - o) / d
    let t2 := (hi - o) / d
    some (min t1 t2, max t1 t2)

/-- Modelled from the spec: the intersection of two parameter intervals of the
slab test ("intersect the three intervals"); `none` is the whole line. -/
def interIntervals {K : Type} [LinearOrderedField K] :
    Option (K × K) → Option (K × K) → Option (K × K)
  | none, j => j
  | some i, none => some i
  | some i, some j => some (max i.1 j.1, min i.2 j.2)

/-- Modelled from the spec: `AABB::rayIntersect(ray)`, whose code is not part of
the sources at hand: the slab test per axis, with the tolerance `eps` of "~0";
"test fails if the intersected interval is empty or lies entirely outside
`[ray.tmin, ray.tmax]`". -/
def AABB.rayIntersect {K : Type} [LinearOrderedField K] (eps : K) (box : AABB K)
    (ray : Ray K) : Bool :=
  if slabMisses eps box.min.x box.max.x ray.origin.x ray.direction.x = true
      ∨ slabMisses eps box.min.y box.max.y ray.origin.y ray.direction.y = true
      ∨ slabMisses eps box.min.z box.max.z ray.origin.z ray.direction.z = true then
    false
  else
    match interIntervals
        (interIntervals (slabInterval eps box.min.x box.max.x ray.origin.x ray.direction.x)
          (slabInterval eps box.min.y box.max.y ray.origin.y ray.direction.y))
        (slabInterval eps box.min.z box.max.z ray.origin.z ray.direction.z) with
    | none => true
    | some i => if i.2 < i.1 ∨ i.2 < ray.tmin ∨ ray.tmax < i.1 then false else true

/-- Modelled from the spec: a node of the BVH, whose code is not part of the
sources at hand: "either a leaf (owns one or more primitive references plus their
combined AABB) or an internal node (owns a combined AABB and exactly two child
subtrees)". -/
inductive BVHNode (K : Type) where
  | leaf (prims : List (Primitive K)) (box : AABB K)
  | node (box : AABB K) (left right : BVHNode K)

/-- The box of a node. -/
def BVHNode.aabb {K : Type} : BVHNode K → AABB K
  | .leaf _ box => box
  | .node box _ _ => box

/-- The primitives beneath a node, left to right. -/
def BVHNode.prims {K : Type} : BVHNode K → List (Primitive K)
  | .leaf prims _ => prims
  | .node _ left right => left.prims ++ right.prims

/-- Modelled from the spec: the merged AABB of a list of primitives (of an empty
list, which the builder never meets: the box at the origin). -/
def mergedAABB {K : Type} [LinearOrderedField K] : List (Primitive K) → AABB K
  | [] => ⟨⟨0, 0, 0⟩, ⟨0, 0, 0⟩⟩
  | p :: ps => ps.foldl (fun box q => AABB.merge box q.aabb) p.aabb

/-- The component of a vector on an axis `0`, `1`, `2`. -/
def Vec3.get {K : Type} (v : Vec3 K) (axis : Nat) : K :=
  if axis = 0 then v.x else if axis = 1 then v.y else v.z

/-- Modelled from the spec: "the axis of greatest extent" of a box. -/
def AABB.longestAxis {K : Type} [LinearOrderedField K] (box : AABB K) : Nat :=
  let e := box.max - box.min
  if e.y ≤ e.x ∧ e.z ≤ e.x then 0 else if e.z ≤ e.y then 1 else 2

/-- Modelled from the spec: the recursion of `buildBVH`, whose code is not part of
the sources at hand. A list of at most `leafSize` primitives (or of fewer than two,
which cannot be split) becomes a leaf with their merged AABB; a longer one is
sorted along the axis of greatest extent of its merged AABB by `position()`, split
at the median index, and becomes an internal node with the box
`merge(left.aabb, right.aabb)`. -/
def buildNode {K : Type} [LinearOrderedField K] (leafSize : Nat)
    (prims : List (Primitive K)) : BVHNode K :=
  if h : prims.length ≤ leafSize ∨ prims.length < 2 then
    .leaf prims (mergedAABB prims)
  else
    let axis := (mergedAABB prims).longestAxis
    let sorted := prims.insertionSort
      (fun a b => a.position.get axis ≤ b.position.get axis)
    let mid := prims.length / 2
    let left := buildNode leafSize (sorted.take mid)
    let right := buildNode leafSize (sorted.drop mid)
    .node (AABB.merge left.aabb right.aabb) left right
termination_by prims.length
decreasing_by
  all_goals simp_wf
  all_goals omega

/-- Modelled from the spec: `buildBVH(primitives)`, whose code is not part of the
sources at hand: "building from an empty primitive set yields a well-defined
empty tree (root is null)". -/
def buildBVH {K : Type} [LinearOrderedField K] (leafSize : Nat)
    (prims : List (Primitive K)) : Option (BVHNode K) :=
  if prims.isEmpty then none else some (buildNode leafSize prims)

/-- The test of one primitive in a query: `rayIntersect(ray, t)` with a fresh `t`;
the parameter of the hit, if the call returns true. -/
def Primitive.hit {K : Type} [LinearOrderedField K] (sqrt : K → K) (p : Primitive K)
    (ray : Ray K) : Option K :=
  let r := p.rayIntersect sqrt ray 0
  if r.1 = true then some r.2 else none

/-- Modelled from the spec: "track the primitive with the smallest valid `t` seen
so far": the best hit after testing one more primitive. -/
def closer {K : Type} [LinearOrderedField K] (sqrt : K → K) (ray : Ray K)
    (best : Option (K × Primitive K)) (p : Primitive K) : Option (K × Primitive K) :=
  match p.hit sqrt ray with
  | none => best
  | some t =>
    match best with
    | none => some (t, p)
    | some b => if t < b.1 then some (t, p) else some b

/-- Modelled from the spec: the recursive descent of the BVH query, whose code is
not part of the sources at hand, from the best hit seen so far: a node whose box
the ray misses is pruned; a leaf tests every primitive it holds; an internal node
recurses into both children. -/
def BVHNode.traverse {K : Type} [LinearOrderedField K] (sqrt : K → K) (eps : K)
    (ray : Ray K) : BVHNode K → Option (K × Primitive K) → Option (K × Primitive K)
  | .leaf prims box, best =>
    if box.rayIntersect eps ray = true then prims.foldl (closer sqrt ray) best else best
  | .node box left right, best =>
    if box.rayIntersect eps ray = true then
      right.traverse sqrt eps ray (left.traverse sqrt eps ray best)
    else best

/-- Modelled from the spec: `BVH::rayIntersect(ray, pt, prim)`, whose code is not
part of the sources at hand: after the traversal, "if any primitive test
succeeded, return the one with minimum `t`, compute the world-space hit point as
`origin + t * direction`"; otherwise no hit, and the out-parameters keep their
values. -/
def BVHNode.rayIntersect {K : Type} [LinearOrderedField K] (sqrt : K → K) (eps : K)
    (root : BVHNode K) (ray : Ray K) (pt : Vec3 K) (prim : Option (Primitive K)) :
    Bool × Vec3 K × Option (Primitive K) :=
  match root.traverse sqrt eps ray none with
  | none => (false, pt, prim)
  | some b => (true, ray.origin + Vec3.scale b.1 ray.direction, some b.2)

/-- The brute-force reference of the spec: "testing every primitive individually"
and keeping the minimum `t`. -/
def bruteForce {K : Type} [LinearOrderedField K] (sqrt : K → K) (prims : List (Primitive K))
    (ray : Ray K) : Option (K × Primitive K) :=
  prims.foldl (closer sqrt ray) none

/-! ## Predicates of the specification of the BVH -/

/-- A parameter lies in an interval of the slab test. -/
def InInterval {K : Type} [LinearOrderedField K] (t : K) : Option (K × K) → Prop
  | none => True
  | some i => i.1 ≤ t ∧ t ≤ i.2

/-- The invariant of the spec on the boxes of a tree: the box of a leaf bounds the
box of every primitive it holds, the box of an internal node bounds the boxes of
its two children. -/
def BVHNode.Bounds {K : Type} [LinearOrderedField K] : BVHNode K → Prop
  | .leaf prims box => ∀ p ∈ prims, ∀ x, p.aabb.Contains x → box.Contains x
  | .node box left right =>
    left.Bounds ∧ right.Bounds ∧ (∀ x, left.aabb.Contains x → box.Contains x) ∧
      (∀ x, right.aabb.Contains x → box.Contains x)

/-- The primitive is a `Triangle`. -/
def Primitive.IsTriangle {K : Type} : Primitive K → Prop
  | .point _ => False
  | .triangle _ => True

/-- No component of the direction of the ray falls under the tolerance `eps` of the
box test without being `0`: each is exactly `0` or has `eps < |d|`. -/
def Ray.ClearOfZero {K : Type} [LinearOrderedField K] (eps : K) (ray : Ray K) : Prop :=
  (ray.direction.x = 0 ∨ eps < |ray.direction.x|) ∧
    (ray.direction.y = 0 ∨ eps < |ray.direction.y|) ∧
    (ray.direction.z = 0 ∨ eps < |ray.direction.z|)

/-- The value `best` is a nearest hit among the primitives that satisfy `S`: if
it is a pair `(t, p)`, then `p` satisfies `S` and is hit at `t`; and every hit of a
primitive that satisfies `S` is at a parameter at least that of `best`. -/
def Nearest {K : Type} [LinearOrderedField K] (sqrt : K → K) (ray : Ray K)
    (S : Primitive K → Prop) (best : Option (K × Primitive K)) : Prop :=
  (∀ b, best = some b → S b.2 ∧ b.2.hit sqrt ray = some b.1) ∧
    (∀ q t, S q → q.hit sqrt ray = some t → ∃ b, best = some b ∧ b.1 ≤ t)

/-! ## Framebuffer: colour attachments (`Framebuffer.cpp`) -/

/-- The ways a call can fail to return: a thrown `std::runtime_error` with its
message, a failed `assert`, or undefined behaviour. -/
inductive Raised where
  | runtimeError (what : String)
  | assertFailed
  | undefined (f : Fault)
deriving DecidableEq

/-- Modelled from the spec: the class `Framebuffer` is declared in a header that is
not part of the sources at hand. Of a framebuffer, `numColorAttachments` and
`colorAttachment` use the vector `colors_` of the attached textures; `T` is the
type of a texture. -/
structure Framebuffer (T : Type) where
  colors_ : List T

/-- The method `Framebuffer::numColorAttachments`: `colors_.size()`. -/
def Framebuffer.numColorAttachments {T : Type} (fb : Framebuffer T) : Nat :=
  fb.colors_.length

/-- The method `Framebuffer::colorAttachment(i)`: throws when
`i >= colors_.size() + 1`, else returns `colors_[i]`; the subscript of a
`std::vector` past its end is undefined behaviour. -/
def Framebuffer.colorAttachment {T : Type} (fb : Framebuffer T) (i : Nat) : Except Raised T :=
  if i ≥ fb.colors_.length + 1 then
    .error (.runtimeError ("Invalid (out-of-range) index " ++ toString i ++
      "for color attachments; expected <= " ++ toString fb.colors_.length))
  else
    match fb.colors_[i]? with
    | some tex => .ok tex
    | none => .error (.undefined .outOfRange)

/-! ## Mesh data: append, scaleAndCenter (`Mesh.cpp`) and plane (`Plane.cpp`) -/

/-- The type `glm::vec2` with exact components. -/
structure Vec2 (K : Type) where
  x : K
  y : K
deriving DecidableEq

/-- Arithmetic of `unsigned int`: the value modulo `2^32`. -/
def u32 (n : Nat) : Nat := n % 2 ^ 32

/-- The type `glm::uvec3`, three `unsigned int`. -/
structure UVec3 where
  x : Nat
  y : Nat
  z : Nat
deriving DecidableEq

/-- The type `glm::uvec2`, two `unsigned int`. -/
structure UVec2 where
  x : Nat
  y : Nat
deriving DecidableEq

/-- The operator `val += s` of `glm::uvec3` with an `unsigned int`: `s` is added to
each component, modulo `2^32`. -/
def UVec3.addScalar (val : UVec3) (s : Nat) : UVec3 :=
  ⟨u32 (val.x + s), u32 (val.y + s), u32 (val.z + s)⟩

/-- The operator `a + b` of `glm::uvec2`: componentwise, modulo `2^32`. -/
def UVec2.add (a b : UVec2) : UVec2 :=
  ⟨u32 (a.x + b.x), u32 (a.y + b.y)⟩

/-- Modelled from the spec: the struct `TriangleMeshData` is declared in a header
that is not part of the sources at hand; its members are those that `Mesh.cpp` and
`Plane.cpp` read and write. -/
structure TriangleMeshData (K : Type) where
  vertices : List (Vec3 K)
  normals : List (Vec3 K)
  colors : List (Vec3 K)
  texcoords : List (Vec2 K)
  tangents : List (Vec3 K)
  indices : List UVec3
  indexed : Bool

/-- Modelled from the spec: the struct `LineMeshData` is declared in a header that
is not part of the sources at hand; its members are those that `Mesh.cpp` reads
and writes. -/
structure LineMeshData (K : Type) where
  vertices : List (Vec3 K)
  colors : List (Vec3 K)
  indices : List UVec2
  indexed : Bool

/-- The method `TriangleMeshData::append(other)`, as the value of `*this` after
the call: `offset` is `vertices.size()` before the insertions; the copy `tmp` of
`other.indices` gets `static_cast<unsigned int>(offset)` added to every value and
is inserted at the end of `indices`. The tangents are not touched. -/
def TriangleMeshData.append {K : Type} (a other : TriangleMeshData K) :
    Except Raised (TriangleMeshData K) :=
  if a.indexed ≠ other.indexed then
    .error .assertFailed
  else
    let offset := a.vertices.length
    let tmp := other.indices.map (fun val => val.addScalar (u32 offset))
    .ok { a with
      vertices := a.vertices ++ other.vertices
      normals := a.normals ++ other.normals
      colors := a.colors ++ other.colors
      texcoords := a.texcoords ++ other.texcoords
      indices := a.indices ++ tmp }

/-- The method `LineMeshData::append(other)`, as the value of `*this` after the
call: `offset` is built from `vertices.size()` after the insertion of
`other.vertices`; every line of `other.indices` is pushed as `ind + offset`. -/
def LineMeshData.append {K : Type} (a other : LineMeshData K) :
    Except Raised (LineMeshData K) :=
  if a.indexed ≠ other.indexed then
    .error .assertFailed
  else
    let vertices := a.vertices ++ other.vertices
    let colors := a.colors ++ other.colors
    let offset : UVec2 := ⟨u32 vertices.length, u32 vertices.length⟩
    .ok { a with
      vertices := vertices
      colors := colors
      indices := a.indices ++ other.indices.map (fun ind => UVec2.add ind offset) }

/-- Componentwise `glm::abs`. -/
def Vec3.abs {K : Type} [LinearOrderedField K] (v : Vec3 K) : Vec3 K :=
  ⟨|v.x|, |v.y|, |v.z|⟩

/-- One pass of the loop of `findCentroidAndScale` over a vertex `v`, on the pair
`(min, max)`. -/
def boundsStep {K : Type} [LinearOrderedField K] (mm : Vec3 K × Vec3 K) (v : Vec3 K) :
    Vec3 K × Vec3 K :=
  (⟨if v.x < mm.1.x then v.x else mm.1.x, if v.y < mm.1.y then v.y else mm.1.y,
      if v.z < mm.1.z then v.z else mm.1.z⟩,
    ⟨if v.x > mm.2.x then v.x else mm.2.x, if v.y > mm.2.y then v.y else mm.2.y,
      if v.z > mm.2.z then v.z else mm.2.z⟩)

/-- The function `findCentroidAndScale(vertices, centroid, scale)`: the values of
`centroid` and `scale` after the call. It reads `vertices[0]`, which is undefined
behaviour on an empty vector. -/
def findCentroidAndScale {K : Type} [LinearOrderedField K] (vertices : List (Vec3 K)) :
    Except Raised (Vec3 K × K) :=
  match vertices[0]? with
  | none => .error (.undefined .outOfRange)
  | some v0 =>
    let mm := vertices.foldl boundsStep (v0, v0)
    let centroid := Vec3.scale (1 / 2) (mm.2 + mm.1)
    let size := Vec3.abs (mm.2 - mm.1)
    let scale := max size.x (max size.y size.z)
    .ok (centroid, scale)

/-- The body that `TriangleMeshData::scaleAndCenter` and
`LineMeshData::scaleAndCenter` share word for word, on the vertex list: every
vertex becomes `2.0f * (v - centroid) / scale`. -/
def scaleAndCenterVertices {K : Type} [LinearOrderedField K] (vertices : List (Vec3 K)) :
    Except Raised (List (Vec3 K)) :=
  match findCentroidAndScale vertices with
  | .error e => .error e
  | .ok cs => .ok (vertices.map (fun v => Vec3.div (Vec3.scale 2 (v - cs.1)) cs.2))

/-- The method `TriangleMeshData::scaleAndCenter`, as the value of `*this` after
the call. -/
def TriangleMeshData.scaleAndCenter {K : Type} [LinearOrderedField K]
    (m : TriangleMeshData K) : Except Raised (TriangleMeshData K) :=
  match scaleAndCenterVertices m.vertices with
  | .error e => .error e
  | .ok vs => .ok { m with vertices := vs }

/-- The method `LineMeshData::scaleAndCenter`, as the value of `*this` after the
call. -/
def LineMeshData.scaleAndCenter {K : Type} [LinearOrderedField K]
    (m : LineMeshData K) : Except Raised (LineMeshData K) :=
  match scaleAndCenterVertices m.vertices with
  | .error e => .error e
  | .ok vs => .ok { m with vertices := vs }

/-- The enumeration `Orientation` of `Plane.h`. -/
inductive Orientation where
  | PositiveX
  | NegativeX
  | PositiveY
  | NegativeY
  | PositiveZ
  | NegativeZ
deriving DecidableEq

/-- The type `glm::quat`, built as `glm::quat(w, x, y, z)`. -/
structure Quat (K : Type) where
  w : K
  x : K
  y : K
  z : K

/-- The function `glm::angleAxis(angle, axis)`: `quat(cos(angle / 2), axis *
sin(angle / 2))`; the cosine `c` and the sine `s` of the half angle are passed
in. -/
def angleAxis {K : Type} [LinearOrderedField K] (c s : K) (axis : Vec3 K) : Quat K :=
  ⟨c, axis.x * s, axis.y * s, axis.z * s⟩

/-- The operator `q * v` of `glm::quat` with `glm::vec3`:
`v + ((uv * q.w) + uuv) * 2` with `uv = cross(q.xyz, v)`, `uuv = cross(q.xyz, uv)`. -/
def Quat.rotate {K : Type} [LinearOrderedField K] (q : Quat K) (v : Vec3 K) : Vec3 K :=
  let quatVector : Vec3 K := ⟨q.x, q.y, q.z⟩
  let uv := Vec3.cross quatVector v
  let uuv := Vec3.cross quatVector uv
  v + Vec3.scale 2 (Vec3.scale q.w uv + uuv)

/-- The function `plane(width, height, width_segments, height_segments, ort)` of
`Plane.cpp`. The counters and indices are `unsigned int`; `cosQuarterPi` and
`sinQuarterPi` stand for `cos` and `sin` of `half_pi / 2`, which `glm::angleAxis`
computes. -/
def plane {K : Type} [LinearOrderedField K] (cosQuarterPi sinQuarterPi : K)
    (width height : K) (width_segments height_segments : Nat) (ort : Orientation) :
    TriangleMeshData K :=
  let half_width := width / 2
  let half_height := height / 2
  let width_vertices := u32 (width_segments + 1)
  let height_vertices := u32 (height_segments + 1)
  let edge_width := width / (width_segments : K)
  let edge_height := height / (height_segments : K)
  let rotation : Quat K :=
    match ort with
    | .NegativeZ => ⟨1, 0, 0, 0⟩
    | .PositiveX => angleAxis cosQuarterPi sinQuarterPi ⟨0, 1, 0⟩
    | .NegativeX => angleAxis cosQuarterPi sinQuarterPi ⟨0, 1, 0⟩
    | .PositiveY => angleAxis cosQuarterPi sinQuarterPi ⟨1, 0, 0⟩
    | .NegativeY => angleAxis cosQuarterPi sinQuarterPi ⟨1, 0, 0⟩
    | .PositiveZ => ⟨1, 0, 0, 0⟩
  let plane_normal : Vec3 K :=
    match ort with
    | .NegativeZ => ⟨0, 0, -1⟩
    | .PositiveX => ⟨1, 0, 0⟩
    | .NegativeX => ⟨-1, 0, 0⟩
    | .PositiveY => ⟨0, 1, 0⟩
    | .NegativeY => ⟨0, -1, 0⟩
    | .PositiveZ => ⟨0, 0, 1⟩
  let vertices := (List.range height_vertices).flatMap (fun (i : Nat) =>
    (List.range width_vertices).map (fun (j : Nat) =>
      let y := (i : K) * edge_height - half_height
      let x := (j : K) * edge_width - half_width
      rotation.rotate ⟨x, -y, 0⟩))
  let normals := (List.range height_vertices).flatMap (fun (_ : Nat) =>
    (List.range width_vertices).map (fun (_ : Nat) => plane_normal))
  let texcoords := (List.range height_vertices).flatMap (fun (i : Nat) =>
    (List.range width_vertices).map (fun (j : Nat) =>
      (⟨(j : K) / (height_segments : K), 1 - (i : K) / (width_segments : K)⟩ : Vec2 K)))
  let indices := (List.range height_segments).flatMap (fun (i : Nat) =>
    (List.range width_segments).flatMap (fun (j : Nat) =>
      let a := u32 (j + u32 (width_vertices * i))
      let b := u32 (j + u32 (width_vertices * u32 (i + 1)))
      let c := u32 (u32 (j + 1) + u32 (width_vertices * u32 (i + 1)))
      let d := u32 (u32 (j + 1) + u32 (width_vertices * i))
      [(⟨a, b, d⟩ : UVec3), ⟨b, c, d⟩]))
  { vertices := vertices, normals := normals, colors := [], texcoords := texcoords,
    tangents := [], indices := indices, indexed := true }

/-! ## binary32: `float` with rounding -/

/-- The integer nearest the non-negative rational `n / d`, ties to the even
one. -/
def roundNearestEven (n d : Nat) : Nat :=
  let q := n / d
  let r := n % d
  if 2 * r < d then q else if d < 2 * r then q + 1 else if q % 2 = 0 then q else q + 1

/-- The position of the leading binary digit of `n`, in at most `fuel` halvings:
`log2Fuel n n` is the `e` with `2 ^ e ≤ n < 2 ^ (e + 1)`, for `n > 0`. -/
def log2Fuel : Nat → Nat → Nat
  | 0, _ => 0
  | fuel + 1, n => if n < 2 then 0 else log2Fuel fuel (n / 2) + 1

/-- The binary exponent of the positive rational `n / d`: the integer `e` with
`2 ^ e ≤ n / d < 2 ^ (e + 1)`. -/
def floorLog2 (n d : Nat) : Int :=
  let a := log2Fuel n n
  let b := log2Fuel d d
  if d * 2 ^ a ≤ n * 2 ^ b then (a : Int) - b else (a : Int) - b - 1

/-- Rounding of a rational to the binary floating-point format with `prec`
significant bits and least quantum `2 ^ emin`, to nearest, ties to even: the
quantum of `q` is `2 ^ p` with `p = max (e - (prec - 1)) emin`, where `e` is the
binary exponent of `|q|`, and `q` goes to the nearest multiple of it. Overflow to
infinity is not modelled: the values met here stay far below the largest finite
one. -/
def roundBinary (prec : Nat) (emin : Int) (q : ℚ) : ℚ :=
  if q = 0 then 0
  else
    let n := q.num.natAbs
    let d := q.den
    let p := max (floorLog2 n d - (prec - 1)) emin
    let m := roundNearestEven (n * 2 ^ (-p).toNat) (d * 2 ^ p.toNat)
    let v : ℚ := mkRat (m * 2 ^ p.toNat) (2 ^ (-p).toNat)
    if q < 0 then -v else v

/-- Rounding to binary32 (`float`): 24 significant bits, least quantum `2^-149`. -/
def round32 (q : ℚ) : ℚ := roundBinary 24 (-149) q

/-- Rounding to binary64 (`double`): 53 significant bits, least quantum
`2^-1074`. -/
def round64 (q : ℚ) : ℚ := roundBinary 53 (-1074) q

/-- A finite `float`, given by the rational it denotes. The two zeros are one
value: the code at hand only compares and multiplies them. -/
structure F32 where
  val : ℚ
deriving DecidableEq

namespace F32

/-- The `float` nearest a rational: a literal such as `0.6f`, or the result of an
operation on its exact value. -/
def ofRat (q : ℚ) : F32 := ⟨round32 q⟩

instance : Add F32 := ⟨fun a b => ofRat (a.val + b.val)⟩

instance : Sub F32 := ⟨fun a b => ofRat (a.val - b.val)⟩

instance : Mul F32 := ⟨fun a b => ofRat (a.val * b.val)⟩

instance : Div F32 := ⟨fun a b => ofRat (a.val / b.val)⟩

instance : Neg F32 := ⟨fun a => ⟨-a.val⟩⟩

instance : LT F32 := ⟨fun a b => a.val < b.val⟩

instance (a b : F32) : Decidable (a < b) := inferInstanceAs (Decidable (a.val < b.val))

instance (n : Nat) : OfNat F32 n := ⟨ofRat n⟩

end F32

/-- The exact value of a `glm::vec3` of `float` components. -/
def Vec3.toRat (v : Vec3 F32) : Vec3 ℚ := ⟨v.x.val, v.y.val, v.z.val⟩

/-- The triangle with the exact values of the `float` vertices. -/
def Triangle.toRat (tri : rcube.Triangle F32) : rcube.Triangle ℚ :=
  ⟨tri.id_, tri.v0_.toRat, tri.v1_.toRat, tri.v2_.toRat⟩

/-- The ray with the exact values of the `float` members. -/
def Ray.toRat (ray : Ray F32) : Ray ℚ :=
  ⟨ray.origin.toRat, ray.direction.toRat, ray.tmin.val, ray.tmax.val⟩

/-- The test `Triangle::rayIntersect(ray, t)` as compiled for binary32: the
statements of `Triangle.rayIntersect`, every `float` operation rounded (`glm::cross`
and `glm::dot` are `Vec3.cross` and `Vec3.dot` at `F32`, the sum of `glm::dot` being
`(x + y) + z`). In `std::abs(det) < 1e-6` the `float` is promoted to `double` and
compared with the `double` literal `1e-6`. -/
def Triangle.rayIntersect32 (tri : rcube.Triangle F32) (ray : Ray F32) (t : F32) :
    Bool × F32 :=
  let v0v1 := tri.v1_ - tri.v0_
  let v0v2 := tri.v2_ - tri.v0_
  let pvec := Vec3.cross ray.direction v0v2
  let det := Vec3.dot v0v1 pvec
  if |det.val| < round64 (1 / 1000000) then
    (false, t)
  else
    let invDet := 1 / det
    let tvec := ray.origin - tri.v0_
    let u := Vec3.dot tvec pvec * invDet
    if u < 0 ∨ u > 1 then
      (false, t)
    else
      let qvec := Vec3.cross tvec v0v1
      let v := Vec3.dot ray.direction qvec * invDet
      if v < 0 ∨ u + v > 1 then
        (false, t)
      else
        let tempt := Vec3.dot v0v2 qvec * invDet
        if tempt < ray.tmin ∨ tempt > ray.tmax then
          (false, t)
        else
          (true, tempt)

namespace Vec3

variable {K : Type}

theorem add_def [Add K] (a b : Vec3 K) :
    a + b = ⟨a.x + b.x, a.y + b.y, a.z + b.z⟩ := rfl

theorem sub_def [Sub K] (a b : Vec3 K) :
    a - b = ⟨a.x - b.x, a.y - b.y, a.z - b.z⟩ := rfl

end Vec3

section TriangleLemmas

variable {K : Type} [LinearOrderedField K]

/-- The four rejection tests of `Triangle::rayIntersect` in one condition. -/
theorem Triangle.rayIntersect_eq (tri : rcube.Triangle K) (ray : Ray K) (t0 : K) :
    tri.rayIntersect ray t0 =
      if 1 / 1000000 ≤ |tri.det ray| ∧ 0 ≤ tri.baryU ray ∧ tri.baryU ray ≤ 1 ∧
          0 ≤ tri.baryV ray ∧ tri.baryU ray + tri.baryV ray ≤ 1 ∧
          ray.tmin ≤ tri.tempt ray ∧ tri.tempt ray ≤ ray.tmax
      then (true, tri.tempt ray) else (false, t0) := by
  simp only [Triangle.rayIntersect, Triangle.det, Triangle.baryU, Triangle.baryV,
    Triangle.tempt, gt_iff_lt]
  by_cases hc : 1 / 1000000 ≤ |tri.det ray| ∧ 0 ≤ tri.baryU ray ∧ tri.baryU ray ≤ 1 ∧
          0 ≤ tri.baryV ray ∧ tri.baryU ray + tri.baryV ray ≤ 1 ∧
          ray.tmin ≤ tri.tempt ray ∧ tri.tempt ray ≤ ray.tmax
  · simp only [Triangle.det, Triangle.baryU, Triangle.baryV, Triangle.tempt] at hc
    obtain ⟨h1, h2, h3, h4, h5, h6, h7⟩ := hc
    rw [if_neg (not_lt.mpr h1), if_neg (by rw [not_or]; exact ⟨not_lt.mpr h2, not_lt.mpr h3⟩),
      if_neg (by rw [not_or]; exact ⟨not_lt.mpr h4, not_lt.mpr h5⟩),
      if_neg (by rw [not_or]; exact ⟨not_lt.mpr h6, not_lt.mpr h7⟩),
      if_pos ⟨h1, h2, h3, h4, h5, h6, h7⟩]
  · simp only [Triangle.det, Triangle.baryU, Triangle.baryV, Triangle.tempt] at hc
    rw [if_neg hc]
    split_ifs with a b c d
    · rfl
    · rfl
    · rfl
    · rfl
    · exfalso
      rw [not_or] at b c d
      exact hc ⟨not_lt.mp a, not_lt.mp b.1, not_lt.mp b.2, not_lt.mp c.1, not_lt.mp c.2,
        not_lt.mp d.1, not_lt.mp d.2⟩

/-- Cramer rule: when `det` is not zero, the values `u`, `v`, `tempt` computed
by `Triangle::rayIntersect` solve `origin + t * direction = v0 + u * e1 + v * e2`. -/
theorem Triangle.cramer (tri : rcube.Triangle K) (ray : Ray K) (hdet : tri.det ray ≠ 0) :
    ray.origin + Vec3.scale (tri.tempt ray) ray.direction =
      tri.v0_ + Vec3.scale (tri.baryU ray) (tri.v1_ - tri.v0_)
        + Vec3.scale (tri.baryV ray) (tri.v2_ - tri.v0_) := by
  obtain ⟨id, ⟨ax, ay, az⟩, ⟨bx, b_y, bz⟩, ⟨cx, cy, cz⟩⟩ := tri
  obtain ⟨⟨ox, oy, oz⟩, ⟨dx, dy, dz⟩, tmin, tmax⟩ := ray
  simp only [Triangle.det, Triangle.baryU, Triangle.baryV, Triangle.tempt, Vec3.dot,
    Vec3.cross, Vec3.sub_def, Vec3.add_def, Vec3.scale, Vec3.mk.injEq] at hdet ⊢
  refine ⟨?_, ?_, ?_⟩ <;> field_simp <;> ring

/-- The solution of `origin + t * direction = v0 + u * e1 + v * e2` is unique when
`det` is not zero, and it is the one `Triangle::rayIntersect` computes. -/
theorem Triangle.cramer_unique (tri : rcube.Triangle K) (ray : Ray K) (t u v : K)
    (hdet : tri.det ray ≠ 0)
    (hp : ray.origin + Vec3.scale t ray.direction =
      tri.v0_ + Vec3.scale u (tri.v1_ - tri.v0_) + Vec3.scale v (tri.v2_ - tri.v0_)) :
    tri.baryU ray = u ∧ tri.baryV ray = v ∧ tri.tempt ray = t := by
  obtain ⟨id, ⟨ax, ay, az⟩, ⟨bx, b_y, bz⟩, ⟨cx, cy, cz⟩⟩ := tri
  obtain ⟨⟨ox, oy, oz⟩, ⟨dx, dy, dz⟩, tmin, tmax⟩ := ray
  simp only [Triangle.det, Triangle.baryU, Triangle.baryV, Triangle.tempt, Vec3.dot,
    Vec3.cross, Vec3.sub_def, Vec3.add_def, Vec3.scale, Vec3.mk.injEq] at hdet hp ⊢
  obtain ⟨hx, hy, hz⟩ := hp
  have ex : ox = ax + u * (bx - ax) + v * (cx - ax) - t * dx := by linarith
  have ey : oy = ay + u * (b_y - ay) + v * (cy - ay) - t * dy := by linarith
  have ez : oz = az + u * (bz - az) + v * (cz - az) - t * dz := by linarith
  subst ex ey ez
  refine ⟨?_, ?_, ?_⟩ <;> field_simp <;> ring

/-- Passing the determinant test means `det` is not zero. -/
theorem Triangle.det_ne_zero_of_le (tri : rcube.Triangle K) (ray : Ray K)
    (h : 1 / 1000000 ≤ |tri.det ray|) : tri.det ray ≠ 0 := by
  intro h0
  rw [h0, abs_zero] at h
  have : (0 : K) < 1 / 1000000 := by norm_num
  exact absurd h (not_le.mpr this)

end TriangleLemmas

/-! ## Triangle::rayIntersect: soundness, completeness, scenarios -/

section TriangleClaims

variable {K : Type} [LinearOrderedField K]

/-- C1. Soundness of `Triangle::rayIntersect` in exact arithmetic: when the call
returns true and leaves `t` in the out-parameter, then `tmin ≤ t ≤ tmax` and the
point `origin + t * direction` is `v0 + u * (v1 - v0) + v * (v2 - v0)` for some
`u ≥ 0`, `v ≥ 0` with `u + v ≤ 1`. -/
theorem triangle_rayIntersect_sound (tri : rcube.Triangle K) (ray : Ray K) (t0 t : K)
    (h : tri.rayIntersect ray t0 = (true, t)) :
    ray.tmin ≤ t ∧ t ≤ ray.tmax ∧
      ∃ u v : K, 0 ≤ u ∧ 0 ≤ v ∧ u + v ≤ 1 ∧
        ray.origin + Vec3.scale t ray.direction =
          tri.v0_ + Vec3.scale u (tri.v1_ - tri.v0_) + Vec3.scale v (tri.v2_ - tri.v0_) := by
  rw [Triangle.rayIntersect_eq] at h
  split_ifs at h with hc
  · obtain ⟨h1, h2, _, h4, h5, h6, h7⟩ := hc
    have ht : tri.tempt ray = t := (Prod.mk.inj h).2
    subst ht
    exact ⟨h6, h7, tri.baryU ray, tri.baryV ray, h2, h4, h5,
      Triangle.cramer tri ray (Triangle.det_ne_zero_of_le tri ray h1)⟩
  · exact absurd (Prod.mk.inj h).1 (by decide)

/-- C1, at the unit triangle and the ray from `(1/4, 1/4, -1)` along `+z`. -/
theorem triangle_rayIntersect_sound_witness :
    (Triangle.Triangle 0 ⟨0, 0, 0⟩ ⟨1, 0, 0⟩ ⟨0, 1, 0⟩ : rcube.Triangle ℚ).rayIntersect
        ⟨⟨1 / 4, 1 / 4, -1⟩, ⟨0, 0, 1⟩, 0, 10⟩ 7 = (true, 1) ∧
      ((0 : ℚ) ≤ 1 ∧ (1 : ℚ) ≤ 10 ∧
        ∃ u v : ℚ, 0 ≤ u ∧ 0 ≤ v ∧ u + v ≤ 1 ∧
          (⟨1 / 4, 1 / 4, -1⟩ : Vec3 ℚ) + Vec3.scale 1 ⟨0, 0, 1⟩ =
            (⟨0, 0, 0⟩ : Vec3 ℚ) + Vec3.scale u ((⟨1, 0, 0⟩ : Vec3 ℚ) - ⟨0, 0, 0⟩)
              + Vec3.scale v ((⟨0, 1, 0⟩ : Vec3 ℚ) - ⟨0, 0, 0⟩)) :=
  ⟨by norm_num [Triangle.rayIntersect, Triangle.Triangle, Vec3.dot, Vec3.cross, Vec3.sub_def],
    triangle_rayIntersect_sound (Triangle.Triangle 0 ⟨0, 0, 0⟩ ⟨1, 0, 0⟩ ⟨0, 1, 0⟩)
      ⟨⟨1 / 4, 1 / 4, -1⟩, ⟨0, 0, 1⟩, 0, 10⟩ 7 1
      (by norm_num [Triangle.rayIntersect, Triangle.Triangle, Vec3.dot, Vec3.cross,
        Vec3.sub_def])⟩

/-- C2. Completeness of `Triangle::rayIntersect` in exact arithmetic: when
`|det| ≥ 1e-6` and `origin + t * direction = v0 + u * (v1 - v0) + v * (v2 - v0)`
for some `t` in `[tmin, tmax]` and `u ≥ 0`, `v ≥ 0` with `u + v ≤ 1`, the call
returns true and reports exactly that `t`. -/
theorem triangle_rayIntersect_complete (tri : rcube.Triangle K) (ray : Ray K) (t0 t u v : K)
    (hdet : 1 / 1000000 ≤ |Vec3.dot (tri.v1_ - tri.v0_)
      (Vec3.cross ray.direction (tri.v2_ - tri.v0_))|)
    (htmin : ray.tmin ≤ t) (htmax : t ≤ ray.tmax)
    (hu : 0 ≤ u) (hv : 0 ≤ v) (huv : u + v ≤ 1)
    (hp : ray.origin + Vec3.scale t ray.direction =
      tri.v0_ + Vec3.scale u (tri.v1_ - tri.v0_) + Vec3.scale v (tri.v2_ - tri.v0_)) :
    tri.rayIntersect ray t0 = (true, t) := by
  have hdet1 : 1 / 1000000 ≤ |tri.det ray| := hdet
  obtain ⟨eu, ev, et⟩ :=
    Triangle.cramer_unique tri ray t u v (Triangle.det_ne_zero_of_le tri ray hdet1) hp
  have hu1 : u ≤ 1 := by linarith
  rw [Triangle.rayIntersect_eq, eu, ev, et]
  exact if_pos ⟨hdet1, hu, hu1, hv, huv, htmin, htmax⟩

/-- C2, at the unit triangle and the ray from `(1/4, 1/4, -1)` along `+z`, with
`t = 1`, `u = v = 1/4`. -/
theorem triangle_rayIntersect_complete_witness :
    (Triangle.Triangle 0 ⟨0, 0, 0⟩ ⟨1, 0, 0⟩ ⟨0, 1, 0⟩ : rcube.Triangle ℚ).rayIntersect
        ⟨⟨1 / 4, 1 / 4, -1⟩, ⟨0, 0, 1⟩, 0, 10⟩ 7 = (true, 1) :=
  triangle_rayIntersect_complete (Triangle.Triangle 0 ⟨0, 0, 0⟩ ⟨1, 0, 0⟩ ⟨0, 1, 0⟩)
    ⟨⟨1 / 4, 1 / 4, -1⟩, ⟨0, 0, 1⟩, 0, 10⟩ 7 1 (1 / 4) (1 / 4)
    (by norm_num [Triangle.Triangle, Vec3.dot, Vec3.cross, Vec3.sub_def])
    (by norm_num) (by norm_num) (by norm_num) (by norm_num) (by norm_num)
    (by norm_num [Triangle.Triangle, Vec3.scale, Vec3.sub_def, Vec3.add_def])

/-- C3. For the triangle `(0,0,0), (1,0,0), (0,1,0)` and a ray from
`(0.25, 0.25, -1)` in direction `(0,0,1)` with `tmin ≤ 1 ≤ tmax`,
`Triangle::rayIntersect` returns true with `t = 1`, and `origin + t * direction`
is `(0.25, 0.25, 0)`. -/
theorem triangle_unit_hit (id : Nat) (tmin tmax t0 : K) (hmin : tmin ≤ 1) (hmax : 1 ≤ tmax) :
    (Triangle.Triangle id ⟨0, 0, 0⟩ ⟨1, 0, 0⟩ ⟨0, 1, 0⟩ : rcube.Triangle K).rayIntersect
        ⟨⟨1 / 4, 1 / 4, -1⟩, ⟨0, 0, 1⟩, tmin, tmax⟩ t0 = (true, 1) ∧
      (⟨1 / 4, 1 / 4, -1⟩ : Vec3 K) + Vec3.scale 1 ⟨0, 0, 1⟩ = ⟨1 / 4, 1 / 4, 0⟩ := by
  constructor
  · have h1 : ¬ (1 : K) < tmin := not_lt.mpr hmin
    have h2 : ¬ tmax < (1 : K) := not_lt.mpr hmax
    norm_num [Triangle.rayIntersect, Triangle.Triangle, Vec3.dot, Vec3.cross, Vec3.sub_def,
      h1, h2]
  · norm_num [Vec3.scale, Vec3.add_def]

/-- C3, with the interval `[0, 10]` over the rationals. -/
theorem triangle_unit_hit_witness :
    (Triangle.Triangle 0 ⟨0, 0, 0⟩ ⟨1, 0, 0⟩ ⟨0, 1, 0⟩ : rcube.Triangle ℚ).rayIntersect
        ⟨⟨1 / 4, 1 / 4, -1⟩, ⟨0, 0, 1⟩, 0, 10⟩ 7 = (true, 1) ∧
      (⟨1 / 4, 1 / 4, -1⟩ : Vec3 ℚ) + Vec3.scale 1 ⟨0, 0, 1⟩ = ⟨1 / 4, 1 / 4, 0⟩ :=
  triangle_unit_hit 0 0 10 7 (by norm_num) (by norm_num)

/-- C4. For the triangle `(0,0,0), (1,0,0), (0,1,0)` and a ray from `(10, 10, -1)`
in direction `(0,0,1)`, `Triangle::rayIntersect` returns false, whatever `tmin`
and `tmax` are (and the out-parameter keeps its value). -/
theorem triangle_unit_miss (id : Nat) (tmin tmax t0 : K) :
    (Triangle.Triangle id ⟨0, 0, 0⟩ ⟨1, 0, 0⟩ ⟨0, 1, 0⟩ : rcube.Triangle K).rayIntersect
        ⟨⟨10, 10, -1⟩, ⟨0, 0, 1⟩, tmin, tmax⟩ t0 = (false, t0) := by
  norm_num [Triangle.rayIntersect, Triangle.Triangle, Vec3.dot, Vec3.cross, Vec3.sub_def]

end TriangleClaims

/-! ## Point::rayIntersect -/

section PointLemmas

variable {K : Type} [LinearOrderedField K]

/-- The real square root meets the contract `IsSqrt`. -/
theorem real_isSqrt : IsSqrt Real.sqrt :=
  fun x hx => ⟨Real.sqrt_nonneg x, Real.mul_self_sqrt hx⟩

/-- A square root of `1` under the contract is `1`. -/
theorem IsSqrt.one {sqrt : K → K} (hs : IsSqrt sqrt) : sqrt 1 = 1 := by
  obtain ⟨h0, h1⟩ := hs 1 zero_le_one
  have h : (sqrt 1 - 1) * (sqrt 1 + 1) = 0 := by linear_combination h1
  rcases mul_eq_zero.mp h with h | h
  · linarith
  · linarith

/-- The square root of `0` is `0`. -/
theorem IsSqrt.zero {sqrt : K → K} (hs : IsSqrt sqrt) : sqrt 0 = 0 := by
  obtain ⟨_, h2⟩ := hs 0 (le_refl 0)
  exact mul_self_eq_zero.mp h2

end PointLemmas

section PointClaims

variable {K : Type} [LinearOrderedField K]

/-- C5. For the `Point` centred at `(0,0,0)` with radius `1` and a ray from
`(0,0,-5)` in direction `(0,0,1)`, `Point::rayIntersect` returns true with
`t = 4`. -/
theorem point_unit_sphere_hit (sqrt : K → K) (hs : IsSqrt sqrt) (id : Nat)
    (tmin tmax t0 : K) :
    Point.rayIntersect sqrt (Point.Point id ⟨0, 0, 0⟩ 1)
      ⟨⟨0, 0, -5⟩, ⟨0, 0, 1⟩, tmin, tmax⟩ t0 = (true, 4) := by
  norm_num [Point.rayIntersect, Point.Point, Vec3.dot, Vec3.sub_def, hs.one]

/-- C5, with the real square root. -/
theorem point_unit_sphere_hit_witness :
    IsSqrt Real.sqrt ∧
      Point.rayIntersect Real.sqrt (Point.Point 0 ⟨0, 0, 0⟩ 1)
        ⟨⟨0, 0, -5⟩, ⟨0, 0, 1⟩, 0, 10⟩ 0 = (true, 4) :=
  ⟨real_isSqrt, point_unit_sphere_hit Real.sqrt real_isSqrt 0 0 10 0⟩

/-- C6. For a `Point` with centre `c` and radius `r`, with `L = c - origin`,
`tca = L · direction` and `d2 = L · L - tca^2`: `Point::rayIntersect` returns
false exactly when `d2 > r^2` (leaving `t` as it was), and otherwise returns true
with `t = tca - sqrt (r^2 - d2)`, the smaller of the roots `tca - thc` and
`tca + thc`. -/
theorem point_rayIntersect_roots (sqrt : K → K) (hs : IsSqrt sqrt) (id : Nat) (c : Vec3 K)
    (r : K) (ray : Ray K) (t0 : K) :
    let L := c - ray.origin
    let tca := Vec3.dot L ray.direction
    let d2 := Vec3.dot L L - tca ^ 2
    let thc := sqrt (r ^ 2 - d2)
    ((Point.rayIntersect sqrt (Point.Point id c r) ray t0).1 = false ↔ d2 > r ^ 2) ∧
      (d2 > r ^ 2 → Point.rayIntersect sqrt (Point.Point id c r) ray t0 = (false, t0)) ∧
      (¬ d2 > r ^ 2 →
        Point.rayIntersect sqrt (Point.Point id c r) ray t0 = (true, tca - thc) ∧
          tca - thc ≤ tca + thc ∧ tca - thc = min (tca - thc) (tca + thc)) := by
  intro L tca d2 thc
  have hcode : Point.rayIntersect sqrt (Point.Point id c r) ray t0 =
      if d2 > r ^ 2 then (false, t0) else (true, min (tca - thc) (tca + thc)) := by
    simp only [Point.rayIntersect, Point.Point, L, tca, d2, thc, pow_two]
  by_cases h : d2 > r ^ 2
  · rw [hcode, if_pos h]
    exact ⟨⟨fun _ => h, fun _ => rfl⟩, fun _ => rfl, fun h' => absurd h h'⟩
  · have hthc : 0 ≤ thc := (hs (r ^ 2 - d2) (by linarith [not_lt.mp h])).1
    have hle : tca - thc ≤ tca + thc := by linarith
    rw [hcode, if_neg h, min_eq_left hle]
    exact ⟨⟨fun h' => Bool.noConfusion h', fun h' => absurd h' h⟩, fun h' => absurd h' h,
      fun _ => ⟨rfl, hle, rfl⟩⟩

/-- C6, at the unit sphere and the ray from `(0,0,-5)` along `+z`, with the real
square root: `d2 = 0` is not above `r^2 = 1`, and the smaller root is reported. -/
theorem point_rayIntersect_roots_witness :
    IsSqrt Real.sqrt ∧
      ¬ (Vec3.dot ((⟨0, 0, 0⟩ : Vec3 ℝ) - ⟨0, 0, -5⟩) ((⟨0, 0, 0⟩ : Vec3 ℝ) - ⟨0, 0, -5⟩)
          - Vec3.dot ((⟨0, 0, 0⟩ : Vec3 ℝ) - ⟨0, 0, -5⟩) ⟨0, 0, 1⟩ ^ 2 > (1 : ℝ) ^ 2) ∧
      Point.rayIntersect Real.sqrt (Point.Point 0 ⟨0, 0, 0⟩ 1)
          ⟨⟨0, 0, -5⟩, ⟨0, 0, 1⟩, 0, 10⟩ 0 =
        (true, Vec3.dot ((⟨0, 0, 0⟩ : Vec3 ℝ) - ⟨0, 0, -5⟩) ⟨0, 0, 1⟩ -
          Real.sqrt ((1 : ℝ) ^ 2 -
            (Vec3.dot ((⟨0, 0, 0⟩ : Vec3 ℝ) - ⟨0, 0, -5⟩) ((⟨0, 0, 0⟩ : Vec3 ℝ) - ⟨0, 0, -5⟩)
              - Vec3.dot ((⟨0, 0, 0⟩ : Vec3 ℝ) - ⟨0, 0, -5⟩) ⟨0, 0, 1⟩ ^ 2))) :=
  ⟨real_isSqrt, by norm_num [Vec3.dot, Vec3.sub_def],
    ((point_rayIntersect_roots Real.sqrt real_isSqrt 0 ⟨0, 0, 0⟩ 1
      ⟨⟨0, 0, -5⟩, ⟨0, 0, 1⟩, 0, 10⟩ 0).2.2 (by norm_num [Vec3.dot, Vec3.sub_def])).1⟩

/-- C7. The code reports a hit for a sphere that lies wholly behind the ray
origin: for the `Point` centred at `(0,0,-5)` with radius `1` and the ray from
`(0,0,0)` with unit direction `(0,0,1)` and interval `[0, 100]`, both roots
`tca - thc` and `tca + thc` are negative, and `Point::rayIntersect` returns true
with `t = -6`. -/
theorem point_behind_ray_reported :
    Vec3.dot (⟨0, 0, 1⟩ : Vec3 ℝ) ⟨0, 0, 1⟩ = 1 ∧
      (let L := (⟨0, 0, -5⟩ : Vec3 ℝ) - ⟨0, 0, 0⟩
       let tca := Vec3.dot L ⟨0, 0, 1⟩
       let thc := Real.sqrt (1 * 1 - (Vec3.dot L L - tca * tca))
       tca - thc < 0 ∧ tca + thc < 0) ∧
      Point.rayIntersect Real.sqrt (Point.Point 0 ⟨0, 0, -5⟩ 1)
        ⟨⟨0, 0, 0⟩, ⟨0, 0, 1⟩, 0, 100⟩ 0 = (true, -6) := by
  refine ⟨?_, ?_, ?_⟩
  · norm_num [Vec3.dot]
  · norm_num [Vec3.dot, Vec3.sub_def]
  · norm_num [Point.rayIntersect, Point.Point, Vec3.dot, Vec3.sub_def]

/-- C9, as stated, fails: the `Point` constructed at `(0,0,0)` with radius `0` is
reported hit, with `t = 5`, by the ray from `(0,0,-5)` in direction `(0,0,1)`,
whose line passes through the centre. -/
theorem point_zero_radius_hit :
    Point.rayIntersect Real.sqrt (Point.Point 0 ⟨0, 0, 0⟩ 0)
      ⟨⟨0, 0, -5⟩, ⟨0, 0, 1⟩, 0, 100⟩ 0 = (true, 5) := by
  norm_num [Point.rayIntersect, Point.Point, Vec3.dot, Vec3.sub_def]

/-- C9, amended. In exact arithmetic, for a `Point` constructed with radius `0`
and a ray with unit direction: `Point::rayIntersect` reports no hit exactly when
the line `origin + s * direction` does not pass through the centre; and when the
line passes through the centre it returns true with `t = tca`, the parameter
`(centre - origin) · direction` of the centre on the line (also when that is
negative, the centre behind the origin). -/
theorem point_zero_radius_miss_iff (sqrt : K → K) (hs : IsSqrt sqrt) (id : Nat) (c : Vec3 K)
    (ray : Ray K) (t0 : K) (hunit : Vec3.dot ray.direction ray.direction = 1) :
    ((Point.rayIntersect sqrt (Point.Point id c 0) ray t0).1 = false ↔
        ¬ ∃ s : K, ray.origin + Vec3.scale s ray.direction = c) ∧
      ((∃ s : K, ray.origin + Vec3.scale s ray.direction = c) →
        Point.rayIntersect sqrt (Point.Point id c 0) ray t0
          = (true, Vec3.dot (c - ray.origin) ray.direction)) := by
  obtain ⟨cx, cy, cz⟩ := c
  obtain ⟨⟨ox, oy, oz⟩, ⟨dx, dy, dz⟩, tmin, tmax⟩ := ray
  simp only [Vec3.dot] at hunit
  simp only [Point.rayIntersect, Point.Point, Vec3.dot, Vec3.sub_def, Vec3.add_def,
    Vec3.scale, Vec3.mk.injEq, mul_zero, gt_iff_lt]
  have hline : ∀ s : K, ox + s * dx = cx ∧ oy + s * dy = cy ∧ oz + s * dz = cz →
      (cx - ox) * (cx - ox) + (cy - oy) * (cy - oy) + (cz - oz) * (cz - oz)
        - ((cx - ox) * dx + (cy - oy) * dy + (cz - oz) * dz)
          * ((cx - ox) * dx + (cy - oy) * dy + (cz - oz) * dz) = 0 := by
    rintro s ⟨hx, hy, hz⟩
    have ex : cx - ox = s * dx := by linarith
    have ey : cy - oy = s * dy := by linarith
    have ez : cz - oz = s * dz := by linarith
    rw [ex, ey, ez]
    linear_combination (-(s ^ 2) * (dx * dx + dy * dy + dz * dz)) * hunit
  refine ⟨⟨?_, ?_⟩, ?_⟩
  · intro h
    split_ifs at h with hd2
    · rintro ⟨s, hs3⟩
      rw [hline s hs3] at hd2
      exact lt_irrefl _ hd2
  · intro h
    split_ifs with hd2
    · rfl
    · exfalso
      apply h
      have hle := not_lt.mp hd2
      refine ⟨(cx - ox) * dx + (cy - oy) * dy + (cz - oz) * dz, ?_⟩
      have key : (cx - ox - ((cx - ox) * dx + (cy - oy) * dy + (cz - oz) * dz) * dx) ^ 2
          + (cy - oy - ((cx - ox) * dx + (cy - oy) * dy + (cz - oz) * dz) * dy) ^ 2
          + (cz - oz - ((cx - ox) * dx + (cy - oy) * dy + (cz - oz) * dz) * dz) ^ 2 ≤ 0 := by
        have e : (cx - ox - ((cx - ox) * dx + (cy - oy) * dy + (cz - oz) * dz) * dx) ^ 2
          + (cy - oy - ((cx - ox) * dx + (cy - oy) * dy + (cz - oz) * dz) * dy) ^ 2
          + (cz - oz - ((cx - ox) * dx + (cy - oy) * dy + (cz - oz) * dz) * dz) ^ 2
          = (cx - ox) * (cx - ox) + (cy - oy) * (cy - oy) + (cz - oz) * (cz - oz)
            - ((cx - ox) * dx + (cy - oy) * dy + (cz - oz) * dz)
              * ((cx - ox) * dx + (cy - oy) * dy + (cz - oz) * dz) := by
          linear_combination
            (((cx - ox) * dx + (cy - oy) * dy + (cz - oz) * dz) ^ 2) * hunit
        rw [e]
        exact hle
      have hx := sq_nonneg (cx - ox - ((cx - ox) * dx + (cy - oy) * dy + (cz - oz) * dz) * dx)
      have hy := sq_nonneg (cy - oy - ((cx - ox) * dx + (cy - oy) * dy + (cz - oz) * dz) * dy)
      have hz := sq_nonneg (cz - oz - ((cx - ox) * dx + (cy - oy) * dy + (cz - oz) * dz) * dz)
      have zx := pow_eq_zero_iff (two_ne_zero) |>.mp (le_antisymm (by linarith) hx)
      have zy := pow_eq_zero_iff (two_ne_zero) |>.mp (le_antisymm (by linarith) hy)
      have zz := pow_eq_zero_iff (two_ne_zero) |>.mp (le_antisymm (by linarith) hz)
      refine ⟨?_, ?_, ?_⟩ <;> linarith
  · rintro ⟨s, hs3⟩
    have hd2 := hline s hs3
    rw [hd2, if_neg (lt_irrefl 0), sub_zero, IsSqrt.zero hs, sub_zero, add_zero, min_self]

/-- C9, amended, at the centre `(0,0,3)` and the ray from `(0,0,-5)` along `+z`,
whose line passes through the centre at `s = 8`, with the real square root. -/
theorem point_zero_radius_miss_iff_witness :
    IsSqrt Real.sqrt ∧ Vec3.dot (⟨0, 0, 1⟩ : Vec3 ℝ) ⟨0, 0, 1⟩ = 1 ∧
      ((Point.rayIntersect Real.sqrt (Point.Point 0 ⟨0, 0, 3⟩ 0)
          ⟨⟨0, 0, -5⟩, ⟨0, 0, 1⟩, 0, 100⟩ 0).1 = false ↔
        ¬ ∃ s : ℝ, (⟨0, 0, -5⟩ : Vec3 ℝ) + Vec3.scale s ⟨0, 0, 1⟩ = ⟨0, 0, 3⟩) ∧
      Point.rayIntersect Real.sqrt (Point.Point 0 ⟨0, 0, 3⟩ 0)
          ⟨⟨0, 0, -5⟩, ⟨0, 0, 1⟩, 0, 100⟩ 0
        = (true, Vec3.dot ((⟨0, 0, 3⟩ : Vec3 ℝ) - ⟨0, 0, -5⟩) ⟨0, 0, 1⟩) :=
  ⟨real_isSqrt, by norm_num [Vec3.dot],
    (point_zero_radius_miss_iff Real.sqrt real_isSqrt 0 ⟨0, 0, 3⟩
      ⟨⟨0, 0, -5⟩, ⟨0, 0, 1⟩, 0, 100⟩ 0 (by norm_num [Vec3.dot])).1,
    (point_zero_radius_miss_iff Real.sqrt real_isSqrt 0 ⟨0, 0, 3⟩
      ⟨⟨0, 0, -5⟩, ⟨0, 0, 1⟩, 0, 100⟩ 0 (by norm_num [Vec3.dot])).2
      ⟨8, by norm_num [Vec3.add_def, Vec3.scale]⟩⟩

end PointClaims

/-! ## Triangle::rayIntersect: degenerate triangles, rays at the centroid -/

section TriangleDegenerateClaims

variable {K : Type} [LinearOrderedField K]

/-- For a unit vector `n` orthogonal to both edges, the determinant of the ray
with direction `-n` is `n · (e1 × e2)`, and its square is `|e1 × e2|^2`. -/
theorem Triangle.det_sq_of_normal (tri : rcube.Triangle K) (n o : Vec3 K) (tmin tmax : K)
    (hn : Vec3.dot n n = 1) (h1 : Vec3.dot n (tri.v1_ - tri.v0_) = 0)
    (h2 : Vec3.dot n (tri.v2_ - tri.v0_) = 0) :
    tri.det ⟨o, Vec3.neg n, tmin, tmax⟩ ^ 2 =
      Vec3.dot (Vec3.cross (tri.v1_ - tri.v0_) (tri.v2_ - tri.v0_))
        (Vec3.cross (tri.v1_ - tri.v0_) (tri.v2_ - tri.v0_)) := by
  obtain ⟨id, ⟨ax, ay, az⟩, ⟨bx, b_y, bz⟩, ⟨cx, cy, cz⟩⟩ := tri
  obtain ⟨nx, ny, nz⟩ := n
  simp only [Triangle.det, Vec3.dot, Vec3.cross, Vec3.sub_def, Vec3.neg] at hn h1 h2 ⊢
  linear_combination
    (((b_y - ay) * (cz - az) - (cy - ay) * (bz - az)) ^ 2
      + ((bz - az) * (cx - ax) - (cz - az) * (bx - ax)) ^ 2
      + ((bx - ax) * (cy - ay) - (cx - ax) * (b_y - ay)) ^ 2) * hn
    - ((nx * (bx - ax) + ny * (b_y - ay) + nz * (bz - az))
        * ((cx - ax) ^ 2 + (cy - ay) ^ 2 + (cz - az) ^ 2)
      - 2 * (nx * (cx - ax) + ny * (cy - ay) + nz * (cz - az))
        * ((bx - ax) * (cx - ax) + (b_y - ay) * (cy - ay) + (bz - az) * (cz - az))) * h1
    - ((nx * (cx - ax) + ny * (cy - ay) + nz * (cz - az))
        * ((bx - ax) ^ 2 + (b_y - ay) ^ 2 + (bz - az) ^ 2)) * h2

/-- C10, as stated, fails: the triangle `(0,0,0), (1/10000,0,0), (0,1/10000,0)`
has positive area and unit normal `n = (0,0,1)`, yet the ray from
`centroid + 1 * n` in direction `-n` with interval `[0, 10]` is rejected by the
determinant test (`det = 1e-8`). -/
theorem triangle_centroid_ray_small_miss :
    Vec3.cross ((⟨1 / 10000, 0, 0⟩ : Vec3 ℚ) - ⟨0, 0, 0⟩) ((⟨0, 1 / 10000, 0⟩ : Vec3 ℚ) - ⟨0, 0, 0⟩)
        = Vec3.scale (1 / 100000000) ⟨0, 0, 1⟩ ∧
      Vec3.dot (⟨0, 0, 1⟩ : Vec3 ℚ) ⟨0, 0, 1⟩ = 1 ∧
      (0 : ℚ) < 1 ∧ (0 : ℚ) ≤ 1 ∧ (1 : ℚ) ≤ 10 ∧
      (Triangle.Triangle 0 ⟨0, 0, 0⟩ ⟨1 / 10000, 0, 0⟩ ⟨0, 1 / 10000, 0⟩ :
          rcube.Triangle ℚ).rayIntersect
        ⟨(Triangle.Triangle 0 ⟨0, 0, 0⟩ ⟨1 / 10000, 0, 0⟩ ⟨0, 1 / 10000, 0⟩ :
            rcube.Triangle ℚ).position + Vec3.scale 1 ⟨0, 0, 1⟩,
          Vec3.neg ⟨0, 0, 1⟩, 0, 10⟩ 7 = (false, 7) := by
  refine ⟨?_, ?_, ?_, ?_, ?_, ?_⟩
  · norm_num [Vec3.cross, Vec3.scale, Vec3.sub_def]
  · norm_num [Vec3.dot]
  · norm_num
  · norm_num
  · norm_num
  · norm_num [Triangle.rayIntersect, Triangle.Triangle, Triangle.position, Vec3.dot,
      Vec3.cross, Vec3.sub_def, Vec3.add_def, Vec3.scale, Vec3.neg, Vec3.div, abs_lt]

/-- C10, amended. In exact arithmetic, for a triangle whose doubled area
`|(v1 - v0) × (v2 - v0)|` is at least `1e-6`, a unit vector `n` normal to it, its
centroid `g = position()`, every `s > 0` and the ray with origin `g + s * n`,
direction `-n` and `tmin ≤ s ≤ tmax`, `Triangle::rayIntersect` returns true with
`t = s`. -/
theorem triangle_centroid_ray_hit (tri : rcube.Triangle K) (n : Vec3 K) (s tmin tmax t0 : K)
    (hn : Vec3.dot n n = 1) (h1 : Vec3.dot n (tri.v1_ - tri.v0_) = 0)
    (h2 : Vec3.dot n (tri.v2_ - tri.v0_) = 0)
    (harea : (1 / 1000000) ^ 2 ≤
      Vec3.dot (Vec3.cross (tri.v1_ - tri.v0_) (tri.v2_ - tri.v0_))
        (Vec3.cross (tri.v1_ - tri.v0_) (tri.v2_ - tri.v0_)))
    (_hs : 0 < s) (hmin : tmin ≤ s) (hmax : s ≤ tmax) :
    tri.rayIntersect ⟨tri.position + Vec3.scale s n, Vec3.neg n, tmin, tmax⟩ t0
      = (true, s) := by
  have hsq := Triangle.det_sq_of_normal tri n (tri.position + Vec3.scale s n) tmin tmax hn h1 h2
  rw [← hsq] at harea
  have hdet : 1 / 1000000 ≤ |tri.det ⟨tri.position + Vec3.scale s n, Vec3.neg n, tmin, tmax⟩| := by
    have h := sq_le_sq.mp harea
    rwa [abs_of_pos (by norm_num : (0 : K) < 1 / 1000000)] at h
  have hp : (⟨tri.position + Vec3.scale s n, Vec3.neg n, tmin, tmax⟩ : Ray K).origin
      + Vec3.scale s (⟨tri.position + Vec3.scale s n, Vec3.neg n, tmin, tmax⟩ : Ray K).direction
      = tri.v0_ + Vec3.scale (1 / 3) (tri.v1_ - tri.v0_)
        + Vec3.scale (1 / 3) (tri.v2_ - tri.v0_) := by
    simp only [Triangle.position, Vec3.sub_def, Vec3.add_def, Vec3.scale, Vec3.neg, Vec3.div,
      Vec3.mk.injEq]
    refine ⟨?_, ?_, ?_⟩ <;> ring
  obtain ⟨eu, ev, et⟩ := Triangle.cramer_unique tri _ s (1 / 3) (1 / 3)
    (Triangle.det_ne_zero_of_le tri _ hdet) hp
  rw [Triangle.rayIntersect_eq, eu, ev, et]
  exact if_pos ⟨hdet, by norm_num, by norm_num, by norm_num, by norm_num, hmin, hmax⟩

/-- C10, amended, at the unit triangle `(0,0,0), (1,0,0), (0,1,0)` with
`n = (0,0,1)`, `s = 2` and the interval `[0, 10]`. -/
theorem triangle_centroid_ray_hit_witness :
    (Triangle.Triangle 0 ⟨0, 0, 0⟩ ⟨1, 0, 0⟩ ⟨0, 1, 0⟩ : rcube.Triangle ℚ).rayIntersect
      ⟨(Triangle.Triangle 0 ⟨0, 0, 0⟩ ⟨1, 0, 0⟩ ⟨0, 1, 0⟩ : rcube.Triangle ℚ).position
          + Vec3.scale 2 ⟨0, 0, 1⟩,
        Vec3.neg ⟨0, 0, 1⟩, 0, 10⟩ 7 = (true, 2) :=
  triangle_centroid_ray_hit (Triangle.Triangle 0 ⟨0, 0, 0⟩ ⟨1, 0, 0⟩ ⟨0, 1, 0⟩)
    ⟨0, 0, 1⟩ 2 0 10 7
    (by norm_num [Vec3.dot])
    (by norm_num [Triangle.Triangle, Vec3.dot, Vec3.sub_def])
    (by norm_num [Triangle.Triangle, Vec3.dot, Vec3.sub_def])
    (by norm_num [Triangle.Triangle, Vec3.dot, Vec3.cross, Vec3.sub_def])
    (by norm_num) (by norm_num) (by norm_num)

end TriangleDegenerateClaims


/-! ## Boxes of the primitives -/

section BoxLemmas

variable {K : Type} [LinearOrderedField K]

/-- The scalar `glm::min` is the minimum of the order. -/
theorem glm_min_eq (a b : K) : (if b < a then b else a) = min a b := by
  split_ifs with h
  · exact (min_eq_right (le_of_lt h)).symm
  · exact (min_eq_left (not_lt.mp h)).symm

/-- The scalar `glm::max` is the maximum of the order. -/
theorem glm_max_eq (a b : K) : (if a < b then b else a) = max a b := by
  split_ifs with h
  · exact (max_eq_right (le_of_lt h)).symm
  · exact (max_eq_left (not_lt.mp h)).symm

/-- The corners of `Triangle::aabb`, axis by axis, as minima and maxima. -/
theorem Triangle.aabb_eq (tri : rcube.Triangle K) :
    tri.aabb =
      ⟨⟨min tri.v0_.x (min tri.v1_.x tri.v2_.x), min tri.v0_.y (min tri.v1_.y tri.v2_.y),
          min tri.v0_.z (min tri.v1_.z tri.v2_.z)⟩,
        ⟨max tri.v0_.x (max tri.v1_.x tri.v2_.x), max tri.v0_.y (max tri.v1_.y tri.v2_.y),
          max tri.v0_.z (max tri.v1_.z tri.v2_.z)⟩⟩ := by
  simp only [Triangle.aabb, Vec3.min, Vec3.max, glm_min_eq, glm_max_eq]

/-- A convex combination of three numbers is at least any common lower bound. -/
theorem convex_ge (a b c u v m : K) (hu : 0 ≤ u) (hv : 0 ≤ v) (huv : u + v ≤ 1)
    (ha : m ≤ a) (hb : m ≤ b) (hc : m ≤ c) : m ≤ a + u * (b - a) + v * (c - a) := by
  have h1 := mul_nonneg hu (sub_nonneg.mpr hb)
  have h2 := mul_nonneg hv (sub_nonneg.mpr hc)
  have h3 := mul_nonneg (sub_nonneg.mpr huv) (sub_nonneg.mpr ha)
  have e : a + u * (b - a) + v * (c - a) - m
      = u * (b - m) + v * (c - m) + (1 - (u + v)) * (a - m) := by ring
  linarith

/-- A convex combination of three numbers is at most any common upper bound. -/
theorem convex_le (a b c u v m : K) (hu : 0 ≤ u) (hv : 0 ≤ v) (huv : u + v ≤ 1)
    (ha : a ≤ m) (hb : b ≤ m) (hc : c ≤ m) : a + u * (b - a) + v * (c - a) ≤ m := by
  have h1 := mul_nonneg hu (sub_nonneg.mpr hb)
  have h2 := mul_nonneg hv (sub_nonneg.mpr hc)
  have h3 := mul_nonneg (sub_nonneg.mpr huv) (sub_nonneg.mpr ha)
  have e : m - (a + u * (b - a) + v * (c - a))
      = u * (m - b) + v * (m - c) + (1 - (u + v)) * (m - a) := by ring
  linarith

/-- Every point `v0 + u * (v1 - v0) + v * (v2 - v0)` of the triangle lies in
`Triangle::aabb`. -/
theorem Triangle.barycentric_in_aabb (tri : rcube.Triangle K) (u v : K)
    (hu : 0 ≤ u) (hv : 0 ≤ v) (huv : u + v ≤ 1) :
    tri.aabb.Contains
      (tri.v0_ + Vec3.scale u (tri.v1_ - tri.v0_) + Vec3.scale v (tri.v2_ - tri.v0_)) := by
  rw [Triangle.aabb_eq]
  obtain ⟨id, ⟨ax, ay, az⟩, ⟨bx, b_y, bz⟩, ⟨cx, cy, cz⟩⟩ := tri
  simp only [AABB.Contains, Vec3.le, Vec3.sub_def, Vec3.add_def, Vec3.scale]
  refine ⟨⟨?_, ?_, ?_⟩, ?_, ?_, ?_⟩
  · exact convex_ge _ _ _ u v _ hu hv huv (min_le_left _ _)
      ((min_le_right _ _).trans (min_le_left _ _)) ((min_le_right _ _).trans (min_le_right _ _))
  · exact convex_ge _ _ _ u v _ hu hv huv (min_le_left _ _)
      ((min_le_right _ _).trans (min_le_left _ _)) ((min_le_right _ _).trans (min_le_right _ _))
  · exact convex_ge _ _ _ u v _ hu hv huv (min_le_left _ _)
      ((min_le_right _ _).trans (min_le_left _ _)) ((min_le_right _ _).trans (min_le_right _ _))
  · exact convex_le _ _ _ u v _ hu hv huv (le_max_left _ _)
      ((le_max_left _ _).trans (le_max_right _ _)) ((le_max_right _ _).trans (le_max_right _ _))
  · exact convex_le _ _ _ u v _ hu hv huv (le_max_left _ _)
      ((le_max_left _ _).trans (le_max_right _ _)) ((le_max_right _ _).trans (le_max_right _ _))
  · exact convex_le _ _ _ u v _ hu hv huv (le_max_left _ _)
      ((le_max_left _ _).trans (le_max_right _ _)) ((le_max_right _ _).trans (le_max_right _ _))

/-- What a true return of `Triangle::rayIntersect` says about the values the
code computed. -/
theorem Triangle.hit_cases (tri : rcube.Triangle K) (ray : Ray K) (t0 t : K)
    (h : tri.rayIntersect ray t0 = (true, t)) :
    1 / 1000000 ≤ |tri.det ray| ∧ 0 ≤ tri.baryU ray ∧ 0 ≤ tri.baryV ray ∧
      tri.baryU ray + tri.baryV ray ≤ 1 ∧ ray.tmin ≤ t ∧ t ≤ ray.tmax ∧ tri.tempt ray = t := by
  rw [Triangle.rayIntersect_eq] at h
  split_ifs at h with hc
  · obtain ⟨h1, h2, _, h4, h5, h6, h7⟩ := hc
    have ht : tri.tempt ray = t := (Prod.mk.inj h).2
    rw [← ht]
    exact ⟨h1, h2, h4, h5, h6, h7, rfl⟩
  · exact absurd (Prod.mk.inj h).1 (by decide)

/-- A call of `Triangle::rayIntersect` that does not return `(true, _)` returns
false and leaves `t` as it was. -/
theorem Triangle.rayIntersect_false_or (tri : rcube.Triangle K) (ray : Ray K) (t0 : K) :
    tri.rayIntersect ray t0 = (false, t0) ∨ tri.rayIntersect ray t0 = (true, tri.tempt ray) := by
  rw [Triangle.rayIntersect_eq]
  split_ifs
  · exact Or.inr rfl
  · exact Or.inl rfl

/-- The point at which `Triangle::rayIntersect` reports a hit lies in
`Triangle::aabb`. -/
theorem Triangle.hit_in_aabb (tri : rcube.Triangle K) (ray : Ray K) (t0 t : K)
    (h : tri.rayIntersect ray t0 = (true, t)) :
    tri.aabb.Contains (ray.origin + Vec3.scale t ray.direction) := by
  obtain ⟨h1, h2, h3, h4, _, _, h7⟩ := Triangle.hit_cases tri ray t0 t h
  have hc := Triangle.cramer tri ray (Triangle.det_ne_zero_of_le tri ray h1)
  rw [h7] at hc
  rw [hc]
  exact Triangle.barycentric_in_aabb tri _ _ h2 h3 h4

end BoxLemmas

section BoxClaims

variable {K : Type} [LinearOrderedField K]

/-- C11, as stated, fails in binary32. For the triangle `(-4,0,-2), (0,8,6),
(0,7,-6)`, whose box is `[-4,0] x [0,8] x [-6,6]`, and the ray from
`(-4, -0.6f, -9.2f)` with the direction `(-1/3, -2/3, -2/3)` rounded to `float` and
the interval `[0, 1000]`: `tmin ≥ 0`, the origin is outside the box, and the
direction points away from every point of the box. The direction is parallel to
the edge `v1 - v0`, so that in exact arithmetic `det = 0` and the test rejects the
ray; in binary32 the rounded products leave `det = 2^-19`, which passes the test
`std::abs(det) < 1e-6`, and `Triangle::rayIntersect` returns true with `t = 3`. -/
theorem triangle_pointing_away_hit_binary32 :
    0 ≤ (Ray.toRat ⟨⟨-4, F32.ofRat (-6 / 10), F32.ofRat (-92 / 10)⟩,
          ⟨F32.ofRat (-1 / 3), F32.ofRat (-2 / 3), F32.ofRat (-2 / 3)⟩, 0, 1000⟩).tmin ∧
      ¬ (Triangle.toRat ⟨0, ⟨-4, 0, -2⟩, ⟨0, 8, 6⟩, ⟨0, 7, -6⟩⟩).aabb.Contains
          (Ray.toRat ⟨⟨-4, F32.ofRat (-6 / 10), F32.ofRat (-92 / 10)⟩,
            ⟨F32.ofRat (-1 / 3), F32.ofRat (-2 / 3), F32.ofRat (-2 / 3)⟩, 0, 1000⟩).origin ∧
      (∀ p : Vec3 ℚ,
        (Triangle.toRat ⟨0, ⟨-4, 0, -2⟩, ⟨0, 8, 6⟩, ⟨0, 7, -6⟩⟩).aabb.Contains p →
          Vec3.dot
            (p - (Ray.toRat ⟨⟨-4, F32.ofRat (-6 / 10), F32.ofRat (-92 / 10)⟩,
              ⟨F32.ofRat (-1 / 3), F32.ofRat (-2 / 3), F32.ofRat (-2 / 3)⟩, 0, 1000⟩).origin)
            (Ray.toRat ⟨⟨-4, F32.ofRat (-6 / 10), F32.ofRat (-92 / 10)⟩,
              ⟨F32.ofRat (-1 / 3), F32.ofRat (-2 / 3), F32.ofRat (-2 / 3)⟩, 0, 1000⟩).direction
            < 0) ∧
      (Triangle.toRat ⟨0, ⟨-4, 0, -2⟩, ⟨0, 8, 6⟩, ⟨0, 7, -6⟩⟩).rayIntersect
          (Ray.toRat ⟨⟨-4, F32.ofRat (-6 / 10), F32.ofRat (-92 / 10)⟩,
            ⟨F32.ofRat (-1 / 3), F32.ofRat (-2 / 3), F32.ofRat (-2 / 3)⟩, 0, 1000⟩) 0
        = (false, 0) ∧
      Triangle.rayIntersect32 ⟨0, ⟨-4, 0, -2⟩, ⟨0, 8, 6⟩, ⟨0, 7, -6⟩⟩
          ⟨⟨-4, F32.ofRat (-6 / 10), F32.ofRat (-92 / 10)⟩,
            ⟨F32.ofRat (-1 / 3), F32.ofRat (-2 / 3), F32.ofRat (-2 / 3)⟩, 0, 1000⟩ 0
        = (true, 3) := by
  have hbox : (Triangle.toRat ⟨0, ⟨-4, 0, -2⟩, ⟨0, 8, 6⟩, ⟨0, 7, -6⟩⟩).aabb
      = ⟨⟨-4, 0, -6⟩, ⟨0, 8, 6⟩⟩ := by decide!
  have horigin : (Ray.toRat ⟨⟨-4, F32.ofRat (-6 / 10), F32.ofRat (-92 / 10)⟩,
      ⟨F32.ofRat (-1 / 3), F32.ofRat (-2 / 3), F32.ofRat (-2 / 3)⟩, 0, 1000⟩).origin
      = ⟨-4, -5033165 / 8388608, -9646899 / 1048576⟩ := by decide!
  have hdirection : (Ray.toRat ⟨⟨-4, F32.ofRat (-6 / 10), F32.ofRat (-92 / 10)⟩,
      ⟨F32.ofRat (-1 / 3), F32.ofRat (-2 / 3), F32.ofRat (-2 / 3)⟩, 0, 1000⟩).direction
      = ⟨-11184811 / 33554432, -11184811 / 16777216, -11184811 / 16777216⟩ := by decide!
  refine ⟨?_, ?_, ?_, ?_, ?_⟩
  · decide!
  · decide!
  · rintro ⟨px, py, pz⟩ hp
    rw [hbox] at hp
    rw [horigin, hdirection]
    simp only [AABB.Contains, Vec3.le, Vec3.dot, Vec3.sub_def] at hp ⊢
    obtain ⟨⟨h1, h2, h3⟩, _, _, _⟩ := hp
    linarith
  · decide!
  · decide!

/-- C11, amended. In exact arithmetic, for a ray with `tmin ≥ 0` whose origin is
outside `Triangle::aabb` and whose direction points away from the box
(`(p - origin) · direction < 0` for every point `p` of the box),
`Triangle::rayIntersect` returns false. -/
theorem triangle_miss_pointing_away (tri : rcube.Triangle K) (ray : Ray K) (t0 : K)
    (htmin : 0 ≤ ray.tmin) (_hout : ¬ tri.aabb.Contains ray.origin)
    (haway : ∀ p : Vec3 K, tri.aabb.Contains p → Vec3.dot (p - ray.origin) ray.direction < 0) :
    tri.rayIntersect ray t0 = (false, t0) := by
  rcases Triangle.rayIntersect_false_or tri ray t0 with h | h
  · exact h
  · exfalso
    have hin := Triangle.hit_in_aabb tri ray t0 _ h
    obtain ⟨_, _, _, _, h5, _, _⟩ := Triangle.hit_cases tri ray t0 _ h
    have hneg := haway _ hin
    have ht : 0 ≤ tri.tempt ray := le_trans htmin h5
    obtain ⟨⟨ox, oy, oz⟩, ⟨dx, dy, dz⟩, tmin, tmax⟩ := ray
    simp only [Vec3.dot, Vec3.sub_def, Vec3.add_def, Vec3.scale] at hneg
    have hx := mul_nonneg ht (mul_self_nonneg dx)
    have hy := mul_nonneg ht (mul_self_nonneg dy)
    have hz := mul_nonneg ht (mul_self_nonneg dz)
    nlinarith

/-- C11, amended, at the unit triangle and the ray from `(0,0,-1)` in direction
`(0,0,-1)` with the interval `[0, 10]`. -/
theorem triangle_miss_pointing_away_witness :
    (Triangle.Triangle 0 ⟨0, 0, 0⟩ ⟨1, 0, 0⟩ ⟨0, 1, 0⟩ : rcube.Triangle ℚ).rayIntersect
        ⟨⟨0, 0, -1⟩, ⟨0, 0, -1⟩, 0, 10⟩ 7 = (false, 7) :=
  triangle_miss_pointing_away (Triangle.Triangle 0 ⟨0, 0, 0⟩ ⟨1, 0, 0⟩ ⟨0, 1, 0⟩)
    ⟨⟨0, 0, -1⟩, ⟨0, 0, -1⟩, 0, 10⟩ 7 (by norm_num)
    (by norm_num [Triangle.aabb_eq, Triangle.Triangle, AABB.Contains, Vec3.le])
    (by
      rintro ⟨px, py, pz⟩ hp
      simp only [Triangle.aabb_eq, Triangle.Triangle, AABB.Contains, Vec3.le] at hp
      obtain ⟨⟨_, _, hz⟩, _, _, _⟩ := hp
      simp only [Vec3.dot, Vec3.sub_def]
      norm_num at hz ⊢
      linarith)

/-- C12. `Point::rayIntersect` does not depend on the parameter interval of the
ray: two rays with the same origin and direction give the same flag and the same
`t`, whatever their `tmin`, `tmax`; and a reported `t` may lie outside
`[tmin, tmax]` (the unit sphere, the ray from `(0,0,-5)` along `+z` with the
interval `[10, 20]`: `t = 4`). -/
theorem point_rayIntersect_ignores_interval (sqrt : K → K) (p : rcube.Point K)
    (o d : Vec3 K) (tmin tmax tmin2 tmax2 t0 : K) :
    Point.rayIntersect sqrt p ⟨o, d, tmin, tmax⟩ t0
        = Point.rayIntersect sqrt p ⟨o, d, tmin2, tmax2⟩ t0 ∧
      (Point.rayIntersect Real.sqrt (Point.Point 0 ⟨0, 0, 0⟩ 1)
          ⟨⟨0, 0, -5⟩, ⟨0, 0, 1⟩, 10, 20⟩ 0 = (true, 4) ∧ (4 : ℝ) < 10) := by
  refine ⟨rfl, ?_, by norm_num⟩
  norm_num [Point.rayIntersect, Point.Point, Vec3.dot, Vec3.sub_def]

/-- C13. `Triangle::aabb` is the tight box of the vertices: `min <= max`
componentwise, each of `v0`, `v1`, `v2` lies in the box, and on every axis the
`min` coordinate and the `max` coordinate are each attained by a vertex. -/
theorem triangle_aabb_tight (tri : rcube.Triangle K) :
    tri.aabb.Valid ∧
      tri.aabb.Contains tri.v0_ ∧ tri.aabb.Contains tri.v1_ ∧ tri.aabb.Contains tri.v2_ ∧
      (tri.aabb.min.x = tri.v0_.x ∨ tri.aabb.min.x = tri.v1_.x ∨ tri.aabb.min.x = tri.v2_.x) ∧
      (tri.aabb.min.y = tri.v0_.y ∨ tri.aabb.min.y = tri.v1_.y ∨ tri.aabb.min.y = tri.v2_.y) ∧
      (tri.aabb.min.z = tri.v0_.z ∨ tri.aabb.min.z = tri.v1_.z ∨ tri.aabb.min.z = tri.v2_.z) ∧
      (tri.aabb.max.x = tri.v0_.x ∨ tri.aabb.max.x = tri.v1_.x ∨ tri.aabb.max.x = tri.v2_.x) ∧
      (tri.aabb.max.y = tri.v0_.y ∨ tri.aabb.max.y = tri.v1_.y ∨ tri.aabb.max.y = tri.v2_.y) ∧
      (tri.aabb.max.z = tri.v0_.z ∨ tri.aabb.max.z = tri.v1_.z ∨ tri.aabb.max.z = tri.v2_.z) := by
  obtain ⟨id, ⟨ax, ay, az⟩, ⟨bx, b_y, bz⟩, ⟨cx, cy, cz⟩⟩ := tri
  simp only [Triangle.aabb, Vec3.min, Vec3.max, AABB.Valid, AABB.Contains, Vec3.le]
  refine ⟨⟨?_, ?_, ?_⟩, ⟨⟨?_, ?_, ?_⟩, ?_, ?_, ?_⟩, ⟨⟨?_, ?_, ?_⟩, ?_, ?_, ?_⟩,
    ⟨⟨?_, ?_, ?_⟩, ?_, ?_, ?_⟩, ?_, ?_, ?_, ?_, ?_, ?_⟩ <;>
    split_ifs <;> first | linarith | simp

/-- C14. For the `Point` with centre `c` and radius `r`, `Point::aabb` is the
box with `min = c - (r,r,r)` and `max = c + (r,r,r)`, and `position()` is `c`. -/
theorem point_aabb_position (id : Nat) (c : Vec3 K) (r : K) :
    (Point.Point id c r).aabb = ⟨c - ⟨r, r, r⟩, c + ⟨r, r, r⟩⟩ ∧
      (Point.Point id c r).aabb.min = ⟨c.x - r, c.y - r, c.z - r⟩ ∧
      (Point.Point id c r).aabb.max = ⟨c.x + r, c.y + r, c.z + r⟩ ∧
      (Point.Point id c r).position = c :=
  ⟨rfl, rfl, rfl, rfl⟩

/-- C15, as stated, fails: the constructor accepts a negative radius, and the box
of `Point(0, (0,0,0), -1)` has `min = (1,1,1)` and `max = (-1,-1,-1)`. -/
theorem point_aabb_negative_radius_invalid :
    (Point.Point 0 (⟨0, 0, 0⟩ : Vec3 ℚ) (-1)).aabb = ⟨⟨1, 1, 1⟩, ⟨-1, -1, -1⟩⟩ ∧
      ¬ (Point.Point 0 (⟨0, 0, 0⟩ : Vec3 ℚ) (-1)).aabb.Valid := by
  constructor
  · norm_num [Point.aabb, Point.Point, Vec3.sub_def, Vec3.add_def]
  · norm_num [Point.aabb, Point.Point, Vec3.sub_def, Vec3.add_def, AABB.Valid, Vec3.le]

/-- C15, amended. For every `Point` constructed with a radius `r ≥ 0`, the box
returned by `Point::aabb` satisfies `min <= max` componentwise. -/
theorem point_aabb_valid (id : Nat) (c : Vec3 K) (r : K) (hr : 0 ≤ r) :
    (Point.Point id c r).aabb.Valid := by
  simp only [Point.aabb, Point.Point, Vec3.sub_def, Vec3.add_def, AABB.Valid, Vec3.le]
  refine ⟨?_, ?_, ?_⟩ <;> linarith

/-- C15, amended, at the centre `(1,2,3)` and the radius `1/2`. -/
theorem point_aabb_valid_witness :
    (Point.Point 0 (⟨1, 2, 3⟩ : Vec3 ℚ) (1 / 2)).aabb.Valid :=
  point_aabb_valid 0 ⟨1, 2, 3⟩ (1 / 2) (by norm_num)

end BoxClaims


/-! ## Mesh::updateBVH and Mesh::rayIntersect -/

section MeshLemmas

variable {K B : Type} [LinearOrderedField K]

/-- A read in range returns the element. -/
theorem getElem?_eq_some_getD {α : Type} (l : List α) (i : Nat) (d : α) (h : i < l.length) :
    l[i]? = some (l.getD i d) := by
  rw [List.getD_eq_getElem?_getD, List.getElem?_eq_getElem h]
  rfl

/-- An element read in range belongs to the list. -/
theorem getD_mem {α : Type} (l : List α) (i : Nat) (d : α) (h : i < l.length) :
    l.getD i d ∈ l := by
  rw [List.getD_eq_getElem l d h]
  exact List.getElem_mem h

/-- The indexed loop of `Mesh::updateBVH`, started at face `k` of `n`, pushes the
triangles of the faces `k, ..., n - 1` and reads nothing out of range. -/
theorem Mesh.indexedLoop_spec (pos : List (Vec3 K)) (ind : List Nat) (n : Nat)
    (hlen : ind.length = 3 * n) (hrange : ∀ j ∈ ind, j < pos.length) :
    ∀ (d k : Nat) (acc : List (Primitive K)), k + d = n →
      Mesh.indexedLoop pos ind (3 * k) k acc =
        .ok (acc ++ (List.range' k d).map (Mesh.faceTriangle pos ind)) := by
  intro d
  induction d with
  | zero =>
    intro k acc hk
    have hge : ¬ 3 * k < ind.length := by omega
    rw [Mesh.indexedLoop, if_neg hge]
    simp
  | succ d ih =>
    intro k acc hk
    have h0 : 3 * k < ind.length := by omega
    have h1 : 3 * k + 1 < ind.length := by omega
    have h2 : 3 * k + 2 < ind.length := by omega
    have e0 := getElem?_eq_some_getD ind (3 * k) 0 h0
    have e1 := getElem?_eq_some_getD ind (3 * k + 1) 0 h1
    have e2 := getElem?_eq_some_getD ind (3 * k + 2) 0 h2
    have p0 := getElem?_eq_some_getD pos _ ⟨0, 0, 0⟩ (hrange _ (getD_mem ind (3 * k) 0 h0))
    have p1 := getElem?_eq_some_getD pos _ ⟨0, 0, 0⟩ (hrange _ (getD_mem ind (3 * k + 1) 0 h1))
    have p2 := getElem?_eq_some_getD pos _ ⟨0, 0, 0⟩ (hrange _ (getD_mem ind (3 * k + 2) 0 h2))
    rw [Mesh.indexedLoop, if_pos h0]
    simp only [e0, e1, e2, p0, p1, p2]
    have hstep : 3 * k + 3 = 3 * (k + 1) := by ring
    rw [hstep, ih (k + 1) _ (by omega), List.range'_succ, List.map_cons, List.append_assoc]
    rfl

end MeshLemmas

section MeshNullIndex

variable {K B : Type}

/-- C17. For a mesh created non-indexed (`indices_` is null), `Mesh::updateBVH`
does not reach its non-indexed branch: the call `indices_->ptr()` that precedes
the test on `numIndexData()` goes through the null pointer, whatever the
positions are. -/
theorem updateBVH_non_indexed_null_deref (positions : List (Vec3 K)) (bvh : Option B)
    (buildBVH : List (Primitive K) → Option B) :
    (⟨positions, none, bvh⟩ : Mesh K B).numIndexData = 0 ∧
      (⟨positions, none, bvh⟩ : Mesh K B).updateBVHPrims = .error Fault.nullDeref ∧
      (⟨positions, none, bvh⟩ : Mesh K B).updateBVH buildBVH = .error Fault.nullDeref :=
  ⟨rfl, rfl, rfl⟩

end MeshNullIndex

section MeshClaims

variable {K B : Type} [LinearOrderedField K]

/-- C16, as stated, fails for `n = 0`: an indexed mesh whose index buffer holds
`0 = 3 * 0` entries and whose position buffer holds three vertices makes
`Mesh::updateBVH` take the non-indexed branch and hand one triangle to
`buildBVH`. -/
theorem updateBVH_empty_index_buffer :
    ([] : List Nat).length = 3 * 0 ∧
      (∀ j ∈ ([] : List Nat), j < [(⟨0, 0, 0⟩ : Vec3 ℚ), ⟨1, 0, 0⟩, ⟨0, 1, 0⟩].length) ∧
      (⟨[⟨0, 0, 0⟩, ⟨1, 0, 0⟩, ⟨0, 1, 0⟩], some [], none⟩ : Mesh ℚ Unit).updateBVHPrims =
        .ok [Primitive.triangle (Triangle.Triangle 0 ⟨0, 0, 0⟩ ⟨1, 0, 0⟩ ⟨0, 1, 0⟩)] ∧
      [Primitive.triangle (Triangle.Triangle 0 (⟨0, 0, 0⟩ : Vec3 ℚ) ⟨1, 0, 0⟩ ⟨0, 1, 0⟩)].length
        ≠ 0 := by
  refine ⟨rfl, fun j hj => absurd hj (List.not_mem_nil j), ?_, by simp⟩
  simp [Mesh.updateBVHPrims, Mesh.numIndexData, Mesh.numVertexData, Mesh.plainLoop]

/-- C16, amended. For an indexed mesh whose index buffer holds `3 * n` entries
with `n ≥ 1`, each smaller than the number of positions, `Mesh::updateBVH` reads
nothing out of range and hands to `buildBVH` exactly `n` triangles, the `k`-th
having `id() = k` and the vertices `pos[ind[3k]]`, `pos[ind[3k+1]]`,
`pos[ind[3k+2]]`. -/
theorem updateBVH_indexed (m : Mesh K B) (ind : List Nat) (n : Nat)
    (hind : m.indices_ = some ind) (hn : 0 < n) (hlen : ind.length = 3 * n)
    (hrange : ∀ j ∈ ind, j < m.positions.length) :
    ∃ prims : List (Primitive K),
      m.updateBVHPrims = .ok prims ∧
      (∀ buildBVH : List (Primitive K) → Option B,
        m.updateBVH buildBVH = .ok { m with bvh_ := buildBVH prims }) ∧
      prims.length = n ∧
      ∀ k, k < n → ∃ (a b c : Nat) (v0 v1 v2 : Vec3 K),
        ind[3 * k]? = some a ∧ ind[3 * k + 1]? = some b ∧ ind[3 * k + 2]? = some c ∧
        m.positions[a]? = some v0 ∧ m.positions[b]? = some v1 ∧ m.positions[c]? = some v2 ∧
        prims[k]? = some (Primitive.triangle (Triangle.Triangle k v0 v1 v2)) ∧
        (Primitive.triangle (Triangle.Triangle k v0 v1 v2)).id = k := by
  have hprims : m.updateBVHPrims =
      .ok ((List.range' 0 n).map (Mesh.faceTriangle m.positions ind)) := by
    have hpos : m.numIndexData > 0 := by
      simp only [Mesh.numIndexData, hind]
      omega
    simp only [Mesh.updateBVHPrims, hind, if_pos hpos]
    have h := Mesh.indexedLoop_spec m.positions ind n hlen hrange n 0 [] (by omega)
    simpa using h
  refine ⟨_, hprims, ?_, by simp, ?_⟩
  · intro buildBVH
    simp only [Mesh.updateBVH, hprims]
  · intro k hk
    have h0 : 3 * k < ind.length := by omega
    have h1 : 3 * k + 1 < ind.length := by omega
    have h2 : 3 * k + 2 < ind.length := by omega
    refine ⟨_, _, _, _, _, _, getElem?_eq_some_getD ind (3 * k) 0 h0,
      getElem?_eq_some_getD ind (3 * k + 1) 0 h1, getElem?_eq_some_getD ind (3 * k + 2) 0 h2,
      getElem?_eq_some_getD m.positions _ ⟨0, 0, 0⟩ (hrange _ (getD_mem ind (3 * k) 0 h0)),
      getElem?_eq_some_getD m.positions _ ⟨0, 0, 0⟩ (hrange _ (getD_mem ind (3 * k + 1) 0 h1)),
      getElem?_eq_some_getD m.positions _ ⟨0, 0, 0⟩ (hrange _ (getD_mem ind (3 * k + 2) 0 h2)),
      ?_, rfl⟩
    rw [List.getElem?_map, List.getElem?_range' _ _ hk]
    simp [Mesh.faceTriangle]

/-- C16, amended, at the mesh with the positions `(0,0,0), (1,0,0), (0,1,0)` and
the index buffer `0, 1, 2`. -/
theorem updateBVH_indexed_witness :
    ∃ prims : List (Primitive ℚ),
      (⟨[⟨0, 0, 0⟩, ⟨1, 0, 0⟩, ⟨0, 1, 0⟩], some [0, 1, 2], none⟩ : Mesh ℚ Unit).updateBVHPrims
        = .ok prims ∧ prims.length = 1 ∧
      prims[0]? = some (Primitive.triangle (Triangle.Triangle 0 ⟨0, 0, 0⟩ ⟨1, 0, 0⟩ ⟨0, 1, 0⟩)) := by
  obtain ⟨prims, h1, _, h3, h4⟩ :=
    updateBVH_indexed (⟨[⟨0, 0, 0⟩, ⟨1, 0, 0⟩, ⟨0, 1, 0⟩], some [0, 1, 2], none⟩ : Mesh ℚ Unit)
      [0, 1, 2] 1 rfl (by norm_num) rfl (by simp)
  obtain ⟨a, b, c, v0, v1, v2, ha, hb, hc, h0, h1', h2, hp, _⟩ := h4 0 (by norm_num)
  simp at ha hb hc
  subst ha hb hc
  simp at h0 h1' h2
  subst h0 h1' h2
  exact ⟨prims, h1, h3, hp⟩

/-- C18. `Mesh::rayIntersect` returns without fault, given that the tree sets
`prim` whenever it reports a hit; it returns true exactly when `bvh_` is
not null and `bvh_->rayIntersect` reports a hit; then `id` is `prim->id()` of the
primitive the tree returned; when it returns false, `id` is left as it was. -/
theorem mesh_rayIntersect_spec
    (q : B → Ray K → Vec3 K → Option (Primitive K) → Bool × Vec3 K × Option (Primitive K))
    (m : Mesh K B) (ray : Ray K) (pt : Vec3 K) (id : Nat)
    (hprim : ∀ b, m.bvh_ = some b → (q b ray pt none).1 = true →
      (q b ray pt none).2.2 ≠ none) :
    ∃ (flag : Bool) (pt2 : Vec3 K) (id2 : Nat),
      Mesh.rayIntersect q m ray pt id = .ok (flag, pt2, id2) ∧
      (flag = true ↔ ∃ b, m.bvh_ = some b ∧ (q b ray pt none).1 = true) ∧
      (flag = true → ∃ b prim, m.bvh_ = some b ∧ (q b ray pt none).2.2 = some prim ∧
        id2 = prim.id) ∧
      (flag = false → id2 = id) := by
  cases hb : m.bvh_ with
  | none =>
    refine ⟨false, pt, id, ?_, ?_, ?_, fun _ => rfl⟩
    · simp only [Mesh.rayIntersect, hb]
    · constructor
      · intro h
        exact Bool.noConfusion h
      · rintro ⟨b, h, _⟩
        exact Option.noConfusion h
    · intro h
      exact Bool.noConfusion h
  | some b =>
    cases hq : (q b ray pt none).1 with
    | false =>
      refine ⟨false, (q b ray pt none).2.1, id, ?_, ?_, ?_, fun _ => rfl⟩
      · simp only [Mesh.rayIntersect, hb, hq, if_true]
      · constructor
        · intro h
          exact Bool.noConfusion h
        · rintro ⟨b2, h, h2⟩
          have e : b = b2 := Option.some.inj h
          subst e
          rw [hq] at h2
          exact Bool.noConfusion h2
      · intro h
        exact Bool.noConfusion h
    | true =>
      cases hp : (q b ray pt none).2.2 with
      | none => exact absurd hp (hprim b hb hq)
      | some prim =>
        refine ⟨true, (q b ray pt none).2.1, prim.id, ?_, ?_, ?_, ?_⟩
        · simp [Mesh.rayIntersect, hb, hq, hp]
        · exact ⟨fun _ => ⟨b, rfl, hq⟩, fun _ => rfl⟩
        · exact fun _ => ⟨b, prim, rfl, hp, rfl⟩
        · intro h
          exact Bool.noConfusion h

/-- C18, at a mesh whose tree reports a hit on the triangle with `id() = 5`. -/
theorem mesh_rayIntersect_spec_witness :
    ∃ (flag : Bool) (pt2 : Vec3 ℚ) (id2 : Nat),
      Mesh.rayIntersect
          (fun (_ : Unit) (_ : Ray ℚ) (pt : Vec3 ℚ) (_ : Option (Primitive ℚ)) =>
            (true, pt, some (Primitive.triangle
              (Triangle.Triangle 5 ⟨0, 0, 0⟩ ⟨1, 0, 0⟩ ⟨0, 1, 0⟩))))
          (⟨[], none, some ()⟩ : Mesh ℚ Unit) ⟨⟨0, 0, -1⟩, ⟨0, 0, 1⟩, 0, 10⟩ ⟨0, 0, 0⟩ 7
        = .ok (flag, pt2, id2) ∧ flag = true ∧ id2 = 5 := by
  obtain ⟨flag, pt2, id2, h1, h2, h3, _⟩ :=
    mesh_rayIntersect_spec
      (fun (_ : Unit) (_ : Ray ℚ) (pt : Vec3 ℚ) (_ : Option (Primitive ℚ)) =>
        (true, pt, some (Primitive.triangle
          (Triangle.Triangle 5 ⟨0, 0, 0⟩ ⟨1, 0, 0⟩ ⟨0, 1, 0⟩))))
      (⟨[], none, some ()⟩ : Mesh ℚ Unit) ⟨⟨0, 0, -1⟩, ⟨0, 0, 1⟩, 0, 10⟩ ⟨0, 0, 0⟩ 7
      (fun _ _ _ h => Option.noConfusion h)
  have hf : flag = true := h2.mpr ⟨(), rfl, rfl⟩
  obtain ⟨_, prim, _, hp, hid⟩ := h3 hf
  have e := Option.some.inj hp
  subst e
  exact ⟨flag, pt2, id2, h1, hf, hid⟩

/-- C19. For a mesh whose `bvh_` is null, `Mesh::rayIntersect` returns false
without fault and leaves the out-parameters `pt` and `id` as they were. -/
theorem mesh_rayIntersect_no_bvh
    (q : B → Ray K → Vec3 K → Option (Primitive K) → Bool × Vec3 K × Option (Primitive K))
    (m : Mesh K B) (ray : Ray K) (pt : Vec3 K) (id : Nat) (hnull : m.bvh_ = none) :
    Mesh.rayIntersect q m ray pt id = .ok (false, pt, id) := by
  simp only [Mesh.rayIntersect, hnull]

/-- C19, at a mesh on which `updateBVH` was never called. -/
theorem mesh_rayIntersect_no_bvh_witness :
    Mesh.rayIntersect
        (fun (_ : Unit) (_ : Ray ℚ) (pt : Vec3 ℚ) (_ : Option (Primitive ℚ)) =>
          (true, pt, none))
        (⟨[⟨0, 0, 0⟩, ⟨1, 0, 0⟩, ⟨0, 1, 0⟩], some [0, 1, 2], none⟩ : Mesh ℚ Unit)
        ⟨⟨0, 0, -1⟩, ⟨0, 0, 1⟩, 0, 10⟩ ⟨9, 9, 9⟩ 7
      = .ok (false, ⟨9, 9, 9⟩, 7) :=
  mesh_rayIntersect_no_bvh _ _ _ _ _ rfl

end MeshClaims


/-! ## BVH: the box test never rejects a box that the ray meets -/

section SlabLemmas

variable {K : Type} [LinearOrderedField K]

/-- On one axis, the parameter of a point of the ray that lies in the slab lies
in the entry/exit interval of the axis. -/
theorem slabInterval_mem (eps lo hi o d t : K) (heps : 0 ≤ eps) (h1 : lo ≤ o + t * d)
    (h2 : o + t * d ≤ hi) : InInterval t (slabInterval eps lo hi o d) := by
  unfold slabInterval
  split_ifs with hd
  · trivial
  · simp only [InInterval]
    have hne : d ≠ 0 := by
      intro h0
      rw [h0, abs_zero] at hd
      exact hd heps
    rcases lt_or_gt_of_ne hne with hneg | hpos
    · have e1 : t ≤ (lo - o) / d := (le_div_iff_of_neg hneg).mpr (by linarith)
      have e2 : (hi - o) / d ≤ t := (div_le_iff_of_neg hneg).mpr (by linarith)
      exact ⟨le_trans (min_le_right _ _) e2, le_trans e1 (le_max_left _ _)⟩
    · have e1 : (lo - o) / d ≤ t := (div_le_iff₀ hpos).mpr (by linarith)
      have e2 : t ≤ (hi - o) / d := (le_div_iff₀ hpos).mpr (by linarith)
      exact ⟨le_trans (min_le_left _ _) e1, le_trans e2 (le_max_right _ _)⟩

/-- On one axis, a ray with a point in the slab, whose direction component is `0`
or beyond the tolerance, is not rejected as parallel and outside. -/
theorem slabMisses_eq_false (eps lo hi o d t : K) (hd0 : d = 0 ∨ eps < |d|)
    (h1 : lo ≤ o + t * d) (h2 : o + t * d ≤ hi) :
    ¬ slabMisses eps lo hi o d = true := by
  unfold slabMisses
  rw [decide_eq_true_eq]
  rintro ⟨hle, h⟩
  have hd : d = 0 := hd0.resolve_right (not_lt.mpr hle)
  rw [hd, mul_zero, add_zero] at h1 h2
  rcases h with h | h
  · exact absurd h1 (not_le.mpr h)
  · exact absurd h2 (not_le.mpr h)

/-- A parameter in two intervals is in their intersection. -/
theorem interIntervals_mem (t : K) (i j : Option (K × K)) (hi : InInterval t i)
    (hj : InInterval t j) : InInterval t (interIntervals i j) := by
  cases i with
  | none => exact hj
  | some a =>
    cases j with
    | none => exact hi
    | some b => exact ⟨max_le hi.1 hj.1, le_min hi.2 hj.2⟩

/-- Completeness of the box test: a ray with no direction component under the
tolerance except `0`, that has a point with parameter in `[tmin, tmax]` inside the
box, passes `AABB::rayIntersect`. -/
theorem AABB.rayIntersect_of_contains (eps : K) (box : AABB K) (ray : Ray K) (t : K)
    (heps : 0 ≤ eps) (hdir : ray.ClearOfZero eps)
    (hmin : ray.tmin ≤ t) (hmax : t ≤ ray.tmax)
    (hin : box.Contains (ray.origin + Vec3.scale t ray.direction)) :
    box.rayIntersect eps ray = true := by
  obtain ⟨⟨lx, ly, lz⟩, ⟨hx, hy, hz⟩⟩ := box
  obtain ⟨⟨ox, oy, oz⟩, ⟨dx, dy, dz⟩, tmin, tmax⟩ := ray
  simp only [AABB.Contains, Vec3.le, Vec3.add_def, Vec3.scale] at hin
  obtain ⟨⟨a1, a2, a3⟩, b1, b2, b3⟩ := hin
  obtain ⟨cx, cy, cz⟩ := hdir
  have mx := slabMisses_eq_false eps lx hx ox dx t cx a1 b1
  have my := slabMisses_eq_false eps ly hy oy dy t cy a2 b2
  have mz := slabMisses_eq_false eps lz hz oz dz t cz a3 b3
  have hI := interIntervals_mem t _ _
    (interIntervals_mem t _ _ (slabInterval_mem eps lx hx ox dx t heps a1 b1)
      (slabInterval_mem eps ly hy oy dy t heps a2 b2))
    (slabInterval_mem eps lz hz oz dz t heps a3 b3)
  simp only [AABB.rayIntersect]
  rw [if_neg (by tauto)]
  cases hc : interIntervals
      (interIntervals (slabInterval eps lx hx ox dx) (slabInterval eps ly hy oy dy))
      (slabInterval eps lz hz oz dz) with
  | none => rfl
  | some i =>
    rw [hc] at hI
    obtain ⟨h1, h2⟩ := hI
    have hno : ¬ (i.2 < i.1 ∨ i.2 < tmin ∨ tmax < i.1) := by
      rintro (h | h | h)
      · exact absurd (le_trans h1 h2) (not_le.mpr h)
      · exact absurd (le_trans hmin h2) (not_le.mpr h)
      · exact absurd (le_trans h1 hmax) (not_le.mpr h)
    simp only [if_neg hno]

end SlabLemmas

/-! ## BVH: the tree built by `buildBVH` -/

section BuildLemmas

variable {K : Type} [LinearOrderedField K]

/-- The merge of two boxes contains the first. -/
theorem AABB.merge_contains_left (a b : AABB K) (x : Vec3 K) (h : a.Contains x) :
    (AABB.merge a b).Contains x := by
  obtain ⟨⟨h1, h2, h3⟩, h4, h5, h6⟩ := h
  simp only [AABB.merge, Vec3.min, Vec3.max, AABB.Contains, Vec3.le, glm_min_eq, glm_max_eq]
  exact ⟨⟨le_trans (min_le_left _ _) h1, le_trans (min_le_left _ _) h2,
    le_trans (min_le_left _ _) h3⟩, le_trans h4 (le_max_left _ _),
    le_trans h5 (le_max_left _ _), le_trans h6 (le_max_left _ _)⟩

/-- The merge of two boxes contains the second. -/
theorem AABB.merge_contains_right (a b : AABB K) (x : Vec3 K) (h : b.Contains x) :
    (AABB.merge a b).Contains x := by
  obtain ⟨⟨h1, h2, h3⟩, h4, h5, h6⟩ := h
  simp only [AABB.merge, Vec3.min, Vec3.max, AABB.Contains, Vec3.le, glm_min_eq, glm_max_eq]
  exact ⟨⟨le_trans (min_le_right _ _) h1, le_trans (min_le_right _ _) h2,
    le_trans (min_le_right _ _) h3⟩, le_trans h4 (le_max_right _ _),
    le_trans h5 (le_max_right _ _), le_trans h6 (le_max_right _ _)⟩

/-- Merging the boxes of more primitives into a box keeps what the box contains
and adds what their boxes contain. -/
theorem foldl_merge_contains (ps : List (Primitive K)) :
    ∀ box : AABB K,
      (∀ x, box.Contains x →
        (ps.foldl (fun b q => AABB.merge b q.aabb) box).Contains x) ∧
      (∀ q ∈ ps, ∀ x, q.aabb.Contains x →
        (ps.foldl (fun b q => AABB.merge b q.aabb) box).Contains x) := by
  induction ps with
  | nil =>
    intro box
    exact ⟨fun x h => h, fun q hq => absurd hq (List.not_mem_nil q)⟩
  | cons p ps ih =>
    intro box
    obtain ⟨ih1, ih2⟩ := ih (AABB.merge box p.aabb)
    constructor
    · intro x hx
      exact ih1 x (AABB.merge_contains_left box p.aabb x hx)
    · intro q hq x hx
      rcases List.mem_cons.mp hq with e | hmem
      · subst e
        exact ih1 x (AABB.merge_contains_right box q.aabb x hx)
      · exact ih2 q hmem x hx

/-- The merged AABB of a list bounds the box of each of its primitives. -/
theorem mergedAABB_contains (prims : List (Primitive K)) :
    ∀ p ∈ prims, ∀ x, p.aabb.Contains x → (mergedAABB prims).Contains x := by
  cases prims with
  | nil =>
    intro p hp
    exact absurd hp (List.not_mem_nil p)
  | cons p0 ps =>
    intro p hp x hx
    obtain ⟨h1, h2⟩ := foldl_merge_contains ps p0.aabb
    rcases List.mem_cons.mp hp with e | hmem
    · subst e
      exact h1 x hx
    · exact h2 p hmem x hx

/-- The tree built from a list holds exactly the primitives of the list, and its
boxes satisfy the invariant of the spec. -/
theorem buildNode_spec (leafSize : Nat) :
    ∀ (n : Nat) (prims : List (Primitive K)), prims.length = n →
      (∀ q, q ∈ (buildNode leafSize prims).prims ↔ q ∈ prims) ∧
        (buildNode leafSize prims).Bounds := by
  intro n
  induction n using Nat.strong_induction_on with
  | _ n ih =>
    intro prims hlen
    rw [buildNode]
    split_ifs with h
    · exact ⟨fun q => Iff.rfl, mergedAABB_contains prims⟩
    · have hn : 2 ≤ prims.length := by omega
      have hs := List.length_insertionSort
        (fun a b : Primitive K =>
          a.position.get (mergedAABB prims).longestAxis
            ≤ b.position.get (mergedAABB prims).longestAxis) prims
      obtain ⟨l1, l2⟩ := ih (prims.length / 2) (by omega)
        ((prims.insertionSort
          (fun a b => a.position.get (mergedAABB prims).longestAxis
            ≤ b.position.get (mergedAABB prims).longestAxis)).take (prims.length / 2))
        (by rw [List.length_take, hs]; omega)
      obtain ⟨r1, r2⟩ := ih (prims.length - prims.length / 2) (by omega)
        ((prims.insertionSort
          (fun a b => a.position.get (mergedAABB prims).longestAxis
            ≤ b.position.get (mergedAABB prims).longestAxis)).drop (prims.length / 2))
        (by rw [List.length_drop, hs])
      constructor
      · intro q
        simp only [BVHNode.prims, List.mem_append, l1, r1]
        rw [← List.mem_append, List.take_append_drop, List.mem_insertionSort]
      · exact ⟨l2, r2, fun x hx => AABB.merge_contains_left _ _ x hx,
          fun x hx => AABB.merge_contains_right _ _ x hx⟩

/-- Under the invariant, the box of a node bounds the box of every primitive
beneath it. -/
theorem BVHNode.contains_of_bounds (node : BVHNode K) (hb : node.Bounds) :
    ∀ p ∈ node.prims, ∀ x, p.aabb.Contains x → node.aabb.Contains x := by
  induction node with
  | leaf prims box => exact hb
  | node box left right ihl ihr =>
    obtain ⟨bl, br, cl, cr⟩ := hb
    intro p hp x hx
    rcases List.mem_append.mp hp with h | h
    · exact cl x (ihl bl p h x hx)
    · exact cr x (ihr br p h x hx)

/-- A hit of a `Triangle` primitive has its parameter in `[tmin, tmax]` and its
point in the box of the primitive. -/
theorem Primitive.triangle_hit_bounded (sqrt : K → K) (p : Primitive K) (ray : Ray K) (t : K)
    (hp : p.IsTriangle) (h : p.hit sqrt ray = some t) :
    ray.tmin ≤ t ∧ t ≤ ray.tmax ∧
      p.aabb.Contains (ray.origin + Vec3.scale t ray.direction) := by
  cases p with
  | point pt => exact absurd hp (by simp [Primitive.IsTriangle])
  | triangle tri =>
    simp only [Primitive.hit, Primitive.rayIntersect] at h
    split_ifs at h with hflag
    have ht : (tri.rayIntersect ray 0).2 = t := Option.some.inj h
    have hres : tri.rayIntersect ray 0 = (true, t) := Prod.ext hflag ht
    obtain ⟨_, _, _, _, h5, h6, _⟩ := Triangle.hit_cases tri ray 0 t hres
    exact ⟨h5, h6, Triangle.hit_in_aabb tri ray 0 t hres⟩

end BuildLemmas

/-! ## BVH: the query finds a nearest hit -/

section QueryLemmas

variable {K : Type} [LinearOrderedField K]

/-- The predicate `Nearest` depends on the set of primitives only. -/
theorem Nearest.congr (sqrt : K → K) (ray : Ray K) (S T : Primitive K → Prop)
    (best : Option (K × Primitive K)) (hST : ∀ q, S q ↔ T q)
    (h : Nearest sqrt ray S best) : Nearest sqrt ray T best :=
  ⟨fun b hb => ⟨(hST _).mp (h.1 b hb).1, (h.1 b hb).2⟩,
    fun q t hq hh => h.2 q t ((hST q).mpr hq) hh⟩

/-- Before any test, no hit is a nearest hit among no primitives. -/
theorem Nearest.init (sqrt : K → K) (ray : Ray K) :
    Nearest sqrt ray (fun _ => False) none :=
  ⟨fun _ hb => Option.noConfusion hb, fun _ _ hq _ => False.elim hq⟩

/-- Two nearest hits among the same primitives are both absent or have the same
parameter. -/
theorem Nearest.unique (sqrt : K → K) (ray : Ray K) (S : Primitive K → Prop)
    (r1 r2 : Option (K × Primitive K)) (h1 : Nearest sqrt ray S r1)
    (h2 : Nearest sqrt ray S r2) : r1.map Prod.fst = r2.map Prod.fst := by
  cases r1 with
  | none =>
    cases r2 with
    | none => rfl
    | some b2 =>
      obtain ⟨s2, e2⟩ := h2.1 b2 rfl
      obtain ⟨b, hb, _⟩ := h1.2 b2.2 b2.1 s2 e2
      exact Option.noConfusion hb
  | some b1 =>
    obtain ⟨s1, e1⟩ := h1.1 b1 rfl
    cases r2 with
    | none =>
      obtain ⟨b, hb, _⟩ := h2.2 b1.2 b1.1 s1 e1
      exact Option.noConfusion hb
    | some b2 =>
      obtain ⟨s2, e2⟩ := h2.1 b2 rfl
      obtain ⟨b, hb, hle1⟩ := h1.2 b2.2 b2.1 s2 e2
      obtain ⟨c, hc, hle2⟩ := h2.2 b1.2 b1.1 s1 e1
      have eb : b1 = b := Option.some.inj hb
      have ec : b2 = c := Option.some.inj hc
      subst eb ec
      simp only [Option.map_some']
      exact congrArg some (le_antisymm hle1 hle2)

/-- Testing one more primitive keeps a nearest hit. -/
theorem closer_nearest (sqrt : K → K) (ray : Ray K) (S : Primitive K → Prop)
    (best : Option (K × Primitive K)) (p : Primitive K) (h : Nearest sqrt ray S best) :
    Nearest sqrt ray (fun q => S q ∨ q = p) (closer sqrt ray best p) := by
  unfold closer
  cases hh : p.hit sqrt ray with
  | none =>
    refine ⟨fun b hb => ⟨Or.inl (h.1 b hb).1, (h.1 b hb).2⟩, ?_⟩
    rintro q t (hq | hq) hqt
    · exact h.2 q t hq hqt
    · rw [hq, hh] at hqt
      exact Option.noConfusion hqt
  | some t =>
    cases best with
    | none =>
      refine ⟨?_, ?_⟩
      · intro b hb
        have e : (t, p) = b := Option.some.inj hb
        subst e
        exact ⟨Or.inr rfl, hh⟩
      · rintro q t2 (hq | hq) hqt
        · obtain ⟨b, hb, _⟩ := h.2 q t2 hq hqt
          exact Option.noConfusion hb
        · rw [hq, hh] at hqt
          have e : t = t2 := Option.some.inj hqt
          exact ⟨(t, p), rfl, le_of_eq e⟩
    | some b0 =>
      by_cases hlt : t < b0.1
      · simp only [if_pos hlt]
        refine ⟨?_, ?_⟩
        · intro b hb
          have e : (t, p) = b := Option.some.inj hb
          subst e
          exact ⟨Or.inr rfl, hh⟩
        · rintro q t2 (hq | hq) hqt
          · obtain ⟨b, hb, hle⟩ := h.2 q t2 hq hqt
            have e : b0 = b := Option.some.inj hb
            subst e
            exact ⟨(t, p), rfl, le_trans (le_of_lt hlt) hle⟩
          · rw [hq, hh] at hqt
            have e : t = t2 := Option.some.inj hqt
            exact ⟨(t, p), rfl, le_of_eq e⟩
      · simp only [if_neg hlt]
        refine ⟨fun b hb => ⟨Or.inl (h.1 b hb).1, (h.1 b hb).2⟩, ?_⟩
        rintro q t2 (hq | hq) hqt
        · exact h.2 q t2 hq hqt
        · rw [hq, hh] at hqt
          have e : t = t2 := Option.some.inj hqt
          exact ⟨b0, rfl, e ▸ not_lt.mp hlt⟩

/-- Testing a list of primitives one after the other keeps a nearest hit. -/
theorem foldl_closer_nearest (sqrt : K → K) (ray : Ray K) (ps : List (Primitive K)) :
    ∀ (S : Primitive K → Prop) (best : Option (K × Primitive K)),
      Nearest sqrt ray S best →
        Nearest sqrt ray (fun q => S q ∨ q ∈ ps) (ps.foldl (closer sqrt ray) best) := by
  induction ps with
  | nil =>
    intro S best h
    exact Nearest.congr sqrt ray S _ best (fun q => by simp) h
  | cons p ps ih =>
    intro S best h
    have h2 := ih _ _ (closer_nearest sqrt ray S best p h)
    exact Nearest.congr sqrt ray _ _ _
      (fun q => by simp only [List.mem_cons]; tauto) h2

/-- Primitives that the ray does not hit can be added to the set. -/
theorem Nearest.skip (sqrt : K → K) (ray : Ray K) (S T : Primitive K → Prop)
    (best : Option (K × Primitive K)) (h : Nearest sqrt ray S best)
    (hT : ∀ q, T q → q.hit sqrt ray = none) :
    Nearest sqrt ray (fun q => S q ∨ T q) best := by
  refine ⟨fun b hb => ⟨Or.inl (h.1 b hb).1, (h.1 b hb).2⟩, ?_⟩
  rintro q t (hq | hq) hqt
  · exact h.2 q t hq hqt
  · rw [hT q hq] at hqt
    exact Option.noConfusion hqt

/-- Pruning is safe: when the ray, with no direction component under the
tolerance except `0`, misses the box of a node of triangles that satisfies the
invariant, it hits no primitive beneath the node. -/
theorem BVHNode.no_hit_of_box_miss (sqrt : K → K) (eps : K) (ray : Ray K) (node : BVHNode K)
    (heps : 0 ≤ eps) (hdir : ray.ClearOfZero eps)
    (hb : node.Bounds) (htri : ∀ p ∈ node.prims, p.IsTriangle)
    (hmiss : ¬ node.aabb.rayIntersect eps ray = true) :
    ∀ q, q ∈ node.prims → q.hit sqrt ray = none := by
  intro q hq
  cases hh : q.hit sqrt ray with
  | none => rfl
  | some t =>
    exfalso
    obtain ⟨h1, h2, h3⟩ := Primitive.triangle_hit_bounded sqrt q ray t (htri q hq) hh
    exact hmiss (AABB.rayIntersect_of_contains eps node.aabb ray t heps hdir h1 h2
      (BVHNode.contains_of_bounds node hb q hq _ h3))

/-- The traversal of a tree of triangles that satisfies the invariant keeps a
nearest hit, among the primitives seen before and those of the tree. -/
theorem BVHNode.traverse_nearest (sqrt : K → K) (eps : K) (ray : Ray K) (node : BVHNode K)
    (heps : 0 ≤ eps) (hdir : ray.ClearOfZero eps) :
    node.Bounds → (∀ p ∈ node.prims, p.IsTriangle) →
      ∀ (S : Primitive K → Prop) (best : Option (K × Primitive K)),
        Nearest sqrt ray S best →
          Nearest sqrt ray (fun q => S q ∨ q ∈ node.prims)
            (node.traverse sqrt eps ray best) := by
  induction node with
  | leaf prims box =>
    intro hb htri S best h
    simp only [BVHNode.traverse]
    split_ifs with hbox
    · exact foldl_closer_nearest sqrt ray prims S best h
    · exact Nearest.skip sqrt ray S _ best h
        (BVHNode.no_hit_of_box_miss sqrt eps ray (.leaf prims box) heps hdir hb htri hbox)
  | node box left right ihl ihr =>
    intro hb htri S best h
    simp only [BVHNode.traverse]
    split_ifs with hbox
    · have tl : ∀ p ∈ left.prims, p.IsTriangle :=
        fun p hp => htri p (List.mem_append.mpr (Or.inl hp))
      have tr : ∀ p ∈ right.prims, p.IsTriangle :=
        fun p hp => htri p (List.mem_append.mpr (Or.inr hp))
      have h1 := ihl hb.1 tl S best h
      have h2 := ihr hb.2.1 tr _ _ h1
      exact Nearest.congr sqrt ray _ _ _
        (fun q => by simp only [BVHNode.prims, List.mem_append]; tauto) h2
    · exact Nearest.skip sqrt ray S _ best h
        (BVHNode.no_hit_of_box_miss sqrt eps ray (.node box left right) heps hdir hb htri
          hbox)

/-- The brute-force reference returns a nearest hit among all primitives. -/
theorem bruteForce_nearest (sqrt : K → K) (prims : List (Primitive K)) (ray : Ray K) :
    Nearest sqrt ray (fun q => q ∈ prims) (bruteForce sqrt prims ray) :=
  Nearest.congr sqrt ray _ _ _ (fun q => by simp)
    (foldl_closer_nearest sqrt ray prims _ none (Nearest.init sqrt ray))

/-- The query of the tree built from a list of triangles returns a nearest hit
among all primitives of the list. -/
theorem buildNode_traverse_nearest (sqrt : K → K) (eps : K) (leafSize : Nat)
    (prims : List (Primitive K)) (ray : Ray K) (heps : 0 ≤ eps) (hdir : ray.ClearOfZero eps)
    (htri : ∀ p ∈ prims, p.IsTriangle) :
    Nearest sqrt ray (fun q => q ∈ prims)
      ((buildNode leafSize prims).traverse sqrt eps ray none) := by
  obtain ⟨hmem, hb⟩ := buildNode_spec leafSize prims.length prims rfl
  have h := BVHNode.traverse_nearest sqrt eps ray (buildNode leafSize prims) heps hdir hb
    (fun p hp => htri p ((hmem p).mp hp)) _ none (Nearest.init sqrt ray)
  exact Nearest.congr sqrt ray _ _ _ (fun q => by simp only [false_or]; exact hmem q) h

end QueryLemmas

/-! ## BVH: the query through the mesh against the brute-force reference -/

section LoopLemmas

variable {K : Type}

/-- The indexed loop of `Mesh::updateBVH` pushes triangles only. -/
theorem Mesh.indexedLoop_isTriangle (pos : List (Vec3 K)) (ind : List Nat)
    (i face_id : Nat) (acc : List (Primitive K)) :
    ∀ res, Mesh.indexedLoop pos ind i face_id acc = .ok res →
      (∀ p ∈ acc, p.IsTriangle) → ∀ p ∈ res, p.IsTriangle := by
  induction i, face_id, acc using Mesh.indexedLoop.induct pos ind with
  | case1 i f acc hi a b c hc hb ha v0 v1 v2 h2 h1 h0 ih =>
    intro res h hacc
    rw [Mesh.indexedLoop, if_pos hi] at h
    simp only [ha, hb, hc, h0, h1, h2] at h
    refine ih res h ?_
    intro p hp
    rcases List.mem_append.mp hp with hp | hp
    · exact hacc p hp
    · rw [List.mem_singleton.mp hp]
      trivial
  | case2 i f acc hi a b c hc hb ha hno =>
    intro res h hacc
    rw [Mesh.indexedLoop, if_pos hi] at h
    simp only [ha, hb, hc] at h
    exact Except.noConfusion h
  | case3 i f acc hi hno =>
    intro res h hacc
    rw [Mesh.indexedLoop, if_pos hi] at h
    split at h
    · exact absurd ‹_› (fun e => hno _ _ _ (by assumption) (by assumption) (by assumption))
    · exact Except.noConfusion h
  | case4 i f acc hi =>
    intro res h hacc
    rw [Mesh.indexedLoop, if_neg hi] at h
    have e : acc = res := Except.ok.inj h
    rw [← e]
    exact hacc

/-- The non-indexed loop of `Mesh::updateBVH` pushes triangles only. -/
theorem Mesh.plainLoop_isTriangle (pos : List (Vec3 K)) (num_verts : Nat)
    (i face_id : Nat) (acc : List (Primitive K)) :
    ∀ res, Mesh.plainLoop pos num_verts i face_id acc = .ok res →
      (∀ p ∈ acc, p.IsTriangle) → ∀ p ∈ res, p.IsTriangle := by
  induction i, face_id, acc using Mesh.plainLoop.induct pos num_verts with
  | case1 i f acc hi v0 v1 v2 h2 h1 h0 ih =>
    intro res h hacc
    rw [Mesh.plainLoop, if_pos hi] at h
    simp only [h0, h1, h2] at h
    refine ih res h ?_
    intro p hp
    rcases List.mem_append.mp hp with hp | hp
    · exact hacc p hp
    · rw [List.mem_singleton.mp hp]
      trivial
  | case2 i f acc hi hno =>
    intro res h hacc
    rw [Mesh.plainLoop, if_pos hi] at h
    split at h
    · exact absurd ‹_› (fun e => hno _ _ _ (by assumption) (by assumption) (by assumption))
    · exact Except.noConfusion h
  | case3 i f acc hi =>
    intro res h hacc
    rw [Mesh.plainLoop, if_neg hi] at h
    have e : acc = res := Except.ok.inj h
    rw [← e]
    exact hacc

/-- The primitives `Mesh::updateBVH` hands to `buildBVH` are triangles. -/
theorem Mesh.updateBVHPrims_isTriangle {B : Type} (m : Mesh K B) (prims : List (Primitive K))
    (h : m.updateBVHPrims = .ok prims) : ∀ p ∈ prims, p.IsTriangle := by
  unfold Mesh.updateBVHPrims at h
  cases hind : m.indices_ with
  | none =>
    rw [hind] at h
    exact Except.noConfusion h
  | some ind =>
    rw [hind] at h
    simp only at h
    split_ifs at h
    · exact Mesh.indexedLoop_isTriangle _ _ _ _ _ prims h
        (fun p hp => absurd hp (List.not_mem_nil p))
    · exact Mesh.plainLoop_isTriangle _ _ _ _ _ prims h
        (fun p hp => absurd hp (List.not_mem_nil p))

end LoopLemmas

section MeshTreeLemmas

variable {K : Type}

/-- What `Mesh::updateBVH` stores in `bvh_`: the tree its callee returns for the
primitives of its loops. -/
theorem Mesh.updateBVH_bvh {B : Type} (build : List (Primitive K) → Option B)
    (m m2 : Mesh K B) (prims : List (Primitive K)) (hprims : m.updateBVHPrims = .ok prims)
    (hm2 : m.updateBVH build = .ok m2) : m2.bvh_ = build prims := by
  simp only [Mesh.updateBVH, hprims] at hm2
  rw [← Except.ok.inj hm2]

end MeshTreeLemmas

section RefinementClaims

variable {K : Type} [LinearOrderedField K]

/-- The leaf built for one primitive, and the query of it. -/
theorem buildNode_singleton (leafSize : Nat) (p : Primitive K) :
    buildNode leafSize [p] = .leaf [p] p.aabb := by
  rw [buildNode]
  simp [mergedAABB]

/-- The tolerance of the box test matters: for every tolerance `eps > 0` there is
a ray with a direction component `eps` that hits the unit triangle inside
`[tmin, tmax]`, found by brute force at `t = 5 / (4 * eps)`, while the box test
rejects the box of the triangle (the origin is outside the slab of the axis whose
component is ~0) and the query of the tree finds nothing. -/
theorem bvh_prunes_hit_near_zero_direction (sqrt : K → K) (eps : K) (heps : 0 < eps) :
    bruteForce sqrt [Primitive.triangle (Triangle.Triangle 0 ⟨0, 0, 0⟩ ⟨1, 0, 0⟩ ⟨0, 1, 0⟩)]
        ⟨⟨-1, 1 / 4, -(5 / (4 * eps))⟩, ⟨eps, 0, 1⟩, 0, 5 / (4 * eps)⟩
      = some (5 / (4 * eps),
          Primitive.triangle (Triangle.Triangle 0 ⟨0, 0, 0⟩ ⟨1, 0, 0⟩ ⟨0, 1, 0⟩)) ∧
      (buildNode 2
          [Primitive.triangle (Triangle.Triangle 0 ⟨0, 0, 0⟩ ⟨1, 0, 0⟩ ⟨0, 1, 0⟩)]).traverse
        sqrt eps ⟨⟨-1, 1 / 4, -(5 / (4 * eps))⟩, ⟨eps, 0, 1⟩, 0, 5 / (4 * eps)⟩ none
      = none := by
  have hne : eps ≠ 0 := ne_of_gt heps
  constructor
  · have hdet : (Triangle.Triangle 0 ⟨0, 0, 0⟩ ⟨1, 0, 0⟩ ⟨0, 1, 0⟩ : rcube.Triangle K).det
        ⟨⟨-1, 1 / 4, -(5 / (4 * eps))⟩, ⟨eps, 0, 1⟩, 0, 5 / (4 * eps)⟩ = -1 := by
      simp [Triangle.det, Triangle.Triangle, Vec3.dot, Vec3.cross, Vec3.sub_def]
    obtain ⟨eu, ev, et⟩ := Triangle.cramer_unique
      (Triangle.Triangle 0 ⟨0, 0, 0⟩ ⟨1, 0, 0⟩ ⟨0, 1, 0⟩ : rcube.Triangle K)
      ⟨⟨-1, 1 / 4, -(5 / (4 * eps))⟩, ⟨eps, 0, 1⟩, 0, 5 / (4 * eps)⟩
      (5 / (4 * eps)) (1 / 4) (1 / 4) (by rw [hdet]; norm_num)
      (by
        simp only [Triangle.Triangle, Vec3.sub_def, Vec3.add_def, Vec3.scale, Vec3.mk.injEq]
        refine ⟨?_, ?_, ?_⟩
        · field_simp
          ring
        · ring
        · ring)
    have hpos : (0 : K) ≤ 5 / (4 * eps) := by positivity
    have hhit : (Triangle.Triangle 0 ⟨0, 0, 0⟩ ⟨1, 0, 0⟩ ⟨0, 1, 0⟩ : rcube.Triangle K).rayIntersect
        ⟨⟨-1, 1 / 4, -(5 / (4 * eps))⟩, ⟨eps, 0, 1⟩, 0, 5 / (4 * eps)⟩ 0
          = (true, 5 / (4 * eps)) := by
      rw [Triangle.rayIntersect_eq, eu, ev, et, hdet]
      exact if_pos ⟨by norm_num, by norm_num, by norm_num, by norm_num, by norm_num,
        hpos, le_refl _⟩
    simp only [bruteForce, List.foldl_cons, List.foldl_nil, closer, Primitive.hit,
      Primitive.rayIntersect, hhit, if_true]
  · rw [buildNode_singleton]
    have hmiss : slabMisses eps (0 : K) 1 (-1) eps = true := by
      simp only [slabMisses, decide_eq_true_eq]
      exact ⟨le_of_eq (abs_of_pos heps), Or.inl (by norm_num)⟩
    have hbox : (Primitive.triangle
        (Triangle.Triangle 0 (⟨0, 0, 0⟩ : Vec3 K) ⟨1, 0, 0⟩ ⟨0, 1, 0⟩)).aabb
          = ⟨⟨0, 0, 0⟩, ⟨1, 1, 0⟩⟩ := by
      norm_num [Primitive.aabb, Triangle.aabb, Triangle.Triangle, Vec3.min, Vec3.max]
    simp only [BVHNode.traverse, hbox, AABB.rayIntersect, hmiss, true_or, if_true]
    simp

/-- C20, as stated, fails on a primitive set with a `Point`: for the `Point` at
`(0,0,-5)` with radius `1` and the ray from the origin along `+z` with the
interval `[0, 100]`, brute force reports the hit `Point::rayIntersect` returns, at
`t = -6`; the box of the point, `z` in `[-6, -4]`, lies behind the ray, the box
test rejects it for every tolerance, and `Mesh::rayIntersect` on the tree built
from this set returns false. -/
theorem bvh_point_behind_ray_pruned :
    bruteForce Real.sqrt [Primitive.point (Point.Point 0 ⟨0, 0, -5⟩ 1)]
        ⟨⟨0, 0, 0⟩, ⟨0, 0, 1⟩, 0, 100⟩
      = some (-6, Primitive.point (Point.Point 0 ⟨0, 0, -5⟩ 1)) ∧
      ∀ eps : ℝ, 0 ≤ eps →
        Mesh.rayIntersect (BVHNode.rayIntersect Real.sqrt eps)
          ⟨[], none, buildBVH 2 [Primitive.point (Point.Point 0 ⟨0, 0, -5⟩ 1)]⟩
          ⟨⟨0, 0, 0⟩, ⟨0, 0, 1⟩, 0, 100⟩ ⟨9, 9, 9⟩ 7 = .ok (false, ⟨9, 9, 9⟩, 7) := by
  constructor
  · have hhit : Point.rayIntersect Real.sqrt (Point.Point 0 ⟨0, 0, -5⟩ 1)
        ⟨⟨0, 0, 0⟩, ⟨0, 0, 1⟩, 0, 100⟩ 0 = (true, -6) := by
      norm_num [Point.rayIntersect, Point.Point, Vec3.dot, Vec3.sub_def]
    simp [bruteForce, closer, Primitive.hit, Primitive.rayIntersect, hhit]
  · intro eps heps
    have hbox : (Primitive.point (Point.Point 0 (⟨0, 0, -5⟩ : Vec3 ℝ) 1)).aabb
        = ⟨⟨-1, -1, -6⟩, ⟨1, 1, -4⟩⟩ := by
      norm_num [Primitive.aabb, Point.aabb, Point.Point, Vec3.sub_def, Vec3.add_def]
    have hmiss : AABB.rayIntersect eps (⟨⟨-1, -1, -6⟩, ⟨1, 1, -4⟩⟩ : AABB ℝ)
        ⟨⟨0, 0, 0⟩, ⟨0, 0, 1⟩, 0, 100⟩ = false := by
      by_cases h1 : (1 : ℝ) ≤ eps
      · simp [AABB.rayIntersect, slabMisses, h1]
      · simp [AABB.rayIntersect, slabMisses, slabInterval, interIntervals, h1, heps]
    simp [Mesh.rayIntersect, buildBVH, buildNode_singleton, BVHNode.rayIntersect,
      BVHNode.traverse, hbox, hmiss]

/-- C20, amended. In exact arithmetic, for every list `prims` of `Triangle`
primitives (the primitives `Mesh::updateBVH` builds are such), every mesh whose
`bvh_` is the tree `buildBVH` returns for `prims` (what `Mesh::updateBVH`
stores), every tolerance `eps ≥ 0` of the box test, and every ray whose direction
components are each `0` or beyond the tolerance: the brute-force reference
returns a nearest hit among `prims` (a hit of one of them whose `t` is the minimum
over all of them that the ray hits); if it finds none, `Mesh::rayIntersect`
returns false; if it finds one at `t`, `Mesh::rayIntersect` returns true with the
point `origin + t * direction` and the `id()` of a primitive of `prims` that the
ray hits at that same `t`. -/
theorem bvh_nearest_eq_brute_force (sqrt : K → K) (eps : K) (leafSize : Nat)
    (m2 : Mesh K (BVHNode K)) (prims : List (Primitive K)) (ray : Ray K) (pt : Vec3 K)
    (id : Nat) (heps : 0 ≤ eps) (hdir : ray.ClearOfZero eps)
    (htri : ∀ p ∈ prims, p.IsTriangle)
    (hbvh : m2.bvh_ = buildBVH leafSize prims) :
    Nearest sqrt ray (fun q => q ∈ prims) (bruteForce sqrt prims ray) ∧
      (bruteForce sqrt prims ray = none →
        Mesh.rayIntersect (BVHNode.rayIntersect sqrt eps) m2 ray pt id
          = .ok (false, pt, id)) ∧
      (∀ b, bruteForce sqrt prims ray = some b →
        ∃ p ∈ prims, p.hit sqrt ray = some b.1 ∧
          Mesh.rayIntersect (BVHNode.rayIntersect sqrt eps) m2 ray pt id =
            .ok (true, ray.origin + Vec3.scale b.1 ray.direction, p.id)) := by
  have hbf := bruteForce_nearest sqrt prims ray
  refine ⟨hbf, ?_⟩
  by_cases hemp : prims.isEmpty = true
  · have hnil : prims = [] := List.isEmpty_iff.mp hemp
    subst hnil
    have hnone : m2.bvh_ = none := by
      rw [hbvh]
      rfl
    constructor
    · intro _
      simp only [Mesh.rayIntersect, hnone]
    · intro b hb
      simp only [bruteForce, List.foldl_nil] at hb
      exact Option.noConfusion hb
  · have hsome : m2.bvh_ = some (buildNode leafSize prims) := by
      rw [hbvh]
      simp only [buildBVH, if_neg hemp]
    have hq := buildNode_traverse_nearest sqrt eps leafSize prims ray heps hdir htri
    have huniq := Nearest.unique sqrt ray _ _ _ hq hbf
    constructor
    · intro hb
      rw [hb] at huniq
      have hnone : (buildNode leafSize prims).traverse sqrt eps ray none = none := by
        cases ht : (buildNode leafSize prims).traverse sqrt eps ray none with
        | none => rfl
        | some c =>
          rw [ht] at huniq
          exact Option.noConfusion huniq
      simp only [Mesh.rayIntersect, hsome, BVHNode.rayIntersect, hnone, if_true]
    · intro b hb
      rw [hb] at huniq
      cases ht : (buildNode leafSize prims).traverse sqrt eps ray none with
      | none =>
        rw [ht] at huniq
        exact Option.noConfusion huniq
      | some c =>
        rw [ht] at huniq hq
        have et : c.1 = b.1 := Option.some.inj huniq
        obtain ⟨hc1, hc2⟩ := hq.1 c rfl
        refine ⟨c.2, hc1, et ▸ hc2, ?_⟩
        simp [Mesh.rayIntersect, hsome, BVHNode.rayIntersect, ht, et]


/-- C20, amended, at the mesh of four triangles (the unit square at `z = 0` and the
one at `z = 1`, each split in two) with the leaf threshold `1`, so that the tree has
internal nodes, the tolerance `1e-6`, and the ray from `(1/4, 1/4, -1)` along `+z`
with the interval `[0, 10]`, which hits the faces `0` (at `t = 1`) and `2` (at
`t = 2`): brute force returns face `0` at `t = 1`, and `Mesh::rayIntersect` returns
true with the point `origin + 1 * direction`. -/
theorem bvh_nearest_eq_brute_force_witness :
    ∃ (prims : List (Primitive ℝ)) (m2 : Mesh ℝ (BVHNode ℝ)),
      (⟨[⟨0, 0, 0⟩, ⟨1, 0, 0⟩, ⟨0, 1, 0⟩, ⟨1, 1, 0⟩, ⟨0, 0, 1⟩, ⟨1, 0, 1⟩, ⟨0, 1, 1⟩, ⟨1, 1, 1⟩],
          some [0, 1, 2, 1, 3, 2, 4, 5, 6, 5, 7, 6], none⟩ :
          Mesh ℝ (BVHNode ℝ)).updateBVHPrims = .ok prims ∧
      (⟨[⟨0, 0, 0⟩, ⟨1, 0, 0⟩, ⟨0, 1, 0⟩, ⟨1, 1, 0⟩, ⟨0, 0, 1⟩, ⟨1, 0, 1⟩, ⟨0, 1, 1⟩, ⟨1, 1, 1⟩],
          some [0, 1, 2, 1, 3, 2, 4, 5, 6, 5, 7, 6], none⟩ :
          Mesh ℝ (BVHNode ℝ)).updateBVH (buildBVH 1) = .ok m2 ∧
      prims.length = 4 ∧
      (∃ box left right, m2.bvh_ = some (BVHNode.node box left right)) ∧
      bruteForce Real.sqrt prims ⟨⟨1 / 4, 1 / 4, -1⟩, ⟨0, 0, 1⟩, 0, 10⟩
        = some (1, Primitive.triangle (Triangle.Triangle 0 ⟨0, 0, 0⟩ ⟨1, 0, 0⟩ ⟨0, 1, 0⟩)) ∧
      ∃ p ∈ prims, p.hit Real.sqrt ⟨⟨1 / 4, 1 / 4, -1⟩, ⟨0, 0, 1⟩, 0, 10⟩ = some 1 ∧
        Mesh.rayIntersect (BVHNode.rayIntersect Real.sqrt (1 / 1000000)) m2
            ⟨⟨1 / 4, 1 / 4, -1⟩, ⟨0, 0, 1⟩, 0, 10⟩ ⟨9, 9, 9⟩ 7 =
          .ok (true, (⟨1 / 4, 1 / 4, -1⟩ : Vec3 ℝ) + Vec3.scale 1 ⟨0, 0, 1⟩, p.id) :=
  have hprims : (⟨[⟨0, 0, 0⟩, ⟨1, 0, 0⟩, ⟨0, 1, 0⟩, ⟨1, 1, 0⟩, ⟨0, 0, 1⟩, ⟨1, 0, 1⟩, ⟨0, 1, 1⟩,
        ⟨1, 1, 1⟩], some [0, 1, 2, 1, 3, 2, 4, 5, 6, 5, 7, 6], none⟩ :
      Mesh ℝ (BVHNode ℝ)).updateBVHPrims =
        .ok [Primitive.triangle (Triangle.Triangle 0 ⟨0, 0, 0⟩ ⟨1, 0, 0⟩ ⟨0, 1, 0⟩),
          Primitive.triangle (Triangle.Triangle 1 ⟨1, 0, 0⟩ ⟨1, 1, 0⟩ ⟨0, 1, 0⟩),
          Primitive.triangle (Triangle.Triangle 2 ⟨0, 0, 1⟩ ⟨1, 0, 1⟩ ⟨0, 1, 1⟩),
          Primitive.triangle (Triangle.Triangle 3 ⟨1, 0, 1⟩ ⟨1, 1, 1⟩ ⟨0, 1, 1⟩)] := by
    simp [Mesh.updateBVHPrims, Mesh.numIndexData, Mesh.indexedLoop]
  have hm2 : (⟨[⟨0, 0, 0⟩, ⟨1, 0, 0⟩, ⟨0, 1, 0⟩, ⟨1, 1, 0⟩, ⟨0, 0, 1⟩, ⟨1, 0, 1⟩, ⟨0, 1, 1⟩,
        ⟨1, 1, 1⟩], some [0, 1, 2, 1, 3, 2, 4, 5, 6, 5, 7, 6], none⟩ :
      Mesh ℝ (BVHNode ℝ)).updateBVH (buildBVH 1) =
        .ok ⟨[⟨0, 0, 0⟩, ⟨1, 0, 0⟩, ⟨0, 1, 0⟩, ⟨1, 1, 0⟩, ⟨0, 0, 1⟩, ⟨1, 0, 1⟩, ⟨0, 1, 1⟩,
            ⟨1, 1, 1⟩], some [0, 1, 2, 1, 3, 2, 4, 5, 6, 5, 7, 6],
          buildBVH 1 [Primitive.triangle (Triangle.Triangle 0 ⟨0, 0, 0⟩ ⟨1, 0, 0⟩ ⟨0, 1, 0⟩),
            Primitive.triangle (Triangle.Triangle 1 ⟨1, 0, 0⟩ ⟨1, 1, 0⟩ ⟨0, 1, 0⟩),
            Primitive.triangle (Triangle.Triangle 2 ⟨0, 0, 1⟩ ⟨1, 0, 1⟩ ⟨0, 1, 1⟩),
            Primitive.triangle (Triangle.Triangle 3 ⟨1, 0, 1⟩ ⟨1, 1, 1⟩ ⟨0, 1, 1⟩)]⟩ := by
    simp only [Mesh.updateBVH, hprims]
  have hnode : ∃ box left right,
      buildBVH 1 [Primitive.triangle (Triangle.Triangle 0 (⟨0, 0, 0⟩ : Vec3 ℝ) ⟨1, 0, 0⟩ ⟨0, 1, 0⟩),
        Primitive.triangle (Triangle.Triangle 1 ⟨1, 0, 0⟩ ⟨1, 1, 0⟩ ⟨0, 1, 0⟩),
        Primitive.triangle (Triangle.Triangle 2 ⟨0, 0, 1⟩ ⟨1, 0, 1⟩ ⟨0, 1, 1⟩),
        Primitive.triangle (Triangle.Triangle 3 ⟨1, 0, 1⟩ ⟨1, 1, 1⟩ ⟨0, 1, 1⟩)]
        = some (BVHNode.node box left right) := by
    rw [buildBVH, if_neg (by simp), buildNode, dif_neg (by simp)]
    exact ⟨_, _, _, rfl⟩
  have h0 : (Triangle.Triangle 0 (⟨0, 0, 0⟩ : Vec3 ℝ) ⟨1, 0, 0⟩ ⟨0, 1, 0⟩).rayIntersect
      ⟨⟨1 / 4, 1 / 4, -1⟩, ⟨0, 0, 1⟩, 0, 10⟩ 0 = (true, 1) := by
    norm_num [Triangle.rayIntersect, Triangle.Triangle, Vec3.dot, Vec3.cross, Vec3.sub_def]
  have h1 : (Triangle.Triangle 1 (⟨1, 0, 0⟩ : Vec3 ℝ) ⟨1, 1, 0⟩ ⟨0, 1, 0⟩).rayIntersect
      ⟨⟨1 / 4, 1 / 4, -1⟩, ⟨0, 0, 1⟩, 0, 10⟩ 0 = (false, 0) := by
    norm_num [Triangle.rayIntersect, Triangle.Triangle, Vec3.dot, Vec3.cross, Vec3.sub_def]
  have h2 : (Triangle.Triangle 2 (⟨0, 0, 1⟩ : Vec3 ℝ) ⟨1, 0, 1⟩ ⟨0, 1, 1⟩).rayIntersect
      ⟨⟨1 / 4, 1 / 4, -1⟩, ⟨0, 0, 1⟩, 0, 10⟩ 0 = (true, 2) := by
    norm_num [Triangle.rayIntersect, Triangle.Triangle, Vec3.dot, Vec3.cross, Vec3.sub_def]
  have h3 : (Triangle.Triangle 3 (⟨1, 0, 1⟩ : Vec3 ℝ) ⟨1, 1, 1⟩ ⟨0, 1, 1⟩).rayIntersect
      ⟨⟨1 / 4, 1 / 4, -1⟩, ⟨0, 0, 1⟩, 0, 10⟩ 0 = (false, 0) := by
    norm_num [Triangle.rayIntersect, Triangle.Triangle, Vec3.dot, Vec3.cross, Vec3.sub_def]
  have hbf : bruteForce Real.sqrt
      [Primitive.triangle (Triangle.Triangle 0 (⟨0, 0, 0⟩ : Vec3 ℝ) ⟨1, 0, 0⟩ ⟨0, 1, 0⟩),
        Primitive.triangle (Triangle.Triangle 1 ⟨1, 0, 0⟩ ⟨1, 1, 0⟩ ⟨0, 1, 0⟩),
        Primitive.triangle (Triangle.Triangle 2 ⟨0, 0, 1⟩ ⟨1, 0, 1⟩ ⟨0, 1, 1⟩),
        Primitive.triangle (Triangle.Triangle 3 ⟨1, 0, 1⟩ ⟨1, 1, 1⟩ ⟨0, 1, 1⟩)]
      ⟨⟨1 / 4, 1 / 4, -1⟩, ⟨0, 0, 1⟩, 0, 10⟩
        = some (1, Primitive.triangle (Triangle.Triangle 0 ⟨0, 0, 0⟩ ⟨1, 0, 0⟩ ⟨0, 1, 0⟩)) := by
    simp only [bruteForce, List.foldl_cons, List.foldl_nil, closer, Primitive.hit,
      Primitive.rayIntersect, h0, h1, h2, h3]
    norm_num
  ⟨_, _, hprims, hm2, rfl, hnode, hbf,
    (bvh_nearest_eq_brute_force Real.sqrt (1 / 1000000) 1 _ _
      ⟨⟨1 / 4, 1 / 4, -1⟩, ⟨0, 0, 1⟩, 0, 10⟩ ⟨9, 9, 9⟩ 7 (by norm_num)
      (by norm_num [Ray.ClearOfZero])
      (Mesh.updateBVHPrims_isTriangle _ _ hprims)
      (Mesh.updateBVH_bvh (buildBVH 1) _ _ _ hprims hm2)).2.2 _ hbf⟩

end RefinementClaims



/-! ## Primitives: hit point, orientation, frame of the out-parameter -/

section PrimitiveBehaviourLemmas

variable {K : Type} [LinearOrderedField K]

/-- Swapping `v1` and `v2` negates the determinant. -/
theorem Triangle.det_swap (id : Nat) (v0 v1 v2 : Vec3 K) (ray : Ray K) :
    (Triangle.Triangle id v0 v2 v1).det ray = -(Triangle.Triangle id v0 v1 v2).det ray := by
  simp only [Triangle.det, Triangle.Triangle, Vec3.dot, Vec3.cross, Vec3.sub_def]
  ring

/-- Swapping `v1` and `v2` exchanges the barycentric coordinates: the new `u` is
the old `v`. -/
theorem Triangle.baryU_swap (id : Nat) (v0 v1 v2 : Vec3 K) (ray : Ray K) :
    (Triangle.Triangle id v0 v2 v1).baryU ray = (Triangle.Triangle id v0 v1 v2).baryV ray := by
  rw [Triangle.baryU, Triangle.baryV, Triangle.det_swap id v0 v1 v2 ray]
  simp only [Triangle.det, Triangle.Triangle, Vec3.dot, Vec3.cross, Vec3.sub_def, one_div,
    inv_neg]
  ring

/-- Swapping `v1` and `v2` exchanges the barycentric coordinates: the new `v` is
the old `u`. -/
theorem Triangle.baryV_swap (id : Nat) (v0 v1 v2 : Vec3 K) (ray : Ray K) :
    (Triangle.Triangle id v0 v2 v1).baryV ray = (Triangle.Triangle id v0 v1 v2).baryU ray := by
  rw [Triangle.baryU, Triangle.baryV, Triangle.det_swap id v0 v1 v2 ray]
  simp only [Triangle.det, Triangle.Triangle, Vec3.dot, Vec3.cross, Vec3.sub_def, one_div,
    inv_neg]
  ring

/-- Swapping `v1` and `v2` keeps the ray parameter. -/
theorem Triangle.tempt_swap (id : Nat) (v0 v1 v2 : Vec3 K) (ray : Ray K) :
    (Triangle.Triangle id v0 v2 v1).tempt ray = (Triangle.Triangle id v0 v1 v2).tempt ray := by
  rw [Triangle.tempt, Triangle.tempt, Triangle.det_swap id v0 v1 v2 ray]
  simp only [Triangle.det, Triangle.Triangle, Vec3.dot, Vec3.cross, Vec3.sub_def, one_div,
    inv_neg]
  ring

end PrimitiveBehaviourLemmas

section PrimitiveBehaviourClaims

variable {K : Type} [LinearOrderedField K]

/-- C22. Whenever `Triangle::rayIntersect` returns true with `t`, the hit point
`origin + t * direction` lies in `Triangle::aabb` (`min <= point <= max`
componentwise), hence in every box that bounds `Triangle::aabb`: pruning by such
a box cannot discard a triangle that the ray hits. -/
theorem triangle_hit_inside_aabb (tri : rcube.Triangle K) (ray : Ray K) (t0 t : K)
    (h : tri.rayIntersect ray t0 = (true, t)) :
    tri.aabb.Contains (ray.origin + Vec3.scale t ray.direction) ∧
      ∀ box : AABB K, (∀ x, tri.aabb.Contains x → box.Contains x) →
        box.Contains (ray.origin + Vec3.scale t ray.direction) :=
  ⟨Triangle.hit_in_aabb tri ray t0 t h,
    fun _ hbox => hbox _ (Triangle.hit_in_aabb tri ray t0 t h)⟩

/-- C22, at the unit triangle and the ray from `(1/4, 1/4, -1)` along `+z`. -/
theorem triangle_hit_inside_aabb_witness :
    (Triangle.Triangle 0 ⟨0, 0, 0⟩ ⟨1, 0, 0⟩ ⟨0, 1, 0⟩ : rcube.Triangle ℚ).aabb.Contains
      ((⟨1 / 4, 1 / 4, -1⟩ : Vec3 ℚ) + Vec3.scale 1 ⟨0, 0, 1⟩) :=
  (triangle_hit_inside_aabb (Triangle.Triangle 0 ⟨0, 0, 0⟩ ⟨1, 0, 0⟩ ⟨0, 1, 0⟩)
    ⟨⟨1 / 4, 1 / 4, -1⟩, ⟨0, 0, 1⟩, 0, 10⟩ 7 1
    (by norm_num [Triangle.rayIntersect, Triangle.Triangle, Vec3.dot, Vec3.cross,
      Vec3.sub_def])).1

/-- C23. For a `Point` with centre `c` and radius `r` and a ray with unit
direction, whenever `Point::rayIntersect` returns true with `t`, the point
`origin + t * direction` lies on the sphere:
`|origin + t * direction - c|^2 = r^2`. -/
theorem point_hit_on_sphere (sqrt : K → K) (hs : IsSqrt sqrt) (id : Nat) (c : Vec3 K) (r : K)
    (ray : Ray K) (t0 t : K) (hunit : Vec3.dot ray.direction ray.direction = 1)
    (h : Point.rayIntersect sqrt (Point.Point id c r) ray t0 = (true, t)) :
    Vec3.dot (ray.origin + Vec3.scale t ray.direction - c)
      (ray.origin + Vec3.scale t ray.direction - c) = r ^ 2 := by
  obtain ⟨cx, cy, cz⟩ := c
  obtain ⟨⟨ox, oy, oz⟩, ⟨dx, dy, dz⟩, tmin, tmax⟩ := ray
  simp only [Vec3.dot] at hunit
  simp only [Point.rayIntersect, Point.Point, Vec3.dot, Vec3.sub_def, gt_iff_lt] at h
  split_ifs at h with hd2
  · exact absurd (Prod.mk.inj h).1 (by decide)
  have hnn := not_lt.mp hd2
  obtain ⟨_, hsq⟩ := hs _ (sub_nonneg.mpr hnn)
  have ht := (Prod.mk.inj h).2
  simp only [Vec3.dot, Vec3.sub_def, Vec3.add_def, Vec3.scale]
  generalize sqrt (r * r - ((cx - ox) * (cx - ox) + (cy - oy) * (cy - oy) + (cz - oz) * (cz - oz)
    - ((cx - ox) * dx + (cy - oy) * dy + (cz - oz) * dz)
      * ((cx - ox) * dx + (cy - oy) * dy + (cz - oz) * dz))) = thc at hsq ht
  rcases min_choice ((cx - ox) * dx + (cy - oy) * dy + (cz - oz) * dz - thc)
    ((cx - ox) * dx + (cy - oy) * dy + (cz - oz) * dz + thc) with hm | hm
  · rw [hm] at ht
    subst ht
    linear_combination hsq
      + ((cx - ox) * dx + (cy - oy) * dy + (cz - oz) * dz - thc) ^ 2 * hunit
  · rw [hm] at ht
    subst ht
    linear_combination hsq
      + ((cx - ox) * dx + (cy - oy) * dy + (cz - oz) * dz + thc) ^ 2 * hunit

/-- C23, at the unit sphere and the ray from `(0,0,-5)` along `+z`, with the real
square root: the hit at `t = 4` is the point `(0,0,-1)`. -/
theorem point_hit_on_sphere_witness :
    Vec3.dot ((⟨0, 0, -5⟩ : Vec3 ℝ) + Vec3.scale 4 ⟨0, 0, 1⟩ - ⟨0, 0, 0⟩)
      ((⟨0, 0, -5⟩ : Vec3 ℝ) + Vec3.scale 4 ⟨0, 0, 1⟩ - ⟨0, 0, 0⟩) = (1 : ℝ) ^ 2 :=
  point_hit_on_sphere Real.sqrt real_isSqrt 0 ⟨0, 0, 0⟩ 1 ⟨⟨0, 0, -5⟩, ⟨0, 0, 1⟩, 0, 10⟩ 0 4
    (by norm_num [Vec3.dot])
    (by norm_num [Point.rayIntersect, Point.Point, Vec3.dot, Vec3.sub_def])

/-- C24. `Triangle::rayIntersect` does not depend on the orientation of the
triangle: `Triangle(id, v0, v1, v2)` and `Triangle(id, v0, v2, v1)` return the same
flag and leave the same `t`, for every ray. -/
theorem triangle_rayIntersect_swap (id : Nat) (v0 v1 v2 : Vec3 K) (ray : Ray K) (t0 : K) :
    (Triangle.Triangle id v0 v2 v1).rayIntersect ray t0 =
      (Triangle.Triangle id v0 v1 v2).rayIntersect ray t0 := by
  rw [Triangle.rayIntersect_eq, Triangle.rayIntersect_eq, Triangle.det_swap id v0 v1 v2 ray,
    Triangle.baryU_swap id v0 v1 v2 ray, Triangle.baryV_swap id v0 v1 v2 ray,
    Triangle.tempt_swap id v0 v1 v2 ray, abs_neg]
  refine if_congr ?_ rfl rfl
  constructor
  · rintro ⟨h1, h2, _, h4, h5, h6, h7⟩
    exact ⟨h1, h4, by linarith, h2, by linarith, h6, h7⟩
  · rintro ⟨h1, h2, _, h4, h5, h6, h7⟩
    exact ⟨h1, h4, by linarith, h2, by linarith, h6, h7⟩

/-- C25. When `rayIntersect` of a `Point` or of a `Triangle` returns false, the
out-parameter `t` keeps the value it had before the call. -/
theorem rayIntersect_false_keeps_t (sqrt : K → K) (ray : Ray K) (t0 : K) :
    (∀ p : rcube.Point K, (Point.rayIntersect sqrt p ray t0).1 = false →
        (Point.rayIntersect sqrt p ray t0).2 = t0) ∧
      (∀ tri : rcube.Triangle K, (tri.rayIntersect ray t0).1 = false →
        (tri.rayIntersect ray t0).2 = t0) ∧
      (∀ prim : Primitive K, (prim.rayIntersect sqrt ray t0).1 = false →
        (prim.rayIntersect sqrt ray t0).2 = t0) := by
  have hp : ∀ p : rcube.Point K, (Point.rayIntersect sqrt p ray t0).1 = false →
      (Point.rayIntersect sqrt p ray t0).2 = t0 := by
    intro p h
    simp only [Point.rayIntersect] at h ⊢
    split_ifs at h ⊢
    rfl
  have ht : ∀ tri : rcube.Triangle K, (tri.rayIntersect ray t0).1 = false →
      (tri.rayIntersect ray t0).2 = t0 := by
    intro tri h
    rcases Triangle.rayIntersect_false_or tri ray t0 with e | e
    · rw [e]
    · rw [e] at h
      exact Bool.noConfusion h
  refine ⟨hp, ht, ?_⟩
  intro prim h
  cases prim with
  | point p => exact hp p h
  | triangle tri => exact ht tri h

/-- C25, at the unit triangle missed by the ray from `(10, 10, -1)` along `+z` and
at the unit sphere missed by the same ray, with `t = 7` before the calls. -/
theorem rayIntersect_false_keeps_t_witness :
    (Point.rayIntersect Real.sqrt (Point.Point 0 ⟨0, 0, 0⟩ 1)
        ⟨⟨10, 10, -1⟩, ⟨0, 0, 1⟩, 0, 10⟩ 7).2 = 7 ∧
      ((Triangle.Triangle 0 ⟨0, 0, 0⟩ ⟨1, 0, 0⟩ ⟨0, 1, 0⟩ : rcube.Triangle ℝ).rayIntersect
        ⟨⟨10, 10, -1⟩, ⟨0, 0, 1⟩, 0, 10⟩ 7).2 = 7 :=
  ⟨(rayIntersect_false_keeps_t Real.sqrt ⟨⟨10, 10, -1⟩, ⟨0, 0, 1⟩, 0, 10⟩ 7).1 _
      (by norm_num [Point.rayIntersect, Point.Point, Vec3.dot, Vec3.sub_def]),
    (rayIntersect_false_keeps_t Real.sqrt ⟨⟨10, 10, -1⟩, ⟨0, 0, 1⟩, 0, 10⟩ 7).2.1 _
      (by norm_num [Triangle.rayIntersect, Triangle.Triangle, Vec3.dot, Vec3.cross,
        Vec3.sub_def])⟩

end PrimitiveBehaviourClaims


/-! ## Framebuffer::colorAttachment -/

section FramebufferClaims

/-- C29. At the index `i = numColorAttachments()` the method
`Framebuffer::colorAttachment` does not throw: its test is
`i >= colors_.size() + 1`, and it goes on to subscript `colors_` one past its end.
So it is for a framebuffer without colour attachments at `i = 0`. -/
theorem colorAttachment_at_size_out_of_bounds {T : Type} (fb : Framebuffer T) :
    fb.colorAttachment fb.numColorAttachments = .error (.undefined .outOfRange) ∧
      (⟨[]⟩ : Framebuffer T).colorAttachment 0 = .error (.undefined .outOfRange) := by
  constructor
  · have h : ¬ fb.colors_.length ≥ fb.colors_.length + 1 := by omega
    simp only [Framebuffer.colorAttachment, Framebuffer.numColorAttachments, if_neg h,
      List.getElem?_eq_none (le_refl fb.colors_.length)]
  · rfl

end FramebufferClaims

/-! ## TriangleMeshData::append and LineMeshData::append -/

section AppendLemmas

/-- Below `2^32`, arithmetic of `unsigned int` is exact. -/
theorem u32_of_lt (n : Nat) (h : n < 2 ^ 32) : u32 n = n :=
  Nat.mod_eq_of_lt h

end AppendLemmas

section AppendClaims

variable {K : Type}

/-- Appending to a mesh of `n = 2^32 - 1` equal vertices: the index `1` of `other`
wraps to `0`. -/
theorem TriangleMeshData.append_wraps (n : Nat) (hn : n + 1 = 2 ^ 32) :
    ∃ r : TriangleMeshData ℚ,
      TriangleMeshData.append
          ⟨List.replicate n ⟨0, 0, 0⟩, [], [], [], [], [], true⟩
          ⟨[⟨0, 0, 0⟩, ⟨1, 0, 0⟩], [], [], [], [], [⟨1, 1, 1⟩], true⟩ = .ok r ∧
        r.indices = [⟨0, 0, 0⟩] ∧
        r.vertices[0]? = some ⟨0, 0, 0⟩ := by
  refine ⟨_, rfl, ?_, ?_⟩
  · have h1 : (1 + n % 2 ^ 32) % 2 ^ 32 = 0 := by
      norm_num at hn ⊢
      omega
    simp only [List.length_replicate, List.map_cons, List.map_nil, List.nil_append,
      UVec3.addScalar, u32, h1]
  · have hpos : 0 < n := by
      norm_num at hn
      omega
    simp only
    rw [List.getElem?_append_left (by simpa using hpos), List.getElem?_replicate, if_pos hpos]

/-- C26, as stated, fails when the vertex counts add up to more than `2^32`: with
`2^32 - 1` vertices in `a` and the vertices `(0,0,0), (1,0,0)` and the index triple
`(1,1,1)` in `b` (all indices valid), the appended triple is `(0,0,0)`, which
refers to the first vertex of `a`, not to the vertex `(1,0,0)` that `1` refers to
in `b`. -/
theorem triangle_append_index_wraps :
    (∃ r : TriangleMeshData ℚ,
      TriangleMeshData.append
          ⟨List.replicate (2 ^ 32 - 1) ⟨0, 0, 0⟩, [], [], [], [], [], true⟩
          ⟨[⟨0, 0, 0⟩, ⟨1, 0, 0⟩], [], [], [], [], [⟨1, 1, 1⟩], true⟩ = .ok r ∧
        r.indices = [⟨0, 0, 0⟩] ∧
        r.vertices[0]? = some ⟨0, 0, 0⟩) ∧
      ([⟨0, 0, 0⟩, ⟨1, 0, 0⟩] : List (Vec3 ℚ))[1]? = some ⟨1, 0, 0⟩ ∧
      (⟨0, 0, 0⟩ : Vec3 ℚ) ≠ ⟨1, 0, 0⟩ :=
  ⟨TriangleMeshData.append_wraps (2 ^ 32 - 1) (by norm_num), rfl, by simp⟩

/-- C26, amended. If every index of `a` and of `b` is smaller than the respective
vertex count and the two vertex counts add up to at most `2^32`, then after
`a.append(b)` the vertex list is the vertices of `a` followed by those of `b`, the
indices are those of `a`, unchanged, followed by those of `b` with
`|a.vertices|` added to every value; every index is smaller than the new vertex
count, and the vertex at `j + |a.vertices|` is the vertex at `j` in `b`. The call
returns when the `indexed` flags agree. -/
theorem triangle_append_valid (a b : TriangleMeshData K)
    (ha : ∀ t ∈ a.indices,
      t.x < a.vertices.length ∧ t.y < a.vertices.length ∧ t.z < a.vertices.length)
    (hb : ∀ t ∈ b.indices,
      t.x < b.vertices.length ∧ t.y < b.vertices.length ∧ t.z < b.vertices.length)
    (hsize : a.vertices.length + b.vertices.length ≤ 2 ^ 32) :
    (a.indexed = b.indexed → ∃ r, a.append b = .ok r) ∧
      ∀ r, a.append b = .ok r →
        r.vertices = a.vertices ++ b.vertices ∧
        r.indices = a.indices ++ b.indices.map (fun t =>
          (⟨t.x + a.vertices.length, t.y + a.vertices.length,
            t.z + a.vertices.length⟩ : UVec3)) ∧
        (∀ t ∈ r.indices,
          t.x < r.vertices.length ∧ t.y < r.vertices.length ∧ t.z < r.vertices.length) ∧
        (∀ j, j < b.vertices.length →
          r.vertices[j + a.vertices.length]? = b.vertices[j]?) := by
  constructor
  · intro h
    unfold TriangleMeshData.append
    rw [if_neg (not_not.mpr h)]
    exact ⟨_, rfl⟩
  intro r hr
  unfold TriangleMeshData.append at hr
  split_ifs at hr with hflag
  have e := Except.ok.inj hr
  subst e
  have hmap : b.indices.map (fun val => val.addScalar (u32 a.vertices.length)) =
      b.indices.map (fun t =>
        (⟨t.x + a.vertices.length, t.y + a.vertices.length, t.z + a.vertices.length⟩ : UVec3)) := by
    apply List.map_congr_left
    intro t ht
    obtain ⟨h1, h2, h3⟩ := hb t ht
    have hoff : u32 a.vertices.length = a.vertices.length := u32_of_lt _ (by omega)
    simp only [UVec3.addScalar, hoff]
    rw [u32_of_lt _ (by omega), u32_of_lt _ (by omega), u32_of_lt _ (by omega)]
  refine ⟨rfl, ?_, ?_, ?_⟩
  · simp only [hmap]
  · intro t ht
    simp only [hmap, List.mem_append, List.mem_map] at ht
    simp only [List.length_append]
    rcases ht with ht | ⟨s, hs, rfl⟩
    · obtain ⟨h1, h2, h3⟩ := ha t ht
      omega
    · obtain ⟨h1, h2, h3⟩ := hb s hs
      simp only
      omega
  · intro j hj
    simp only
    rw [List.getElem?_append_right (by omega)]
    congr 1
    omega

/-- C26, amended, at two meshes of one triangle each. -/
theorem triangle_append_valid_witness :
    ∃ r : TriangleMeshData ℚ,
      TriangleMeshData.append
          ⟨[⟨0, 0, 0⟩, ⟨1, 0, 0⟩, ⟨0, 1, 0⟩], [], [], [], [], [⟨0, 1, 2⟩], true⟩
          ⟨[⟨0, 0, 5⟩, ⟨1, 0, 5⟩, ⟨0, 1, 5⟩], [], [], [], [], [⟨0, 1, 2⟩], true⟩ = .ok r ∧
        r.indices = [⟨0, 1, 2⟩, ⟨3, 4, 5⟩] ∧
        r.vertices = [⟨0, 0, 0⟩, ⟨1, 0, 0⟩, ⟨0, 1, 0⟩, ⟨0, 0, 5⟩, ⟨1, 0, 5⟩, ⟨0, 1, 5⟩] := by
  obtain ⟨htot, hall⟩ := triangle_append_valid
    (⟨[⟨0, 0, 0⟩, ⟨1, 0, 0⟩, ⟨0, 1, 0⟩], [], [], [], [], [⟨0, 1, 2⟩], true⟩ : TriangleMeshData ℚ)
    ⟨[⟨0, 0, 5⟩, ⟨1, 0, 5⟩, ⟨0, 1, 5⟩], [], [], [], [], [⟨0, 1, 2⟩], true⟩
    (by simp) (by simp) (by norm_num)
  obtain ⟨r, hr⟩ := htot rfl
  obtain ⟨h1, h2, _, _⟩ := hall r hr
  exact ⟨r, hr, h2, h1⟩

/-- C27. `LineMeshData::append` takes its offset from `vertices.size()` after it
has inserted the vertices of `other`: appending the line `(0, 1)` over two
vertices to a mesh of two vertices pushes the line `(4, 5)`, and the new vertex
count is `4`. -/
theorem line_append_offset_after_insert :
    ∃ r : LineMeshData ℚ,
      LineMeshData.append
          ⟨[⟨0, 0, 0⟩, ⟨1, 0, 0⟩], [⟨1, 1, 1⟩, ⟨1, 1, 1⟩], [⟨0, 1⟩], true⟩
          ⟨[⟨0, 0, 5⟩, ⟨1, 0, 5⟩], [⟨1, 1, 1⟩, ⟨1, 1, 1⟩], [⟨0, 1⟩], true⟩ = .ok r ∧
        r.vertices.length = 4 ∧ r.indices = [⟨0, 1⟩, ⟨4, 5⟩] ∧
        r.vertices[4]? = none ∧ r.vertices[5]? = none := by
  refine ⟨_, rfl, rfl, ?_, rfl, rfl⟩
  simp [UVec2.add, u32]

end AppendClaims

/-! ## plane -/

section PlaneLemmas

/-- Arithmetic of `unsigned int` never exceeds the exact value. -/
theorem u32_le (n : Nat) : u32 n ≤ n :=
  Nat.mod_le n _

/-- The length of the list that two nested counted loops push, the inner one
pushing `n` elements on each pass. -/
theorem length_flatMap_const {α β : Type} (l : List α) (f : α → List β) (n : Nat)
    (h : ∀ a ∈ l, (f a).length = n) : (l.flatMap f).length = l.length * n := by
  induction l with
  | nil => simp
  | cons a l ih =>
    rw [List.flatMap_cons, List.length_append, h a (List.mem_cons_self a l),
      ih (fun b hb => h b (List.mem_cons_of_mem a hb)), List.length_cons]
    ring

/-- Two nested counted loops of `n` and `m` passes that push one element per
pass push `n * m` elements. -/
theorem length_nested_map {β : Type} (n m : Nat) (f : Nat → Nat → β) :
    ((List.range n).flatMap (fun i => (List.range m).map (fun j => f i j))).length
      = n * m := by
  rw [length_flatMap_const _ _ m (fun i _ => by rw [List.length_map, List.length_range]),
    List.length_range]

/-- Two nested counted loops of `n` and `m` passes that push two elements per
pass push `n * (m * 2)` elements. -/
theorem length_nested_pairs {β : Type} (n m : Nat) (f g : Nat → Nat → β) :
    ((List.range n).flatMap (fun i =>
      (List.range m).flatMap (fun j => [f i j, g i j]))).length = n * (m * 2) := by
  rw [length_flatMap_const _ _ (m * 2) (fun i _ => by
    rw [length_flatMap_const (List.range m) (fun j => [f i j, g i j]) 2 (fun _ _ => rfl),
      List.length_range]), List.length_range]

end PlaneLemmas

section PlaneClaims

variable {K : Type} [LinearOrderedField K]

/-- C21. For `width_segments = ws ≥ 1` and `height_segments = hs ≥ 1` with
`(ws + 1) * (hs + 1) < 2^32`, `plane` returns indexed mesh data with exactly
`(ws + 1) * (hs + 1)` vertices, as many normals and as many texcoords, and exactly
`2 * ws * hs` index triples, every index of which is smaller than the vertex
count. -/
theorem plane_counts (cosQuarterPi sinQuarterPi width height : K) (ws hs : Nat)
    (ort : Orientation) (_hws : 1 ≤ ws) (_hhs : 1 ≤ hs)
    (hlt : (ws + 1) * (hs + 1) < 2 ^ 32) :
    (plane cosQuarterPi sinQuarterPi width height ws hs ort).indexed = true ∧
      (plane cosQuarterPi sinQuarterPi width height ws hs ort).vertices.length
        = (ws + 1) * (hs + 1) ∧
      (plane cosQuarterPi sinQuarterPi width height ws hs ort).normals.length
        = (ws + 1) * (hs + 1) ∧
      (plane cosQuarterPi sinQuarterPi width height ws hs ort).texcoords.length
        = (ws + 1) * (hs + 1) ∧
      (plane cosQuarterPi sinQuarterPi width height ws hs ort).indices.length
        = 2 * ws * hs ∧
      ∀ t ∈ (plane cosQuarterPi sinQuarterPi width height ws hs ort).indices,
        t.x < (ws + 1) * (hs + 1) ∧ t.y < (ws + 1) * (hs + 1) ∧
          t.z < (ws + 1) * (hs + 1) := by
  have hN : (ws + 1) * (hs + 1) = (ws + 1) * hs + ws + 1 := by ring
  have hN2 : (ws + 1) * (hs + 1) = (hs + 1) * ws + hs + 1 := by ring
  have hw : u32 (ws + 1) = ws + 1 := u32_of_lt _ (by omega)
  have hh : u32 (hs + 1) = hs + 1 := u32_of_lt _ (by omega)
  simp only [plane, hw, hh]
  refine ⟨trivial, ?_, ?_, ?_, ?_, ?_⟩
  · rw [length_nested_map]
    ring
  · rw [length_nested_map]
    ring
  · rw [length_nested_map]
    ring
  · rw [length_nested_pairs]
    ring
  · intro t ht
    simp only [List.mem_flatMap, List.mem_range, List.mem_cons, List.mem_singleton,
      List.not_mem_nil, or_false] at ht
    obtain ⟨i, hi, j, hj, ht⟩ := ht
    have p0 : (ws + 1) * i ≤ (ws + 1) * hs := Nat.mul_le_mul_left _ (by omega)
    have p1 : (ws + 1) * u32 (i + 1) ≤ (ws + 1) * hs :=
      Nat.mul_le_mul_left _ (le_trans (u32_le _) (by omega))
    have a1 := u32_le (j + u32 ((ws + 1) * i))
    have a2 := u32_le ((ws + 1) * i)
    have b1 := u32_le (j + u32 ((ws + 1) * u32 (i + 1)))
    have b2 := u32_le ((ws + 1) * u32 (i + 1))
    have c1 := u32_le (u32 (j + 1) + u32 ((ws + 1) * u32 (i + 1)))
    have c2 := u32_le (j + 1)
    have d1 := u32_le (u32 (j + 1) + u32 ((ws + 1) * i))
    rcases ht with rfl | rfl
    · simp only
      refine ⟨?_, ?_, ?_⟩ <;> omega
    · simp only
      refine ⟨?_, ?_, ?_⟩ <;> omega

/-- C21, at a plane of `2 x 3` segments: `12` vertices and `12` triangles. -/
theorem plane_counts_witness :
    (plane (0 : ℚ) 0 1 1 2 3 Orientation.PositiveZ).vertices.length = (2 + 1) * (3 + 1) ∧
      (plane (0 : ℚ) 0 1 1 2 3 Orientation.PositiveZ).indices.length = 2 * 2 * 3 :=
  ⟨(plane_counts (0 : ℚ) 0 1 1 2 3 Orientation.PositiveZ (by norm_num) (by norm_num)
      (by norm_num)).2.1,
    (plane_counts (0 : ℚ) 0 1 1 2 3 Orientation.PositiveZ (by norm_num) (by norm_num)
      (by norm_num)).2.2.2.2.1⟩

end PlaneClaims

/-! ## scaleAndCenter -/

section ScaleLemmas

variable {K : Type} [LinearOrderedField K]

/-- The map `v ↦ 2.0f * (v - centroid) / scale` of `scaleAndCenter`. -/
theorem scaleMap_def (c : Vec3 K) (s : K) (v : Vec3 K) :
    Vec3.div (Vec3.scale 2 (v - c)) s =
      ⟨2 * (v.x - c.x) / s, 2 * (v.y - c.y) / s, 2 * (v.z - c.z) / s⟩ := rfl

/-- One pass of the loop of `findCentroidAndScale`, with minima and maxima. -/
theorem boundsStep_eq (mm : Vec3 K × Vec3 K) (v : Vec3 K) :
    boundsStep mm v =
      (⟨min mm.1.x v.x, min mm.1.y v.y, min mm.1.z v.z⟩,
        ⟨max mm.2.x v.x, max mm.2.y v.y, max mm.2.z v.z⟩) := by
  simp only [boundsStep, gt_iff_lt, glm_min_eq, glm_max_eq]

/-- Scaling by a positive factor after a shift commutes with the minimum. -/
theorem scale_min (c s a b : K) (hs : 0 < s) :
    min (2 * (a - c) / s) (2 * (b - c) / s) = 2 * (min a b - c) / s := by
  rcases le_total a b with h | h
  · rw [min_eq_left h, min_eq_left]
    exact div_le_div_of_nonneg_right (by linarith) (le_of_lt hs)
  · rw [min_eq_right h, min_eq_right]
    exact div_le_div_of_nonneg_right (by linarith) (le_of_lt hs)

/-- Scaling by a positive factor after a shift commutes with the maximum. -/
theorem scale_max (c s a b : K) (hs : 0 < s) :
    max (2 * (a - c) / s) (2 * (b - c) / s) = 2 * (max a b - c) / s := by
  rcases le_total a b with h | h
  · rw [max_eq_right h, max_eq_right]
    exact div_le_div_of_nonneg_right (by linarith) (le_of_lt hs)
  · rw [max_eq_left h, max_eq_left]
    exact div_le_div_of_nonneg_right (by linarith) (le_of_lt hs)

/-- The bounds of the scaled vertices are the scaled bounds. -/
theorem bounds_scaled (c : Vec3 K) (s : K) (hs : 0 < s) (vs : List (Vec3 K)) :
    ∀ mm : Vec3 K × Vec3 K,
      (vs.map (fun v => Vec3.div (Vec3.scale 2 (v - c)) s)).foldl boundsStep
          (Vec3.div (Vec3.scale 2 (mm.1 - c)) s, Vec3.div (Vec3.scale 2 (mm.2 - c)) s) =
        (Vec3.div (Vec3.scale 2 ((vs.foldl boundsStep mm).1 - c)) s,
          Vec3.div (Vec3.scale 2 ((vs.foldl boundsStep mm).2 - c)) s) := by
  induction vs with
  | nil =>
    intro mm
    rfl
  | cons v vs ih =>
    intro mm
    simp only [List.map_cons, List.foldl_cons]
    rw [← ih (boundsStep mm v)]
    congr 1
    simp only [boundsStep_eq, scaleMap_def, scale_min _ _ _ _ hs, scale_max _ _ _ _ hs]

/-- The bounds that the loop of `findCentroidAndScale` computes enclose the
starting pair and every vertex of the list. -/
theorem bounds_enclose (vs : List (Vec3 K)) :
    ∀ mm : Vec3 K × Vec3 K,
      (Vec3.le (vs.foldl boundsStep mm).1 mm.1 ∧ Vec3.le mm.2 (vs.foldl boundsStep mm).2) ∧
        ∀ v ∈ vs, Vec3.le (vs.foldl boundsStep mm).1 v ∧ Vec3.le v (vs.foldl boundsStep mm).2 := by
  induction vs with
  | nil =>
    intro mm
    exact ⟨⟨⟨le_rfl, le_rfl, le_rfl⟩, le_rfl, le_rfl, le_rfl⟩,
      fun v hv => absurd hv (List.not_mem_nil v)⟩
  | cons w vs ih =>
    intro mm
    obtain ⟨⟨⟨a1, a2, a3⟩, b1, b2, b3⟩, hall⟩ := ih (boundsStep mm w)
    simp only [boundsStep_eq] at a1 a2 a3 b1 b2 b3 hall
    simp only [List.foldl_cons, boundsStep_eq]
    refine ⟨⟨⟨le_trans a1 (min_le_left _ _), le_trans a2 (min_le_left _ _),
      le_trans a3 (min_le_left _ _)⟩, le_trans (le_max_left _ _) b1,
      le_trans (le_max_left _ _) b2, le_trans (le_max_left _ _) b3⟩, ?_⟩
    intro v hv
    rcases List.mem_cons.mp hv with e | hmem
    · subst e
      exact ⟨⟨le_trans a1 (min_le_right _ _), le_trans a2 (min_le_right _ _),
        le_trans a3 (min_le_right _ _)⟩, le_trans (le_max_right _ _) b1,
        le_trans (le_max_right _ _) b2, le_trans (le_max_right _ _) b3⟩
    · exact hall v hmem

/-- A coordinate between the bounds `lo` and `hi` is mapped into `[-1, 1]` when the
scale is at least the side `|hi - lo|`. -/
theorem scaled_coordinate_bounds (lo hi x s : K) (hs : 0 < s) (h1 : lo ≤ x) (h2 : x ≤ hi)
    (hside : |hi - lo| ≤ s) :
    -1 ≤ 2 * (x - 1 / 2 * (hi + lo)) / s ∧ 2 * (x - 1 / 2 * (hi + lo)) / s ≤ 1 := by
  have hle : hi - lo ≤ s := le_trans (le_abs_self _) hside
  constructor
  · rw [le_div_iff₀ hs]
    linarith
  · rw [div_le_iff₀ hs]
    linarith

/-- The side of the scaled bounds on one axis. -/
theorem scaled_side (lo hi c s : K) (hs : 0 < s) :
    |2 * (hi - c) / s - 2 * (lo - c) / s| = 2 / s * |hi - lo| := by
  have e : 2 * (hi - c) / s - 2 * (lo - c) / s = 2 / s * (hi - lo) := by
    field_simp
    ring
  rw [e, abs_mul, abs_of_pos (div_pos two_pos hs)]

end ScaleLemmas

section ScaleMainLemmas

variable {K : Type} [LinearOrderedField K]

/-- The centroid and the scale of the scaled bounds: the origin and `2`. -/
theorem scaled_centroid_scale (mn mx : Vec3 K)
    (hs : 0 < max (Vec3.abs (mx - mn)).x (max (Vec3.abs (mx - mn)).y (Vec3.abs (mx - mn)).z)) :
    Vec3.scale (1 / 2)
        (Vec3.div (Vec3.scale 2 (mx - Vec3.scale (1 / 2) (mx + mn)))
            (max (Vec3.abs (mx - mn)).x (max (Vec3.abs (mx - mn)).y (Vec3.abs (mx - mn)).z))
          + Vec3.div (Vec3.scale 2 (mn - Vec3.scale (1 / 2) (mx + mn)))
            (max (Vec3.abs (mx - mn)).x (max (Vec3.abs (mx - mn)).y (Vec3.abs (mx - mn)).z)))
        = ⟨0, 0, 0⟩ ∧
      max (Vec3.abs
          (Vec3.div (Vec3.scale 2 (mx - Vec3.scale (1 / 2) (mx + mn)))
              (max (Vec3.abs (mx - mn)).x (max (Vec3.abs (mx - mn)).y (Vec3.abs (mx - mn)).z))
            - Vec3.div (Vec3.scale 2 (mn - Vec3.scale (1 / 2) (mx + mn)))
              (max (Vec3.abs (mx - mn)).x
                (max (Vec3.abs (mx - mn)).y (Vec3.abs (mx - mn)).z)))).x
        (max (Vec3.abs
            (Vec3.div (Vec3.scale 2 (mx - Vec3.scale (1 / 2) (mx + mn)))
                (max (Vec3.abs (mx - mn)).x (max (Vec3.abs (mx - mn)).y (Vec3.abs (mx - mn)).z))
              - Vec3.div (Vec3.scale 2 (mn - Vec3.scale (1 / 2) (mx + mn)))
                (max (Vec3.abs (mx - mn)).x
                  (max (Vec3.abs (mx - mn)).y (Vec3.abs (mx - mn)).z)))).y
          (Vec3.abs
            (Vec3.div (Vec3.scale 2 (mx - Vec3.scale (1 / 2) (mx + mn)))
                (max (Vec3.abs (mx - mn)).x (max (Vec3.abs (mx - mn)).y (Vec3.abs (mx - mn)).z))
              - Vec3.div (Vec3.scale 2 (mn - Vec3.scale (1 / 2) (mx + mn)))
                (max (Vec3.abs (mx - mn)).x
                  (max (Vec3.abs (mx - mn)).y (Vec3.abs (mx - mn)).z)))).z) = 2 := by
  obtain ⟨ax, ay, az⟩ := mn
  obtain ⟨bx, b_y, bz⟩ := mx
  simp only [Vec3.abs, Vec3.sub_def, Vec3.add_def, Vec3.scale, Vec3.div] at hs ⊢
  generalize hS : max |bx - ax| (max |b_y - ay| |bz - az|) = s at hs ⊢
  have hne : s ≠ 0 := ne_of_gt hs
  constructor
  · simp only [Vec3.mk.injEq]
    refine ⟨?_, ?_, ?_⟩ <;> field_simp <;> ring
  · have hk : (0 : K) ≤ 2 / s := le_of_lt (div_pos two_pos hs)
    rw [scaled_side ax bx _ s hs, scaled_side ay b_y _ s hs, scaled_side az bz _ s hs,
      ← mul_max_of_nonneg _ _ hk, ← mul_max_of_nonneg _ _ hk, hS]
    field_simp

/-- The map of `scaleAndCenter` with the centroid at the origin and the scale `2`
is the identity. -/
theorem scaleMap_origin_two (v : Vec3 K) :
    Vec3.div (Vec3.scale 2 (v - ⟨0, 0, 0⟩)) 2 = v := by
  obtain ⟨x, y, z⟩ := v
  simp only [Vec3.sub_def, Vec3.scale, Vec3.div, Vec3.mk.injEq, sub_zero]
  refine ⟨?_, ?_, ?_⟩ <;> field_simp

/-- What `scaleAndCenter` does to a vertex list whose bounding box has a positive
largest side. -/
theorem scaleAndCenterVertices_spec (vertices : List (Vec3 K)) (c : Vec3 K) (s : K)
    (hcs : findCentroidAndScale vertices = .ok (c, s)) (hpos : 0 < s) :
    scaleAndCenterVertices vertices =
        .ok (vertices.map (fun v => Vec3.div (Vec3.scale 2 (v - c)) s)) ∧
      findCentroidAndScale (vertices.map (fun v => Vec3.div (Vec3.scale 2 (v - c)) s))
        = .ok (⟨0, 0, 0⟩, 2) ∧
      (∀ v ∈ vertices.map (fun v => Vec3.div (Vec3.scale 2 (v - c)) s),
        (-1 ≤ v.x ∧ v.x ≤ 1) ∧ (-1 ≤ v.y ∧ v.y ≤ 1) ∧ (-1 ≤ v.z ∧ v.z ≤ 1)) ∧
      scaleAndCenterVertices (vertices.map (fun v => Vec3.div (Vec3.scale 2 (v - c)) s))
        = .ok (vertices.map (fun v => Vec3.div (Vec3.scale 2 (v - c)) s)) := by
  have hfirst : scaleAndCenterVertices vertices =
      .ok (vertices.map (fun v => Vec3.div (Vec3.scale 2 (v - c)) s)) := by
    simp only [scaleAndCenterVertices, hcs]
  unfold findCentroidAndScale at hcs
  cases hv0 : vertices[0]? with
  | none =>
    rw [hv0] at hcs
    exact Except.noConfusion hcs
  | some v0 =>
    rw [hv0] at hcs
    have hpair := Except.ok.inj hcs
    have hc := (Prod.mk.inj hpair).1
    have hsd := (Prod.mk.inj hpair).2
    have hsecond : findCentroidAndScale
        (vertices.map (fun v => Vec3.div (Vec3.scale 2 (v - c)) s)) = .ok (⟨0, 0, 0⟩, 2) := by
      have hpos2 := hpos
      rw [← hsd] at hpos2
      obtain ⟨h1, h2⟩ := scaled_centroid_scale _ _ hpos2
      unfold findCentroidAndScale
      rw [List.getElem?_map, hv0]
      simp only [Option.map_some']
      rw [bounds_scaled c s hpos vertices (v0, v0), ← hc, ← hsd]
      simp only [h1, h2]
    refine ⟨hfirst, hsecond, ?_, ?_⟩
    · intro w hw
      obtain ⟨v, hv, rfl⟩ := List.mem_map.mp hw
      obtain ⟨_, hall⟩ := bounds_enclose vertices (v0, v0)
      obtain ⟨⟨l1, l2, l3⟩, u1, u2, u3⟩ := hall v hv
      have sx : |((vertices.foldl boundsStep (v0, v0)).2 - (vertices.foldl boundsStep (v0, v0)).1).x|
          ≤ s := by
        rw [← hsd]
        exact le_max_left _ _
      have sy : |((vertices.foldl boundsStep (v0, v0)).2 - (vertices.foldl boundsStep (v0, v0)).1).y|
          ≤ s := by
        rw [← hsd]
        exact le_trans (le_max_left _ _) (le_max_right _ _)
      have sz : |((vertices.foldl boundsStep (v0, v0)).2 - (vertices.foldl boundsStep (v0, v0)).1).z|
          ≤ s := by
        rw [← hsd]
        exact le_trans (le_max_right _ _) (le_max_right _ _)
      rw [← hc]
      exact ⟨scaled_coordinate_bounds _ _ _ s hpos l1 u1 sx,
        scaled_coordinate_bounds _ _ _ s hpos l2 u2 sy,
        scaled_coordinate_bounds _ _ _ s hpos l3 u3 sz⟩
    · simp only [scaleAndCenterVertices, hsecond, scaleMap_origin_two, List.map_id']

end ScaleMainLemmas

section ScaleClaims

variable {K : Type} [LinearOrderedField K]

/-- C28. For a vertex list on which `findCentroidAndScale` returns (so the list is
not empty) with a positive scale, the largest side of the bounding box: after
`scaleAndCenter`, of `TriangleMeshData` and of `LineMeshData` alike, the bounding
box of the vertices has its centre at the origin and its largest side is `2`
(`findCentroidAndScale` returns the centroid `(0,0,0)` and the scale `2`), every
coordinate lies in `[-1, 1]`, and a second `scaleAndCenter` changes nothing. -/
theorem scaleAndCenter_normalises (vertices : List (Vec3 K)) (c : Vec3 K) (s : K)
    (hcs : findCentroidAndScale vertices = .ok (c, s)) (hpos : 0 < s) :
    ∃ vs : List (Vec3 K),
      findCentroidAndScale vs = .ok (⟨0, 0, 0⟩, 2) ∧
      (∀ v ∈ vs, (-1 ≤ v.x ∧ v.x ≤ 1) ∧ (-1 ≤ v.y ∧ v.y ≤ 1) ∧ (-1 ≤ v.z ∧ v.z ≤ 1)) ∧
      (∀ m : TriangleMeshData K, m.vertices = vertices →
        m.scaleAndCenter = .ok { m with vertices := vs } ∧
          TriangleMeshData.scaleAndCenter { m with vertices := vs }
            = .ok { m with vertices := vs }) ∧
      (∀ m : LineMeshData K, m.vertices = vertices →
        m.scaleAndCenter = .ok { m with vertices := vs } ∧
          LineMeshData.scaleAndCenter { m with vertices := vs }
            = .ok { m with vertices := vs }) := by
  obtain ⟨h1, h2, h3, h4⟩ := scaleAndCenterVertices_spec vertices c s hcs hpos
  refine ⟨_, h2, h3, ?_, ?_⟩
  · intro m hm
    subst hm
    constructor
    · simp only [TriangleMeshData.scaleAndCenter, h1]
    · simp only [TriangleMeshData.scaleAndCenter, h4]
  · intro m hm
    subst hm
    constructor
    · simp only [LineMeshData.scaleAndCenter, h1]
    · simp only [LineMeshData.scaleAndCenter, h4]

end ScaleClaims

section ScaleWitness

/-- C28, at the vertices `(0,0,0), (4,2,0)`: centroid `(2,1,0)`, scale `4`. -/
theorem scaleAndCenter_normalises_witness :
    ∃ vs : List (Vec3 ℚ),
      findCentroidAndScale vs = .ok (⟨0, 0, 0⟩, 2) ∧
      (∀ v ∈ vs, (-1 ≤ v.x ∧ v.x ≤ 1) ∧ (-1 ≤ v.y ∧ v.y ≤ 1) ∧ (-1 ≤ v.z ∧ v.z ≤ 1)) ∧
      (∀ m : TriangleMeshData ℚ, m.vertices = [⟨0, 0, 0⟩, ⟨4, 2, 0⟩] →
        m.scaleAndCenter = .ok { m with vertices := vs } ∧
          TriangleMeshData.scaleAndCenter { m with vertices := vs }
            = .ok { m with vertices := vs }) ∧
      (∀ m : LineMeshData ℚ, m.vertices = [⟨0, 0, 0⟩, ⟨4, 2, 0⟩] →
        m.scaleAndCenter = .ok { m with vertices := vs } ∧
          LineMeshData.scaleAndCenter { m with vertices := vs }
            = .ok { m with vertices := vs }) :=
  scaleAndCenter_normalises [⟨0, 0, 0⟩, ⟨4, 2, 0⟩] ⟨2, 1, 0⟩ 4
    (by norm_num [findCentroidAndScale, boundsStep, Vec3.scale, Vec3.abs, Vec3.add_def,
      Vec3.sub_def])
    (by norm_num)

end ScaleWitness

end rcube
